import Mathlib

/-!
# SH1106_OLED: framebuffer, rasteriser and transfer protocol

A shallow embedding of `SH1106_OLED.cpp` / `util.cpp`.

* 8-bit unsigned values (`uint8_t`) are natural numbers; every conversion to
  `uint8_t` that can truncate is written `% 256`.
* `int16_t` locals of the circle routines are integers; for an 8-bit radius
  they stay inside the 16-bit range (`circleInv_int16`), so no wrap is written
  for them.
* The framebuffer is the list of its bytes.  An access outside the allocated
  buffer is undefined in C++; here a read-modify-write or store outside the
  buffer leaves the bytes alone and raises the sticky `fault` flag, and a
  plain read outside the buffer yields `0`.
-/

namespace SH1106

/-! ## Data model -/

/-- The bus maximum payload, `#define WIRE_MAX 32`. -/
def WIRE_MAX : Nat := 32

/-- The two glyph tables of `GFX.cpp` that `setFontSize` selects between. -/
inductive FontSet where
  | alphabet_5x5_monospace
  | alphabet_5x4_monospace
deriving DecidableEq, Repr

/-- The fields of `class SH1106_OLED` that the drawing code reads or writes
(`address` only labels bus transmissions and is a parameter of `display`). -/
structure SH1106_OLED where
  width : Nat
  height : Nat
  buffer : List Nat
  fontSize : Nat
  fontSet : FontSet
  fault : Bool
deriving DecidableEq, Repr

/-- `setFontSize`: stores `size` and selects the 5x5 table for size 5, the 5x4
table for every other size. -/
def setFontSize (d : SH1106_OLED) (size : Nat) : SH1106_OLED :=
  { d with
    fontSize := size
    fontSet := if size = 5 then FontSet.alphabet_5x5_monospace
               else FontSet.alphabet_5x4_monospace }

/-- The constructor followed by `init()`, bus traffic left out: `bufferSize =
width * height / 8` zero bytes, then `setFontSize(4)`. -/
def init (width height : Nat) : SH1106_OLED :=
  setFontSize
    { width := width, height := height,
      buffer := List.replicate (width * height / 8) 0,
      fontSize := 0, fontSet := FontSet.alphabet_5x4_monospace, fault := false } 4

/-- The layout the data model assumes: 8-bit dimensions, a height that is a
multiple of 8 and a buffer of `width * height / 8` bytes. -/
def WF (d : SH1106_OLED) : Prop :=
  d.width < 256 ∧ d.height < 256 ∧ d.height % 8 = 0 ∧
    d.buffer.length = d.width * d.height / 8

instance (d : SH1106_OLED) : Decidable (WF d) := by
  unfold WF; infer_instance

/-- `buffer[idx] op= ...` stored back into a `uint8_t`. -/
def rmw (d : SH1106_OLED) (idx : Nat) (f : Nat → Nat) : SH1106_OLED :=
  if idx < d.buffer.length then
    { d with buffer := d.buffer.set idx (f (d.buffer.getD idx 0) % 256) }
  else { d with fault := true }

/-- `buffer[idx] = v`. -/
def store (d : SH1106_OLED) (idx v : Nat) : SH1106_OLED :=
  rmw d idx (fun _ => v)

/-- `x + ((y / 8) * width)`, the `bufferIndex` of the pixel routines; for 8-bit
`x`, `y`, `width` it is below `2^16`, so the `uint16_t` holds it exactly. -/
def bufferIndex (d : SH1106_OLED) (x y : Nat) : Nat :=
  x + (y / 8) * d.width

/-- `getPixel`: `(buffer[bufferIndex] >> y) & 0x01`, converted to `bool`. -/
def getPixel (d : SH1106_OLED) (x y : Nat) : Bool :=
  ((d.buffer.getD (bufferIndex d x y) 0 >>> y) &&& 1) != 0

/-- `setPixel`: `buffer[bufferIndex] |= (0x01 << (y & 0x07))`. -/
def setPixel (d : SH1106_OLED) (x y : Nat) : SH1106_OLED :=
  rmw d (bufferIndex d x y) (fun b => b ||| (1 <<< (y &&& 7)))

/-- `clearPixel`: `buffer[bufferIndex] &= ~(0x01 << (y & 0x07))`; on the low
eight bits `~m` is `255 ^^^ m`. -/
def clearPixel (d : SH1106_OLED) (x y : Nat) : SH1106_OLED :=
  rmw d (bufferIndex d x y) (fun b => b &&& (255 ^^^ (1 <<< (y &&& 7))))

/-- `invertPixel`: `buffer[bufferIndex] ^= (0x01 << (y & 0x07))`. -/
def invertPixel (d : SH1106_OLED) (x y : Nat) : SH1106_OLED :=
  rmw d (bufferIndex d x y) (fun b => b ^^^ (1 <<< (y &&& 7)))

/-- `clear`: `memset(buffer, 0x00, bufferSize)`. -/
def clear (d : SH1106_OLED) : SH1106_OLED :=
  { d with buffer := List.replicate d.buffer.length 0 }

/-- The framebuffer bit that `setPixel`, `clearPixel` and `invertPixel`
address for pixel `(x, y)`: bit `y mod 8` of byte `x + (y / 8) * width`. -/
def bitAt (d : SH1106_OLED) (x y : Nat) : Bool :=
  (d.buffer.getD (bufferIndex d x y) 0).testBit (y % 8)

/-! ## util.cpp -/

/-- `clamp(value, lowerBound, upperBound)` on `uint8_t`, returning the new
`value`. -/
def clamp (value lowerBound upperBound : Nat) : Nat :=
  if value < lowerBound then lowerBound
  else if value > upperBound then upperBound
  else value

/-- Conversion of an `int` expression to `uint8_t`. -/
def u8 (v : Int) : Nat := (v % 256).toNat

/-- `pgm_read_byte(table + i)`. -/
def pgm_read_byte (table : List Nat) (i : Nat) : Nat := table.getD i 0 % 256

/-! ## Lines -/

/-- `drawHLine(x1, x2, y)`. The upper clamp bounds `width - 1`, `height - 1`
are `int` expressions converted to `uint8_t`. -/
def drawHLine (d : SH1106_OLED) (x1 x2 y : Nat) : SH1106_OLED :=
  let x1 := clamp x1 0 (u8 ((d.width : Int) - 1))
  let x2 := clamp x2 0 (u8 ((d.width : Int) - 1))
  let y := clamp y 0 (u8 ((d.height : Int) - 1))
  let xMin := if x2 < x1 then x2 else x1
  let distance := if x2 < x1 then u8 ((x1 : Int) - x2) else u8 ((x2 : Int) - x1)
  let minBufferIndex := (y / 8) * d.width + xMin
  if distance = 0 then
    rmw d minBufferIndex (fun b => b ||| (1 <<< (y &&& 7)))
  else
    (List.range (distance + 1)).foldl
      (fun d i => rmw d (minBufferIndex + i) (fun b => b ||| (1 <<< (y &&& 7)))) d

/-- The `firstByte` loop of `drawVLine`: starting from `0x01`, `distance`
rounds of `firstByte <<= 1; firstByte ^= 0x01` on a `uint8_t`. -/
def firstByteLoop (distance : Nat) : Nat :=
  (List.range distance).foldl (fun firstByte _ => ((firstByte <<< 1) % 256) ^^^ 1) 1

/-- `drawVLine(y1, y2, x)`. -/
def drawVLine (d : SH1106_OLED) (y1 y2 x : Nat) : SH1106_OLED :=
  let y1 := clamp y1 0 (u8 ((d.height : Int) - 1))
  let y2 := clamp y2 0 (u8 ((d.height : Int) - 1))
  let x := clamp x 0 (u8 ((d.width : Int) - 1))
  let yMin := if y2 < y1 then y2 else y1
  let distance := if y2 < y1 then u8 ((y1 : Int) - y2) else u8 ((y2 : Int) - y1)
  let yMax := (yMin + distance) % 256
  let byteDistance := u8 (((yMax / 8 : Nat) : Int) - ((yMin / 8 : Nat) : Int))
  let minBufferIndex := (yMin / 8) * d.width + x
  if distance = 0 then
    rmw d minBufferIndex (fun b => b ||| (1 <<< (y1 &&& 7)))
  else
    let firstByte := if byteDistance = 0 ∧ distance < 8 then firstByteLoop distance else 0xFF
    let d := rmw d minBufferIndex (fun b => b ||| (firstByte <<< (yMin &&& 7)))
    let d := (List.range' 1 (byteDistance - 1)).foldl
      (fun d i => store d (minBufferIndex + i * d.width) 0xFF) d
    if byteDistance > 0 then
      rmw d ((yMax / 8) * d.width + x) (fun b => b ||| (0xFF >>> (7 - (yMax &&& 7))))
    else d

/-! ## Bitmap blit and text -/

/-- `pageCount` of `drawBitmap`: `(bitMapHeight / 8) + (bitMapHeight % 8 != 0)`
as a `uint8_t`. -/
def pageCount (bitMapHeight : Nat) : Nat :=
  (bitMapHeight / 8 + (if bitMapHeight % 8 ≠ 0 then 1 else 0)) % 256

/-- `drawBitmap(bitmap, x, y, bitMapWidth, bitMapHeight)`. -/
def drawBitmap (d : SH1106_OLED) (bitmap : List Nat) (x y bitMapWidth bitMapHeight : Nat) :
    SH1106_OLED :=
  if bitMapWidth * bitMapHeight = 0 then d
  else
    let verticalOffset := y &&& 7
    let bufferIndex := x + (y / 8) * d.width
    (List.range (pageCount bitMapHeight)).foldl
      (fun d j => (List.range bitMapWidth).foldl
        (fun d i =>
          let byteToWrite := pgm_read_byte bitmap (i + j * bitMapWidth)
          let d := rmw d (bufferIndex + i + j * d.width)
            (fun b => b ||| (byteToWrite <<< verticalOffset))
          if verticalOffset ≠ 0 then
            rmw d (bufferIndex + i + (j + 1) * d.width)
              (fun b => b ||| (byteToWrite >>> (8 - verticalOffset)))
          else d) d) d

/-- `String::toUpperCase` on one character code. -/
def toUpperCase (c : Nat) : Nat := if 97 ≤ c ∧ c ≤ 122 then c - 32 else c

/-- The staging row `message` of `print`: `messageLength` zeroed 16-bit cells,
then for each character `fontSize` glyph columns at `i * fontWidthInc + j`.
`glyphs` is the table `fontSet` points at. -/
def stageMessage (glyphs : List Nat) (fontSize : Nat) (msg : List Nat) : List Nat :=
  let fontWidthInc := fontSize + 1
  let messageLength : Int := (msg.length : Int) * fontWidthInc - 1
  (List.range msg.length).foldl
    (fun message i =>
      let s := toUpperCase (msg.getD i 0)
      let letterIndex := u8 ((s : Int) - 32)
      (List.range fontSize).foldl
        (fun message j =>
          message.set (i * fontWidthInc + j)
            (pgm_read_byte glyphs (letterIndex * fontSize + j))) message)
    (List.replicate messageLength.toNat 0)

/-- The body of the compositing loop of `print` for staged column `i`: the
low byte of the shifted column is or-ed into `buffer[bufferIndex + i]`, and when
`(y / 8) < (y + fontSize) / 8` the high byte is assigned to
`buffer[bufferIndex + i + width]`. -/
def printStep (message : List Nat) (bufferIndex y : Nat) (d : SH1106_OLED) (i : Nat) :
    SH1106_OLED :=
  let d := rmw d (bufferIndex + i)
    (fun b => b ||| ((message.getD i 0 <<< (y &&& 7)) &&& 0xFF))
  if y / 8 < (y + d.fontSize) / 8 then
    store d (bufferIndex + i + d.width) (((message.getD i 0 <<< (y &&& 7)) >>> 8) &&& 0xFF)
  else d

/-- `print(msg, x, y)`; `table` gives the contents of each glyph table and
`msg` is the list of character codes. -/
def print (table : FontSet → List Nat) (d : SH1106_OLED) (msg : List Nat) (x y : Nat) :
    SH1106_OLED :=
  let message := stageMessage (table d.fontSet) d.fontSize msg
  let bufferIndex := x + (y / 8) * d.width
  (List.range message.length).foldl (printStep message bufferIndex y) d

/-! ## Filled circle -/

/-- The four `drawHLine` calls at the end of one round of the loop of
`drawCircleFill`, for the stepped `x` and `y`. -/
def circleSpans (d : SH1106_OLED) (xCentre yCentre : Nat) (x y : Int) : SH1106_OLED :=
  let d := drawHLine d (u8 (xCentre - x)) (u8 (xCentre + x)) (u8 (yCentre + y))
  let d := drawHLine d (u8 (xCentre - x)) (u8 (xCentre + x)) (u8 (yCentre - y))
  let d := drawHLine d (u8 (xCentre - y)) (u8 (xCentre + y)) (u8 (yCentre + x))
  drawHLine d (u8 (xCentre - y)) (u8 (xCentre + y)) (u8 (yCentre - x))

/-- The `while (x < y)` loop of `drawCircleFill`. -/
def circleFillLoop (d : SH1106_OLED) (xCentre yCentre : Nat) (f ddF_x ddF_y x y : Int) :
    SH1106_OLED :=
  if x < y then
    let y1 := if f ≥ 0 then y - 1 else y
    let ddF_y1 := if f ≥ 0 then ddF_y + 2 else ddF_y
    let f1 := if f ≥ 0 then f + ddF_y1 else f
    let x1 := x + 1
    let ddF_x1 := ddF_x + 2
    let f2 := f1 + ddF_x1
    circleFillLoop (circleSpans d xCentre yCentre x1 y1) xCentre yCentre f2 ddF_x1 ddF_y1 x1 y1
  else d
termination_by (y - x).toNat
decreasing_by
  split <;> omega

/-- `drawCircleFill(xCentre, yCentre, radius)`. -/
def drawCircleFill (d : SH1106_OLED) (xCentre yCentre radius : Nat) : SH1106_OLED :=
  let d := drawHLine d (u8 ((xCentre : Int) - radius)) (u8 ((xCentre : Int) + radius)) yCentre
  circleFillLoop d xCentre yCentre (1 - (radius : Int)) 1 (-2 * (radius : Int)) 0 radius

/-! ## Transfer protocol -/

/-- One call on the `Wire` bus object. -/
inductive WireEvent where
  | beginTransmission (address : Nat)
  | write (byte : Nat)
  | endTransmission (stop : Bool)
deriving DecidableEq, Repr

/-- The body of the `j` loop of `display()`: write one framebuffer byte, count
it, and when the count reaches `WIRE_MAX` close the transmission without a
stop and open the next one with its marker byte. The state is the trace so far
and `bytesWritten`. -/
def displayStep (d : SH1106_OLED) (address i : Nat) (st : List WireEvent × Nat) (j : Nat) :
    List WireEvent × Nat :=
  let ev := st.1 ++ [WireEvent.write (d.buffer.getD (j + i * 128) 0)]
  let bytesWritten := (st.2 + 1) % 256
  if bytesWritten = WIRE_MAX then
    (ev ++ [WireEvent.endTransmission false, WireEvent.beginTransmission address,
      WireEvent.write 0x40], 1)
  else (ev, bytesWritten)

/-- The body of the outer loop of `display()` for page `i`: the 4-byte command
packet, then the data transmissions of the `j` loop. -/
def displayPage (d : SH1106_OLED) (address i : Nat) : List WireEvent :=
  [WireEvent.beginTransmission address, WireEvent.write 0x00,
    WireEvent.write ((0xB0 + i) % 256), WireEvent.write 0x10, WireEvent.write 0x02,
    WireEvent.endTransmission true] ++
  ((List.range 128).foldl (displayStep d address i)
    ([WireEvent.beginTransmission address, WireEvent.write 0x40], 1)).1 ++
  [WireEvent.endTransmission true]

/-- `display()`: the trace of bus calls, pages `0..7` in order. -/
def display (d : SH1106_OLED) (address : Nat) : List WireEvent :=
  (List.range 8).foldl (fun trace i => trace ++ displayPage d address i) []

/-- How one bus call extends the transactions seen so far (`st.1`) and the
bytes of the transaction that is open (`st.2`). -/
def txStep (st : List (List Nat) × List Nat) : WireEvent → List (List Nat) × List Nat
  | WireEvent.beginTransmission _ => (st.1, [])
  | WireEvent.write b => (st.1, st.2 ++ [b])
  | WireEvent.endTransmission _ => (st.1 ++ [st.2], [])

/-- The bus transactions of a trace: the bytes written between each
`beginTransmission` and the `endTransmission` that closes it. -/
def transactions (trace : List WireEvent) : List (List Nat) :=
  (trace.foldl txStep ([], [])).1

/-- The data transactions of a trace: those whose first byte is the data-mode
marker `0x40`. -/
def dataTransactions (trace : List WireEvent) : List (List Nat) :=
  (transactions trace).filter (fun t => t.head? = some 0x40)

/-- The command packets of a trace: the transactions whose first byte is the
control byte `0x00`. -/
def commandPackets (trace : List WireEvent) : List (List Nat) :=
  (transactions trace).filter (fun t => t.head? = some 0x00)

/-- Framebuffer byte `j` of page `i` as `display()` reads it,
`buffer[j + (i * 128)]`. -/
def pageByte (d : SH1106_OLED) (i j : Nat) : Nat := d.buffer.getD (j + i * 128) 0

/-- A full data transaction of page `i`: the marker and framebuffer bytes
`31 * k .. 31 * k + 30` of the page. -/
def pageChunk (d : SH1106_OLED) (i k : Nat) : List Nat :=
  0x40 :: (List.range 31).map (fun t => pageByte d i (31 * k + t))

/-! ## Whole-buffer routines and rectangles -/

/-- `invert`: `buffer[i] = ~buffer[i]` for every `i < bufferSize`; stored back
into a `uint8_t`, `~b` is `255 ^^^ b` on the low eight bits. -/
def invert (d : SH1106_OLED) : SH1106_OLED :=
  { d with buffer := d.buffer.map (fun b => (255 ^^^ b) % 256) }

/-- `drawRect(x, y, w, h)`: two horizontal and two vertical lines; the sums
are `int` expressions converted to `uint8_t`. -/
def drawRect (d : SH1106_OLED) (x y w h : Nat) : SH1106_OLED :=
  let d := drawHLine d x (u8 ((x : Int) + w)) y
  let d := drawHLine d x (u8 ((x : Int) + w)) (u8 ((y : Int) + h))
  let d := drawVLine d y (u8 ((y : Int) + h)) x
  drawVLine d y (u8 ((y : Int) + h)) (u8 ((x : Int) + w))

/-- `drawRectFill(x, y, w, h)`: `drawHLine(x, x + w, y + i)` for `i = 0 .. h`. -/
def drawRectFill (d : SH1106_OLED) (x y w h : Nat) : SH1106_OLED :=
  (List.range (h + 1)).foldl
    (fun d (i : Nat) => drawHLine d x (u8 ((x : Int) + w)) (u8 ((y : Int) + i))) d

/-! ## Arbitrary line -/

/-- How a call that contains a loop with a wrapping counter, or a division,
ends: it returns the display, it divides by zero, or it is still looping when
the iteration budget is used up. -/
inductive Outcome where
  | done (d : SH1106_OLED)
  | divByZero
  | outOfFuel
deriving DecidableEq, Repr

/-- Conversion of an `int` expression to `int8_t`. -/
def wrap8 (v : Int) : Int := (v + 128) % 256 - 128

/-- `sign(value)`: `(value > 0) - (value < 0)`. -/
def sign (value : Int) : Int :=
  (if value > 0 then 1 else 0) - (if value < 0 then 1 else 0)

/-- The Arduino macro `abs(x)`: `((x) > 0 ? (x) : -(x))`, evaluated in `int`. -/
def absInt (x : Int) : Int := if x > 0 then x else -x

/-- The two floating-point expressions of `drawLine`, converted to `uint8_t`:
`yValue yDistance xDistance xIncrement y1` stands for
`(gradient * xIncrement) + y1 + 0.5` and `xValue yDistance xDistance yIncrement x1`
for `(yIncrement / gradient) + x1 + 0.5`, where
`gradient = yDistance / (float)xDistance`. -/
structure LineArith where
  yValue : Int → Int → Int → Nat → Nat
  xValue : Int → Int → Int → Nat → Nat

/-- The loop `for (int8_t i = 0; i <= abs(xDistance); i++)` of `drawLine`, from
counter value `i`; `i++` is stored back into an `int8_t`. -/
def lineLoopX (arith : LineArith) (x1 y1 : Nat) (xDistance yDistance : Int) :
    Nat → SH1106_OLED → Int → Outcome
  | 0, _, _ => Outcome.outOfFuel
  | fuel + 1, d, i =>
    if i ≤ absInt xDistance then
      let xIncrement := wrap8 (i * sign xDistance)
      let yValue := arith.yValue yDistance xDistance xIncrement y1
      lineLoopX arith x1 y1 xDistance yDistance fuel
        (setPixel d (u8 (xIncrement + x1)) yValue) (wrap8 (i + 1))
    else Outcome.done d

/-- The loop `for (int8_t i = 0; i <= abs(yDistance); i++)` of `drawLine`. -/
def lineLoopY (arith : LineArith) (x1 y1 : Nat) (xDistance yDistance : Int) :
    Nat → SH1106_OLED → Int → Outcome
  | 0, _, _ => Outcome.outOfFuel
  | fuel + 1, d, i =>
    if i ≤ absInt yDistance then
      let yIncrement := wrap8 (i * sign yDistance)
      let xValue := arith.xValue yDistance xDistance yIncrement x1
      lineLoopY arith x1 y1 xDistance yDistance fuel
        (setPixel d xValue (u8 (yIncrement + y1))) (wrap8 (i + 1))
    else Outcome.done d

/-- `drawLine(x1, y1, x2, y2)` with an iteration budget `fuel` for its stepping
loop. The test `gradient <= 1 && gradient >= -1` on the quotient of two 8-bit
integers is the integer test `|yDistance| <= |xDistance|`: the quotient of a
larger by a smaller magnitude is at least `1 + 1/128`, far from `1` in single
precision. -/
def drawLine (arith : LineArith) (fuel : Nat) (d : SH1106_OLED) (x1 y1 x2 y2 : Nat) :
    Outcome :=
  if y1 = y2 then Outcome.done (drawHLine d x1 x2 y1)
  else if x1 = x2 then Outcome.done (drawVLine d y1 y2 x1)
  else
    let xDistance := wrap8 ((x2 : Int) - x1)
    let yDistance := wrap8 ((y2 : Int) - y1)
    if absInt yDistance ≤ absInt xDistance then
      lineLoopX arith x1 y1 xDistance yDistance fuel d 0
    else
      lineLoopY arith x1 y1 xDistance yDistance fuel d 0

/-! ## Filled triangle -/

/-- `swap(a, b)` of `util.cpp` on `uint8_t`: `b = a + b; a = b - a; b = b - a`,
each result stored back into a `uint8_t`; returns the new `(a, b)`. -/
def swap (a b : Nat) : Nat × Nat :=
  let b1 := (a + b) % 256
  let a1 := u8 ((b1 : Int) - a)
  let b2 := u8 ((b1 : Int) - a1)
  (a1, b2)

/-- The first scanline loop of `drawTriangleFill`,
`for (uint8_t y = y1; y <= yStop; y++)`, from row `y`. -/
def triLoop1 (x1 : Nat) (xDistance12 yDistance12 xDistance13 yDistance13 : Int)
    (yStop : Nat) : Nat → SH1106_OLED → Nat → Int → Int → Outcome
  | 0, _, _, _, _ => Outcome.outOfFuel
  | fuel + 1, d, y, runAmount12, runAmount13 =>
    if y ≤ yStop then
      if yDistance12 = 0 ∨ yDistance13 = 0 then Outcome.divByZero
      else
        let xMin := u8 (x1 + Int.tdiv runAmount12 yDistance12)
        let xMax := u8 (x1 + Int.tdiv runAmount13 yDistance13)
        triLoop1 x1 xDistance12 yDistance12 xDistance13 yDistance13 yStop fuel
          (drawHLine d xMin xMax y) ((y + 1) % 256)
          (runAmount12 + xDistance12) (runAmount13 + xDistance13)
    else Outcome.done d

/-- The second scanline loop of `drawTriangleFill`,
`for (uint8_t y = yStop + 1; y < y3; y++)`, from row `y`. -/
def triLoop2 (x1 x2 y3 : Nat) (xDistance13 yDistance13 xDistance23 yDistance23 : Int) :
    Nat → SH1106_OLED → Nat → Int → Int → Outcome
  | 0, _, _, _, _ => Outcome.outOfFuel
  | fuel + 1, d, y, runAmount13, runAmount23 =>
    if y < y3 then
      if yDistance23 = 0 ∨ yDistance13 = 0 then Outcome.divByZero
      else
        let xMin := u8 (x2 + Int.tdiv runAmount23 yDistance23)
        let xMax := u8 (x1 + Int.tdiv runAmount13 yDistance13)
        triLoop2 x1 x2 y3 xDistance13 yDistance13 xDistance23 yDistance23 fuel
          (drawHLine d xMin xMax y) ((y + 1) % 256)
          (runAmount13 + xDistance13) (runAmount23 + xDistance23)
    else Outcome.done d

/-- The vertices of `drawTriangleFill` after its three conditional swaps, as
`(x1, y1, x2, y2, x3, y3)`. -/
def triSort (x1 y1 x2 y2 x3 y3 : Nat) : Nat × Nat × Nat × Nat × Nat × Nat :=
  let ya := if y2 < y1 then swap y1 y2 else (y1, y2)
  let xa := if y2 < y1 then swap x1 x2 else (x1, x2)
  let yb := if y3 < ya.2 then swap ya.2 y3 else (ya.2, y3)
  let xb := if y3 < ya.2 then swap xa.2 x3 else (xa.2, x3)
  let yc := if yb.1 < ya.1 then swap ya.1 yb.1 else (ya.1, yb.1)
  let xc := if yb.1 < ya.1 then swap xa.1 xb.1 else (xa.1, xb.1)
  (xc.1, yc.1, xc.2, yc.2, xb.2, yb.2)

/-- The span ends `(xMin, xMax)` that `drawTriangleFill` computes when
`y1 == y3`. -/
def triFlatSpan (x1 x2 x3 : Nat) : Nat × Nat :=
  let xMin := x1
  let xMax := x3
  let xMin := if x2 < xMin then x2 else xMin
  let xMin := if x3 < xMin then x3 else xMin
  let xMax := if x1 > xMax then x1 else xMax
  let xMax := if x2 > xMax then x2 else xMax
  (xMin, xMax)

/-- `drawTriangleFill(x1, y1, x2, y2, x3, y3)` with an iteration budget `fuel`
for each of its two scanline loops. The `int32_t` run amounts are integers:
within 256 rounds of steps of magnitude at most 128 they cannot overflow. -/
def drawTriangleFill (fuel : Nat) (d : SH1106_OLED) (x1 y1 x2 y2 x3 y3 : Nat) : Outcome :=
  match triSort x1 y1 x2 y2 x3 y3 with
  | (x1, y1, x2, y2, x3, y3) =>
    if y1 = y3 then
      Outcome.done (drawHLine d (triFlatSpan x1 x2 x3).1 (triFlatSpan x1 x2 x3).2 y1)
    else
      let xDistance12 := wrap8 ((x2 : Int) - x1)
      let xDistance13 := wrap8 ((x3 : Int) - x1)
      let xDistance23 := wrap8 ((x3 : Int) - x2)
      let yDistance12 := wrap8 ((y2 : Int) - y1)
      let yDistance13 := wrap8 ((y3 : Int) - y1)
      let yDistance23 := wrap8 ((y3 : Int) - y2)
      let yStop := if y2 = y3 then (u8 ((y2 : Int) - 1) + 1) % 256 else u8 ((y2 : Int) - 1)
      match triLoop1 x1 xDistance12 yDistance12 xDistance13 yDistance13 yStop fuel d y1 0 0 with
      | Outcome.done d =>
        triLoop2 x1 x2 y3 xDistance13 yDistance13 xDistance23 yDistance23 fuel d
          (u8 ((yStop : Int) + 1))
          (xDistance13 * ((yStop : Int) - y1 + 1)) (xDistance23 * ((yStop : Int) - y2 + 1))
      | other => other

/-! ## Circle outline and corner arcs -/

/-- `enum Corner`. -/
inductive Corner where
  | TOP_LEFT
  | TOP_RIGHT
  | BOTTOM_RIGHT
  | BOTTOM_LEFT
deriving DecidableEq, Repr

/-- The `while (x < y)` loop that `drawCircle` and `drawArc` share word for
word, with the plotting statements at the end of a round as `plot`. -/
def midpointLoop (plot : SH1106_OLED → Int → Int → SH1106_OLED) (d : SH1106_OLED)
    (f ddF_x ddF_y x y : Int) : SH1106_OLED :=
  if x < y then
    let y1 := if f ≥ 0 then y - 1 else y
    let ddF_y1 := if f ≥ 0 then ddF_y + 2 else ddF_y
    let f1 := if f ≥ 0 then f + ddF_y1 else f
    let x1 := x + 1
    let ddF_x1 := ddF_x + 2
    let f2 := f1 + ddF_x1
    midpointLoop plot (plot d x1 y1) f2 ddF_x1 ddF_y1 x1 y1
  else d
termination_by (y - x).toNat
decreasing_by
  split <;> omega

/-- The eight `setPixel` calls of one round of `drawCircle`. -/
def circlePlot (xCentre yCentre : Nat) (d : SH1106_OLED) (x y : Int) : SH1106_OLED :=
  let d := setPixel d (u8 (xCentre + x)) (u8 (yCentre + y))
  let d := setPixel d (u8 (xCentre - x)) (u8 (yCentre + y))
  let d := setPixel d (u8 (xCentre + x)) (u8 (yCentre - y))
  let d := setPixel d (u8 (xCentre - x)) (u8 (yCentre - y))
  let d := setPixel d (u8 (xCentre + y)) (u8 (yCentre + x))
  let d := setPixel d (u8 (xCentre - y)) (u8 (yCentre + x))
  let d := setPixel d (u8 (xCentre + y)) (u8 (yCentre - x))
  setPixel d (u8 (xCentre - y)) (u8 (yCentre - x))

/-- `drawCircle(xCentre, yCentre, radius)`. -/
def drawCircle (d : SH1106_OLED) (xCentre yCentre radius : Nat) : SH1106_OLED :=
  let d := setPixel d xCentre (u8 ((yCentre : Int) + radius))
  let d := setPixel d xCentre (u8 ((yCentre : Int) - radius))
  let d := setPixel d (u8 ((xCentre : Int) + radius)) yCentre
  let d := setPixel d (u8 ((xCentre : Int) - radius)) yCentre
  midpointLoop (circlePlot xCentre yCentre) d (1 - (radius : Int)) 1 (-2 * (radius : Int)) 0
    radius

/-- The plotting statements of one round of `drawArc`: the two `setPixel`
calls of the selected corner. -/
def arcPlot (corner : Corner) (xCentre yCentre : Nat) (d : SH1106_OLED) (x y : Int) :
    SH1106_OLED :=
  let d := if corner = Corner.TOP_LEFT then
      setPixel (setPixel d (u8 (xCentre - y)) (u8 (yCentre - x)))
        (u8 (xCentre - x)) (u8 (yCentre - y))
    else d
  let d := if corner = Corner.TOP_RIGHT then
      setPixel (setPixel d (u8 (xCentre + x)) (u8 (yCentre - y)))
        (u8 (xCentre + y)) (u8 (yCentre - x))
    else d
  let d := if corner = Corner.BOTTOM_RIGHT then
      setPixel (setPixel d (u8 (xCentre + x)) (u8 (yCentre + y)))
        (u8 (xCentre + y)) (u8 (yCentre + x))
    else d
  if corner = Corner.BOTTOM_LEFT then
    setPixel (setPixel d (u8 (xCentre - y)) (u8 (yCentre + x)))
      (u8 (xCentre - x)) (u8 (yCentre + y))
  else d

/-- `drawArc(xCentre, yCentre, radius, corner)`. -/
def drawArc (d : SH1106_OLED) (xCentre yCentre radius : Nat) (corner : Corner) :
    SH1106_OLED :=
  let d := if corner = Corner.BOTTOM_LEFT ∨ corner = Corner.BOTTOM_RIGHT then
      setPixel d xCentre (u8 ((yCentre : Int) + radius)) else d
  let d := if corner = Corner.TOP_LEFT ∨ corner = Corner.TOP_RIGHT then
      setPixel d xCentre (u8 ((yCentre : Int) - radius)) else d
  let d := if corner = Corner.TOP_RIGHT ∨ corner = Corner.BOTTOM_RIGHT then
      setPixel d (u8 ((xCentre : Int) + radius)) yCentre else d
  let d := if corner = Corner.TOP_LEFT ∨ corner = Corner.BOTTOM_LEFT then
      setPixel d (u8 ((xCentre : Int) - radius)) yCentre else d
  midpointLoop (arcPlot corner xCentre yCentre) d (1 - (radius : Int)) 1
    (-2 * (radius : Int)) 0 radius

/-- The stepped `(x, y)` of each round of the midpoint loop, in order. -/
def midpointTrace (f ddF_x ddF_y x y : Int) : List (Int × Int) :=
  if x < y then
    let y1 := if f ≥ 0 then y - 1 else y
    let ddF_y1 := if f ≥ 0 then ddF_y + 2 else ddF_y
    let f1 := if f ≥ 0 then f + ddF_y1 else f
    let x1 := x + 1
    let ddF_x1 := ddF_x + 2
    let f2 := f1 + ddF_x1
    (x1, y1) :: midpointTrace f2 ddF_x1 ddF_y1 x1 y1
  else []
termination_by (y - x).toNat
decreasing_by
  split <;> omega

/-! ## Specification vocabulary -/

/-- The fields a drawing call leaves alone. -/
def Frame (d d1 : SH1106_OLED) : Prop :=
  d1.width = d.width ∧ d1.height = d.height ∧ d1.buffer.length = d.buffer.length ∧
    d1.fault = d.fault ∧ d1.fontSize = d.fontSize ∧ d1.fontSet = d.fontSet

/-- An OR-only update: `d1` has the frame of `d` and bit `j` of byte `m` of
`d1` is the old bit or `c m j`. -/
def OrSpec (d d1 : SH1106_OLED) (c : Nat → Nat → Bool) : Prop :=
  Frame d d1 ∧ ∀ m j, j < 8 →
    (d1.buffer.getD m 0).testBit j = ((d.buffer.getD m 0).testBit j || c m j)

/-- An OR-only update seen pixel by pixel: `d1` has the frame of `d` and the
bit of each pixel in a column of the display is the old bit or `s px py`. -/
def PixSpec (d d1 : SH1106_OLED) (s : Nat → Nat → Bool) : Prop :=
  Frame d d1 ∧ ∀ px py, px < d.width → bitAt d1 px py = (bitAt d px py || s px py)

/-- The loop invariant of the midpoint stepping of `drawCircleFill`, for
radius `r`: the decision variable and its increments as functions of `(x, y)`,
and the two bounds that keep the point `(x, y)` next to the circle. -/
def CircleInv (r : Nat) (f ddF_x ddF_y x y : Int) : Prop :=
  f = (x + 1) ^ 2 + y ^ 2 - y - (r : Int) ^ 2 ∧ ddF_x = 2 * x + 1 ∧ ddF_y = -2 * y ∧
    0 ≤ x ∧ 0 ≤ y ∧ y ≤ r ∧ (r : Int) ^ 2 ≤ (y + 1) ^ 2 + x ^ 2 ∧
    (x < y → x ^ 2 + y ^ 2 - y ≤ (r : Int) ^ 2) ∧ x ≤ r ∧
    x ^ 2 + y ^ 2 ≤ (r : Int) ^ 2 + r

/-- What the rest of the loop of `drawCircleFill`, run from the state `(x, y)`
on display `d` with result `res`, guarantees for a circle of radius `r` around
`(cx, cy)`: it keeps the frame, turns no pixel off, turns on only pixels within
radius `r + 1/2`, and turns on every pixel strictly inside the circle whose row
is still to come (rows further than `x` from the centre that are nearer than
`y`, or at distance `y` and more than `x` columns from the centre). -/
def CircleLoopSpec (d0 : SH1106_OLED) (cx cy r : Nat) (d res : SH1106_OLED) (x y : Int) :
    Prop :=
  Frame d res ∧
  (∀ px py : Nat, px < d0.width → bitAt d px py = true → bitAt res px py = true) ∧
  (∀ px py : Nat, px < d0.width → bitAt res px py = true →
    bitAt d px py = true ∨
      4 * (((px : Int) - cx) ^ 2 + ((py : Int) - cy) ^ 2) ≤ (2 * (r : Int) + 1) ^ 2) ∧
  (∀ px py : Nat, px < d0.width →
    ((px : Int) - cx) ^ 2 + ((py : Int) - cy) ^ 2 < (r : Int) ^ 2 →
    (x < (py : Int) - cy ∨ (py : Int) - cy < -x) →
    ((-y < (py : Int) - cy ∧ (py : Int) - cy < y) ∨
      (((py : Int) - cy = y ∨ (py : Int) - cy = -y) ∧
        (x < (px : Int) - cx ∨ (px : Int) - cx < -x))) →
    bitAt res px py = true)

/-- Bit `j` of buffer byte `m` is the bit of pixel `(x, y)`. -/
def pixelMask (d : SH1106_OLED) (x y m j : Nat) : Bool :=
  decide (bufferIndex d x y = m) && decide (y % 8 = j)

/-- The bits addressed by the eight `setPixel` calls of one round of
`drawCircle`, in the order of the source. -/
def circlePlotMask (d : SH1106_OLED) (xCentre yCentre : Nat) (x y : Int) (m j : Nat) : Bool :=
  pixelMask d (u8 (xCentre + x)) (u8 (yCentre + y)) m j ||
  pixelMask d (u8 (xCentre - x)) (u8 (yCentre + y)) m j ||
  pixelMask d (u8 (xCentre + x)) (u8 (yCentre - y)) m j ||
  pixelMask d (u8 (xCentre - x)) (u8 (yCentre - y)) m j ||
  pixelMask d (u8 (xCentre + y)) (u8 (yCentre + x)) m j ||
  pixelMask d (u8 (xCentre - y)) (u8 (yCentre + x)) m j ||
  pixelMask d (u8 (xCentre + y)) (u8 (yCentre - x)) m j ||
  pixelMask d (u8 (xCentre - y)) (u8 (yCentre - x)) m j

/-- The bits addressed by the four `setPixel` calls that open `drawCircle`. -/
def circleInitMask (d : SH1106_OLED) (xCentre yCentre radius m j : Nat) : Bool :=
  pixelMask d xCentre (u8 ((yCentre : Int) + radius)) m j ||
  pixelMask d xCentre (u8 ((yCentre : Int) - radius)) m j ||
  pixelMask d (u8 ((xCentre : Int) + radius)) yCentre m j ||
  pixelMask d (u8 ((xCentre : Int) - radius)) yCentre m j

/-- The bits addressed by one round of `drawArc` for `corner`. -/
def arcPlotMask (corner : Corner) (d : SH1106_OLED) (xCentre yCentre : Nat) (x y : Int)
    (m j : Nat) : Bool :=
  (decide (corner = Corner.TOP_LEFT) &&
    (pixelMask d (u8 (xCentre - y)) (u8 (yCentre - x)) m j ||
      pixelMask d (u8 (xCentre - x)) (u8 (yCentre - y)) m j)) ||
  (decide (corner = Corner.TOP_RIGHT) &&
    (pixelMask d (u8 (xCentre + x)) (u8 (yCentre - y)) m j ||
      pixelMask d (u8 (xCentre + y)) (u8 (yCentre - x)) m j)) ||
  (decide (corner = Corner.BOTTOM_RIGHT) &&
    (pixelMask d (u8 (xCentre + x)) (u8 (yCentre + y)) m j ||
      pixelMask d (u8 (xCentre + y)) (u8 (yCentre + x)) m j)) ||
  (decide (corner = Corner.BOTTOM_LEFT) &&
    (pixelMask d (u8 (xCentre - y)) (u8 (yCentre + x)) m j ||
      pixelMask d (u8 (xCentre - x)) (u8 (yCentre + y)) m j))

/-- The bits addressed by the conditional `setPixel` calls that open `drawArc`
for `corner`. -/
def arcInitMask (corner : Corner) (d : SH1106_OLED) (xCentre yCentre radius m j : Nat) :
    Bool :=
  (decide (corner = Corner.BOTTOM_LEFT ∨ corner = Corner.BOTTOM_RIGHT) &&
    pixelMask d xCentre (u8 ((yCentre : Int) + radius)) m j) ||
  (decide (corner = Corner.TOP_LEFT ∨ corner = Corner.TOP_RIGHT) &&
    pixelMask d xCentre (u8 ((yCentre : Int) - radius)) m j) ||
  (decide (corner = Corner.TOP_RIGHT ∨ corner = Corner.BOTTOM_RIGHT) &&
    pixelMask d (u8 ((xCentre : Int) + radius)) yCentre m j) ||
  (decide (corner = Corner.TOP_LEFT ∨ corner = Corner.BOTTOM_LEFT) &&
    pixelMask d (u8 ((xCentre : Int) - radius)) yCentre m j)

/-- The closed quadrant of `corner` around the centre `(cx, cy)`; rows grow
downwards, so the top corners are the rows `py <= cy`. -/
def inQuadrant (corner : Corner) (cx cy px py : Nat) : Prop :=
  match corner with
  | Corner.TOP_LEFT => px ≤ cx ∧ py ≤ cy
  | Corner.TOP_RIGHT => cx ≤ px ∧ py ≤ cy
  | Corner.BOTTOM_RIGHT => cx ≤ px ∧ cy ≤ py
  | Corner.BOTTOM_LEFT => px ≤ cx ∧ cy ≤ py

/-- The closed-form position on row `y` of the edge from `(xa, ya)` to
`(xb, yb)`: `xa + trunc((y - ya) * (xb - xa) / (yb - ya))`, the quotient
truncated towards zero. -/
def edgeX (xa ya xb yb y : Nat) : Int :=
  (xa : Int) + Int.tdiv (((y : Int) - ya) * ((xb : Int) - xa)) ((yb : Int) - ya)

/-- The spans `(xMin, xMax, y)` of the top region of a triangle with
`y1 <= y2 <= y3`, one per row from `y1` up to `y2 - 1` (up to `y2` when the
bottom is flat, `y2 = y3`), between the edge to vertex 2 and the edge to
vertex 3. -/
def topSpans (x1 y1 x2 y2 x3 y3 : Nat) : List (Nat × Nat × Nat) :=
  (List.range' y1 ((if y2 = y3 then y2 + 1 else y2) - y1)).map
    (fun y => ((edgeX x1 y1 x2 y2 y).toNat, (edgeX x1 y1 x3 y3 y).toNat, y))

/-- The spans `(xMin, xMax, y)` of the bottom region, one per row from `y2` up
to `y3 - 1` (none when the bottom is flat), between the edge from vertex 2 to
vertex 3 and the edge from vertex 1 to vertex 3. -/
def bottomSpans (x1 y1 x2 y2 x3 y3 : Nat) : List (Nat × Nat × Nat) :=
  (List.range' (if y2 = y3 then y2 + 1 else y2) (y3 - (if y2 = y3 then y2 + 1 else y2))).map
    (fun y => ((edgeX x2 y2 x3 y3 y).toNat, (edgeX x1 y1 x3 y3 y).toNat, y))

/-- The spans of both regions, in drawing order. -/
def closedFormSpans (x1 y1 x2 y2 x3 y3 : Nat) : List (Nat × Nat × Nat) :=
  topSpans x1 y1 x2 y2 x3 y3 ++ bottomSpans x1 y1 x2 y2 x3 y3

/-- One `drawHLine(xMin, xMax, y)` per span, in order. -/
def drawSpans (d : SH1106_OLED) (spans : List (Nat × Nat × Nat)) : SH1106_OLED :=
  spans.foldl (fun d s => drawHLine d s.1 s.2.1 s.2.2) d

/-- The pixels of one span as `drawHLine` draws it on a `width` by `height`
display: the coordinates are clamped onto the display first. -/
def spanPixel (width height : Nat) (s : Nat × Nat × Nat) (px py : Nat) : Bool :=
  decide (py = min s.2.2 (height - 1) ∧
    min (min s.1 (width - 1)) (min s.2.1 (width - 1)) ≤ px ∧
    px ≤ max (min s.1 (width - 1)) (min s.2.1 (width - 1)))

/-- Every cell of the buffer holds a `uint8_t`. -/
def Bytes (d : SH1106_OLED) : Prop := ∀ b ∈ d.buffer, b < 256

/-- The number of pixels of the display whose framebuffer bit is on. -/
def litCount (d : SH1106_OLED) : Nat :=
  ((Finset.range d.width ×ˢ Finset.range d.height).filter
    (fun p => bitAt d p.1 p.2 = true)).card

/-! # Theorems -/

/-! ## Bytes, bits and indices -/

theorem and_seven (y : Nat) : y &&& 7 = y % 8 :=
  Nat.and_pow_two_sub_one_eq_mod y 3

theorem testBit_mod_256 (a j : Nat) (hj : j < 8) : (a % 256).testBit j = a.testBit j := by
  have h := Nat.testBit_mod_two_pow a 8 j
  simpa [hj] using h

theorem testBit_one_shiftLeft (k j : Nat) : (1 <<< k).testBit j = decide (k = j) := by
  rw [Nat.one_shiftLeft, Nat.testBit_two_pow]

theorem getD_set (l : List Nat) (i m a : Nat) :
    (l.set i a).getD m 0 = if i = m ∧ i < l.length then a else l.getD m 0 := by
  simp only [List.getD_eq_getElem?_getD, List.getElem?_set]
  by_cases h : i = m
  · subst h
    by_cases h2 : i < l.length
    · simp [h2]
    · simp [h2]
      simp at h2
      simp [List.getElem?_eq_none h2]
  · simp [h]

theorem frame_refl (d : SH1106_OLED) : Frame d d := ⟨rfl, rfl, rfl, rfl, rfl, rfl⟩

theorem frame_trans {a b c : SH1106_OLED} (h1 : Frame a b) (h2 : Frame b c) : Frame a c := by
  obtain ⟨p1, p2, p3, p4, p5, p6⟩ := h1
  obtain ⟨q1, q2, q3, q4, q5, q6⟩ := h2
  exact ⟨q1.trans p1, q2.trans p2, q3.trans p3, q4.trans p4, q5.trans p5, q6.trans p6⟩

theorem rmw_frame (d : SH1106_OLED) (idx : Nat) (f : Nat → Nat) (h : idx < d.buffer.length) :
    Frame d (rmw d idx f) := by
  simp [rmw, h, Frame]

theorem rmw_getD (d : SH1106_OLED) (idx : Nat) (f : Nat → Nat) (h : idx < d.buffer.length)
    (m : Nat) :
    (rmw d idx f).buffer.getD m 0 =
      if idx = m then f (d.buffer.getD idx 0) % 256 else d.buffer.getD m 0 := by
  unfold rmw
  rw [if_pos h]
  show (d.buffer.set idx _).getD m 0 = _
  rw [getD_set]
  by_cases hm : idx = m
  · rw [if_pos ⟨hm, h⟩, if_pos hm]
  · rw [if_neg (fun hh => hm hh.1), if_neg hm]

theorem orSpec_refl (d : SH1106_OLED) : OrSpec d d (fun _ _ => false) :=
  ⟨frame_refl d, fun m j _ => by simp⟩

theorem orSpec_trans {a b c : SH1106_OLED} {p q : Nat → Nat → Bool}
    (h1 : OrSpec a b p) (h2 : OrSpec b c q) : OrSpec a c (fun m j => p m j || q m j) := by
  refine ⟨frame_trans h1.1 h2.1, fun m j hj => ?_⟩
  rw [h2.2 m j hj, h1.2 m j hj, Bool.or_assoc]

theorem orSpec_congr {a b : SH1106_OLED} {p q : Nat → Nat → Bool}
    (h : OrSpec a b p) (hpq : ∀ m j, j < 8 → p m j = q m j) : OrSpec a b q :=
  ⟨h.1, fun m j hj => by rw [h.2 m j hj, hpq m j hj]⟩

theorem rmw_or_spec (d : SH1106_OLED) (idx v : Nat) (h : idx < d.buffer.length) :
    OrSpec d (rmw d idx (fun b => b ||| v)) (fun m j => decide (idx = m) && v.testBit j) := by
  refine ⟨rmw_frame d idx _ h, fun m j hj => ?_⟩
  rw [rmw_getD d idx _ h]
  by_cases hm : idx = m
  · subst hm
    simp [testBit_mod_256 _ _ hj]
  · simp [hm]

theorem store_ff_spec (d : SH1106_OLED) (idx : Nat) (h : idx < d.buffer.length) :
    OrSpec d (store d idx 0xFF) (fun m _ => decide (idx = m)) := by
  refine ⟨rmw_frame d idx _ h, fun m j hj => ?_⟩
  rw [store, rmw_getD d idx _ h]
  by_cases hm : idx = m
  · subst hm
    have : (255 : Nat).testBit j = true := by
      have := Nat.testBit_two_pow_sub_one 8 j
      simpa [hj] using this
    simp [this]
  · simp [hm]

theorem foldl_or_spec {α : Type} (step : SH1106_OLED → α → SH1106_OLED)
    (c : α → Nat → Nat → Bool) (d0 : SH1106_OLED) (l : List α)
    (hstep : ∀ d a, a ∈ l → Frame d0 d → OrSpec d (step d a) (c a)) :
    ∀ d, Frame d0 d → OrSpec d (l.foldl step d) (fun m j => l.any (fun a => c a m j)) := by
  induction l with
  | nil => intro d _; simpa using orSpec_refl d
  | cons a l ih =>
    intro d hd
    have h1 := hstep d a (List.mem_cons_self a l) hd
    have h2 := ih (fun d b hb hf => hstep d b (List.mem_cons_of_mem a hb) hf) (step d a)
      (frame_trans hd h1.1)
    simpa [List.foldl_cons, List.any_cons] using orSpec_trans h1 h2

theorem clamp_id (x n : Nat) (hx : x < n) (hn : n < 256) :
    clamp x 0 (u8 ((n : Int) - 1)) = x := by
  unfold clamp u8
  split
  · omega
  · split
    · omega
    · rfl

theorem idx_between {w a p lo hi q : Nat} (ha : a < w) (hhi : hi < w) :
    (q * w + lo ≤ a + p * w ∧ a + p * w ≤ q * w + hi) ↔ (p = q ∧ lo ≤ a ∧ a ≤ hi) := by
  constructor
  · rintro ⟨h1, h2⟩
    rcases Nat.lt_trichotomy p q with h | h | h
    · have := Nat.mul_le_mul_right w (Nat.succ_le_of_lt h)
      rw [Nat.succ_mul] at this
      omega
    · subst h
      omega
    · have := Nat.mul_le_mul_right w (Nat.succ_le_of_lt h)
      rw [Nat.succ_mul] at this
      omega
  · rintro ⟨rfl, h1, h2⟩
    omega

theorem idx_lt (d : SH1106_OLED) (hwf : WF d) (x y : Nat) (hx : x < d.width)
    (hy : y < d.height) : bufferIndex d x y < d.buffer.length := by
  obtain ⟨_, _, h8, hlen⟩ := hwf
  have h1 : d.width * d.height / 8 = (d.height / 8) * d.width := by
    have : d.height = 8 * (d.height / 8) := by omega
    conv_lhs => rw [this]
    rw [Nat.mul_comm d.width, Nat.mul_assoc, Nat.mul_div_cancel_left _ (by norm_num : 0 < 8)]
  have h2 : y / 8 + 1 ≤ d.height / 8 := by omega
  have h3 := Nat.mul_le_mul_right d.width h2
  rw [Nat.succ_mul] at h3
  unfold bufferIndex
  omega



theorem drawHLine_orSpec (d : SH1106_OLED) (hwf : WF d) (x1 x2 y : Nat)
    (hx1 : x1 < d.width) (hx2 : x2 < d.width) (hy : y < d.height) :
    OrSpec d (drawHLine d x1 x2 y) (fun m j =>
      decide ((y / 8) * d.width + min x1 x2 ≤ m ∧ m ≤ (y / 8) * d.width + max x1 x2) &&
        decide (y % 8 = j)) := by
  have hw := hwf.1
  have hh := hwf.2.1
  have hstep : ∀ (i : Nat), i ≤ max x1 x2 - min x1 x2 → ∀ e, Frame d e →
      OrSpec e (rmw e ((y / 8) * d.width + min x1 x2 + i) (fun b => b ||| (1 <<< (y &&& 7))))
        (fun m j => decide ((y / 8) * d.width + min x1 x2 + i = m) && decide (y % 8 = j)) := by
    intro i hi e he
    have hlt : (y / 8) * d.width + min x1 x2 + i < e.buffer.length := by
      rw [he.2.2.1]
      have := idx_lt d hwf (min x1 x2 + i) y (by omega) hy
      unfold bufferIndex at this
      omega
    refine orSpec_congr (rmw_or_spec e _ _ hlt) (fun m j _ => ?_)
    rw [and_seven, testBit_one_shiftLeft]
  unfold drawHLine
  simp only [clamp_id x1 _ hx1 hw, clamp_id x2 _ hx2 hw, clamp_id y _ hy hh]
  have hdist : (if x2 < x1 then u8 ((x1 : Int) - x2) else u8 ((x2 : Int) - x1)) =
      max x1 x2 - min x1 x2 := by
    unfold u8
    split <;> omega
  have hmin : (if x2 < x1 then x2 else x1) = min x1 x2 := by
    split <;> omega
  rw [hdist, hmin]
  split
  · rename_i h0
    refine orSpec_congr (hstep 0 (by omega) d (frame_refl d)) (fun m j _ => ?_)
    have : max x1 x2 = min x1 x2 := by omega
    rw [this]
    congr 1
    apply decide_eq_decide.mpr
    omega
  · have := foldl_or_spec
      (fun e i => rmw e ((y / 8) * d.width + min x1 x2 + i) (fun b => b ||| (1 <<< (y &&& 7))))
      (fun i m j => decide ((y / 8) * d.width + min x1 x2 + i = m) && decide (y % 8 = j))
      d (List.range (max x1 x2 - min x1 x2 + 1))
      (fun e i hi he => hstep i (by simpa [Nat.lt_succ_iff] using hi) e he) d (frame_refl d)
    refine orSpec_congr this (fun m j _ => ?_)
    rw [Bool.eq_iff_iff]
    simp only [List.any_eq_true, List.mem_range, Bool.and_eq_true, decide_eq_true_eq]
    constructor
    · rintro ⟨i, hi, h1, h2⟩
      exact ⟨by omega, h2⟩
    · rintro ⟨h1, h2⟩
      exact ⟨m - ((y / 8) * d.width + min x1 x2), by omega, by omega, h2⟩

theorem bitAt_of_orSpec {d d1 : SH1106_OLED} {c : Nat → Nat → Bool} (h : OrSpec d d1 c)
    (px py : Nat) :
    bitAt d1 px py = (bitAt d px py || c (bufferIndex d px py) (py % 8)) := by
  unfold bitAt
  have : bufferIndex d1 px py = bufferIndex d px py := by
    unfold bufferIndex; rw [h.1.1]
  rw [this]
  exact h.2 _ _ (Nat.mod_lt _ (by norm_num))

theorem drawHLine_bitAt (d : SH1106_OLED) (hwf : WF d) (x1 x2 y : Nat)
    (hx1 : x1 < d.width) (hx2 : x2 < d.width) (hy : y < d.height)
    (px py : Nat) (hpx : px < d.width) :
    bitAt (drawHLine d x1 x2 y) px py =
      (bitAt d px py || decide (py = y ∧ min x1 x2 ≤ px ∧ px ≤ max x1 x2)) := by
  rw [bitAt_of_orSpec (drawHLine_orSpec d hwf x1 x2 y hx1 hx2 hy)]
  congr 1
  rw [Bool.eq_iff_iff]
  simp only [Bool.and_eq_true, decide_eq_true_eq]
  unfold bufferIndex
  rw [idx_between hpx (by omega : max x1 x2 < d.width)]
  omega

theorem init_WF (w h : Nat) (hw : w < 256) (hh : h < 256) (h8 : h % 8 = 0) : WF (init w h) := by
  simp [WF, init, setFontSize, hw, hh, h8]

theorem WF_of_frame {d d1 : SH1106_OLED} (hf : Frame d d1) (hwf : WF d) : WF d1 := by
  obtain ⟨h1, h2, h3, _⟩ := hf
  unfold WF at *
  rw [h1, h2, h3]
  exact hwf

theorem getD_replicate_zero (n m : Nat) : (List.replicate n 0).getD m 0 = 0 := by
  simp only [List.getD_eq_getElem?_getD, List.getElem?_replicate]
  split <;> rfl

theorem clear_frame (d : SH1106_OLED) : Frame d (clear d) := by
  simp [Frame, clear]

theorem bitAt_clear (d : SH1106_OLED) (x y : Nat) : bitAt (clear d) x y = false := by
  unfold bitAt clear
  simp only [getD_replicate_zero, Nat.zero_testBit]

/-- C2. On a well-formed display, for in-bounds `x1`, `x2`, `y`, `drawHLine`
keeps the frame (dimensions, buffer size, no out-of-buffer access), and the bit
of every pixel afterwards is its old bit or the test that the pixel lies on row
`y` between `min x1 x2` and `max x1 x2`: exactly that span is turned on and
every other bit is unchanged. On a cleared buffer `drawHLine(10, 20, 5)` leaves exactly 11
pixels on. -/
theorem drawHLine_exact (d : SH1106_OLED) (hwf : WF d) (x1 x2 y : Nat)
    (hx1 : x1 < d.width) (hx2 : x2 < d.width) (hy : y < d.height) :
    Frame d (drawHLine d x1 x2 y) ∧
    (∀ px py, px < d.width → py < d.height →
      bitAt (drawHLine d x1 x2 y) px py =
        (bitAt d px py || decide (py = y ∧ min x1 x2 ≤ px ∧ px ≤ max x1 x2))) ∧
    (20 < d.width → 5 < d.height → litCount (drawHLine (clear d) 10 20 5) = 11) := by
  refine ⟨(drawHLine_orSpec d hwf x1 x2 y hx1 hx2 hy).1,
    fun px py hpx _ => drawHLine_bitAt d hwf x1 x2 y hx1 hx2 hy px py hpx, fun hw hh => ?_⟩
  have hc : WF (clear d) := WF_of_frame (clear_frame d) hwf
  have hcw : (clear d).width = d.width := rfl
  have hch : (clear d).height = d.height := rfl
  have hf := (drawHLine_orSpec (clear d) hc 10 20 5 (by omega) (by omega) (by omega)).1
  unfold litCount
  rw [hf.1, hf.2.1, hcw, hch]
  have : (Finset.range d.width ×ˢ Finset.range d.height).filter
      (fun p => bitAt (drawHLine (clear d) 10 20 5) p.1 p.2 = true) =
      Finset.Icc 10 20 ×ˢ {5} := by
    ext ⟨px, py⟩
    simp only [Finset.mem_filter, Finset.mem_product, Finset.mem_range, Finset.mem_Icc,
      Finset.mem_singleton]
    constructor
    · rintro ⟨⟨hpx, hpy⟩, hb⟩
      rw [drawHLine_bitAt (clear d) hc 10 20 5 (by omega) (by omega) (by omega) px py
        (by omega), bitAt_clear] at hb
      simp at hb
      omega
    · rintro ⟨⟨h1, h2⟩, h3⟩
      refine ⟨⟨by omega, by omega⟩, ?_⟩
      rw [drawHLine_bitAt (clear d) hc 10 20 5 (by omega) (by omega) (by omega) px py
        (by omega), bitAt_clear]
      simp
      omega
  rw [this]
  simp

theorem drawHLine_exact_witness :
    WF (init 128 64) ∧ 20 < (init 128 64).width ∧ 10 < (init 128 64).width ∧
      5 < (init 128 64).height ∧
      bitAt (drawHLine (init 128 64) 20 10 5) 15 5 =
        (bitAt (init 128 64) 15 5 || decide (5 = 5 ∧ min 20 10 ≤ 15 ∧ 15 ≤ max 20 10)) ∧
      litCount (drawHLine (clear (init 128 64)) 10 20 5) = 11 :=
  ⟨init_WF 128 64 (by decide) (by decide) (by decide), by decide, by decide, by decide,
    (drawHLine_exact (init 128 64) (init_WF 128 64 (by decide) (by decide) (by decide))
      20 10 5 (by decide) (by decide) (by decide)).2.1 15 5 (by decide) (by decide),
    (drawHLine_exact (init 128 64) (init_WF 128 64 (by decide) (by decide) (by decide))
      20 10 5 (by decide) (by decide) (by decide)).2.2 (by decide) (by decide)⟩

theorem getPixel_high (d : SH1106_OLED) (x y : Nat) (hx : x < d.width) (hy : y < d.height)
    (hwf : WF d) (h8 : 8 ≤ y) :
    getPixel (setPixel d x y) x y = false ∧ bitAt (setPixel d x y) x y = true := by
  have hlt := idx_lt d hwf x y hx hy
  have hs := rmw_or_spec d (bufferIndex d x y) (1 <<< (y &&& 7)) hlt
  constructor
  · unfold getPixel setPixel
    have : bufferIndex (rmw d (bufferIndex d x y) (fun b => b ||| 1 <<< (y &&& 7))) x y =
        bufferIndex d x y := by
      have hw := hs.1.1
      unfold bufferIndex at hw ⊢
      rw [hw]
    rw [this, rmw_getD d _ _ hlt, if_pos rfl]
    have hb : (d.buffer.getD (bufferIndex d x y) 0 ||| 1 <<< (y &&& 7)) % 256 < 2 ^ y :=
      lt_of_lt_of_le (Nat.mod_lt _ (by norm_num))
        (le_trans (by norm_num : 256 ≤ 2 ^ 8) (Nat.pow_le_pow_right (by norm_num) h8))
    rw [Nat.shiftRight_eq_div_pow, Nat.div_eq_of_lt hb]
    rfl
  · unfold setPixel
    rw [bitAt_of_orSpec hs, and_seven, testBit_one_shiftLeft]
    simp

/-- C1, at the failing input. On the 128x64 display after `init()`,
`setPixel(0, 8)` turns the framebuffer bit of pixel `(0, 8)` on, yet
`getPixel(0, 8)` returns false: `getPixel` shifts by `y`, not by `y & 0x07`. -/
theorem getPixel_setPixel_row8 :
    getPixel (setPixel (init 128 64) 0 8) 0 8 = false ∧
      bitAt (setPixel (init 128 64) 0 8) 0 8 = true :=
  getPixel_high (init 128 64) 0 8 (by decide) (by decide)
    (init_WF 128 64 (by decide) (by decide) (by decide)) (by decide)

/-- C10, at the failing input. `setFontSize(7)` selects the same glyph table
as `setFontSize(4)` but stores `fontSize = 7`, so the two font states
differ. -/
theorem setFontSize_seven :
    (setFontSize (init 128 64) 7).fontSize = 7 ∧
      (setFontSize (init 128 64) 4).fontSize = 4 ∧
      (setFontSize (init 128 64) 7).fontSet = (setFontSize (init 128 64) 4).fontSet ∧
      setFontSize (init 128 64) 7 ≠ setFontSize (init 128 64) 4 := by
  refine ⟨rfl, rfl, rfl, fun h => ?_⟩
  have := congrArg SH1106_OLED.fontSize h
  simp [setFontSize] at this

/-! ## Vertical line -/

theorem firstByteLoop_eq : ∀ n, n < 8 → firstByteLoop n = 2 ^ (n + 1) - 1 := by
  decide

theorem idx_eq {w a p x q : Nat} (ha : a < w) (hx : x < w) :
    q * w + x = a + p * w ↔ (p = q ∧ a = x) := by
  have := @idx_between w a p x x q ha hx
  constructor
  · intro h
    have := this.mp ⟨by omega, by omega⟩
    omega
  · rintro ⟨rfl, rfl⟩
    omega

theorem testBit_255 (j : Nat) : (255 : Nat).testBit j = decide (j < 8) :=
  Nat.testBit_two_pow_sub_one 8 j

theorem drawVLine_orSpec (d : SH1106_OLED) (hwf : WF d) (y1 y2 x : Nat)
    (hy1 : y1 < d.height) (hy2 : y2 < d.height) (hx : x < d.width) :
    OrSpec d (drawVLine d y1 y2 x) (fun m j =>
      (List.range 32).any (fun p =>
        decide (p * d.width + x = m ∧ min y1 y2 ≤ 8 * p + j ∧ 8 * p + j ≤ max y1 y2))) := by
  have hw := hwf.1
  have hh := hwf.2.1
  have hidx : ∀ p, p ≤ max y1 y2 / 8 → ∀ e, Frame d e → p * d.width + x < e.buffer.length := by
    intro p hp e he
    rw [he.2.2.1]
    have := idx_lt d hwf x (8 * p) hx (by omega)
    unfold bufferIndex at this
    have h8 : 8 * p / 8 = p := by omega
    rw [h8] at this
    omega
  unfold drawVLine
  simp only [clamp_id y1 _ hy1 hh, clamp_id y2 _ hy2 hh, clamp_id x _ hx hw]
  have hdist : (if y2 < y1 then u8 ((y1 : Int) - y2) else u8 ((y2 : Int) - y1)) =
      max y1 y2 - min y1 y2 := by
    unfold u8
    split <;> omega
  have hmin : (if y2 < y1 then y2 else y1) = min y1 y2 := by
    split <;> omega
  rw [hdist, hmin]
  have hmax : (min y1 y2 + (max y1 y2 - min y1 y2)) % 256 = max y1 y2 := by omega
  rw [hmax]
  have hbd : u8 (((max y1 y2 / 8 : Nat) : Int) - ((min y1 y2 / 8 : Nat) : Int)) =
      max y1 y2 / 8 - min y1 y2 / 8 := by
    unfold u8
    omega
  rw [hbd]
  generalize hlo : min y1 y2 = lo
  generalize hhi : max y1 y2 = hi
  rw [hhi] at hidx
  have hlohi : lo ≤ hi := by omega
  have hlo1 : lo = y1 ∨ lo = y2 := by omega
  split
  · rename_i h0
    have hy : y1 = lo := by omega
    rw [hy]
    refine orSpec_congr (rmw_or_spec d _ _ (hidx (lo / 8) (by omega) d (frame_refl d)))
      (fun m j hj => ?_)
    rw [and_seven, testBit_one_shiftLeft, Bool.eq_iff_iff]
    simp only [List.any_eq_true, List.mem_range, Bool.and_eq_true, decide_eq_true_eq]
    constructor
    · rintro ⟨h1, h2⟩
      exact ⟨lo / 8, by omega, h1, by omega, by omega⟩
    · rintro ⟨p, _, h1, h2, h3⟩
      have : p = lo / 8 := by omega
      subst this
      exact ⟨h1, by omega⟩
  · rename_i h0
    have hlt : lo < hi := by omega
    have s1 := rmw_or_spec d (lo / 8 * d.width + x)
      ((if hi / 8 - lo / 8 = 0 ∧ hi - lo < 8 then firstByteLoop (hi - lo) else 255) <<<
        (lo &&& 7)) (hidx (lo / 8) (by omega) d (frame_refl d))
    have s2 := foldl_or_spec (fun e i => store e (lo / 8 * d.width + x + i * e.width) 255)
      (fun i m _ => decide (lo / 8 * d.width + x + i * d.width = m)) d
      (List.range' 1 (hi / 8 - lo / 8 - 1))
      (fun e i hi' he => by
        have hi2 : 1 ≤ i ∧ i < hi / 8 - lo / 8 := by
          have := List.mem_range'_1.mp hi'
          omega
        have hlen := hidx (lo / 8 + i) (by omega) e he
        rw [Nat.add_mul] at hlen
        have hw' : e.width = d.width := he.1
        simp only [hw']
        exact store_ff_spec e _ (by omega)) _ s1.1
    by_cases hbd : hi / 8 - lo / 8 > 0
    · simp only [hbd, if_true]
      have hfw := (frame_trans s1.1 s2.1).1
      rw [hfw]
      have s3 := rmw_or_spec
        (List.foldl (fun e i => store e (lo / 8 * d.width + x + i * e.width) 255)
          (rmw d (lo / 8 * d.width + x) fun b => b |||
            (if hi / 8 - lo / 8 = 0 ∧ hi - lo < 8 then firstByteLoop (hi - lo) else 255) <<<
              (lo &&& 7))
          (List.range' 1 (hi / 8 - lo / 8 - 1)))
        (hi / 8 * d.width + x) (255 >>> (7 - (hi &&& 7)))
        (hidx (hi / 8) (le_refl _) _ (frame_trans s1.1 s2.1))
      refine orSpec_congr (orSpec_trans (orSpec_trans s1 s2) s3) (fun m j hj => ?_)
      have hne : ¬ (hi / 8 - lo / 8 = 0 ∧ hi - lo < 8) := by omega
      simp only [hne, if_false, and_seven, Nat.testBit_shiftLeft, Nat.testBit_shiftRight,
        testBit_255]
      rw [Bool.eq_iff_iff]
      simp only [List.any_eq_true, List.mem_range, Bool.and_eq_true, Bool.or_eq_true,
        decide_eq_true_eq, List.mem_range'_1]
      constructor
      · rintro ((⟨h1, h2, h3⟩ | ⟨i, hi1, hi2⟩) | ⟨h1, h2⟩)
        · exact ⟨lo / 8, by omega, h1, by omega, by omega⟩
        · refine ⟨lo / 8 + i, by omega, ?_, by omega, by omega⟩
          rw [Nat.add_mul]
          omega
        · exact ⟨hi / 8, by omega, h1, by omega, by omega⟩
      · rintro ⟨p, _, h1, h2, h3⟩
        rcases Nat.lt_trichotomy p (lo / 8) with hp | hp | hp
        · omega
        · subst hp
          exact Or.inl (Or.inl ⟨h1, by omega, by omega⟩)
        · rcases Nat.lt_or_ge p (hi / 8) with hq | hq
          · refine Or.inl (Or.inr ⟨p - lo / 8, by omega, ?_⟩)
            have : p = lo / 8 + (p - lo / 8) := by omega
            rw [← h1]
            conv_rhs => rw [this, Nat.add_mul]
            omega
          · have : p = hi / 8 := by omega
            subst this
            exact Or.inr ⟨h1, by omega⟩
    · simp only [hbd, if_false]
      have hbd0 : hi / 8 - lo / 8 = 0 := by omega
      have hd8 : hi - lo < 8 := by omega
      have hnil : List.range' 1 (hi / 8 - lo / 8 - 1) = [] := by
        rw [hbd0]; rfl
      rw [hnil] at s2 ⊢
      simp only [List.foldl_nil]
      refine orSpec_congr s1 (fun m j hj => ?_)
      have hyes : (hi / 8 - lo / 8 = 0 ∧ hi - lo < 8) := ⟨hbd0, hd8⟩
      simp only [hyes, and_self, if_true, and_seven, Nat.testBit_shiftLeft,
        firstByteLoop_eq _ hd8, Nat.testBit_two_pow_sub_one]
      rw [Bool.eq_iff_iff]
      simp only [List.any_eq_true, List.mem_range, Bool.and_eq_true,
        decide_eq_true_eq]
      constructor
      · rintro ⟨h1, h2, h3⟩
        exact ⟨lo / 8, by omega, h1, by omega, by omega⟩
      · rintro ⟨p, _, h1, h2, h3⟩
        have : p = lo / 8 := by omega
        subst this
        exact ⟨h1, by omega, by omega⟩

theorem drawVLine_bitAt (d : SH1106_OLED) (hwf : WF d) (y1 y2 x : Nat)
    (hy1 : y1 < d.height) (hy2 : y2 < d.height) (hx : x < d.width)
    (px py : Nat) (hpx : px < d.width) :
    bitAt (drawVLine d y1 y2 x) px py =
      (bitAt d px py || decide (px = x ∧ min y1 y2 ≤ py ∧ py ≤ max y1 y2)) := by
  rw [bitAt_of_orSpec (drawVLine_orSpec d hwf y1 y2 x hy1 hy2 hx)]
  congr 1
  rw [Bool.eq_iff_iff]
  simp only [List.any_eq_true, List.mem_range, decide_eq_true_eq]
  unfold bufferIndex
  have hh := hwf.2.1
  constructor
  · rintro ⟨p, _, h1, h2, h3⟩
    have := (idx_eq hpx hx).mp h1
    omega
  · rintro ⟨h1, h2, h3⟩
    exact ⟨py / 8, by omega, (idx_eq hpx hx).mpr ⟨rfl, h1⟩, by omega, by omega⟩

/-- C3. On a well-formed display, for in-bounds `y1`, `y2`, `x`, `drawVLine`
keeps the frame, and the bit of every pixel afterwards is its old bit or the
test that the pixel lies in column `x` on a row between `min y1 y2` and
`max y1 y2`: the head mask, the `0xFF` middle pages and the tail mask turn on exactly those
rows, with no slippage at page edges, and no other bit changes. -/
theorem drawVLine_exact (d : SH1106_OLED) (hwf : WF d) (y1 y2 x : Nat)
    (hy1 : y1 < d.height) (hy2 : y2 < d.height) (hx : x < d.width) :
    Frame d (drawVLine d y1 y2 x) ∧
    ∀ px py, px < d.width → py < d.height →
      bitAt (drawVLine d y1 y2 x) px py =
        (bitAt d px py || decide (px = x ∧ min y1 y2 ≤ py ∧ py ≤ max y1 y2)) :=
  ⟨(drawVLine_orSpec d hwf y1 y2 x hy1 hy2 hx).1,
    fun px py hpx _ => drawVLine_bitAt d hwf y1 y2 x hy1 hy2 hx px py hpx⟩

theorem drawVLine_exact_witness :
    WF (init 128 64) ∧ 4 < (init 128 64).height ∧ 12 < (init 128 64).height ∧
      0 < (init 128 64).width ∧
      Frame (init 128 64) (drawVLine (init 128 64) 4 12 0) ∧
      ∀ px py, px < (init 128 64).width → py < (init 128 64).height →
        bitAt (drawVLine (init 128 64) 4 12 0) px py =
          (bitAt (init 128 64) px py || decide (px = 0 ∧ min 4 12 ≤ py ∧ py ≤ max 4 12)) :=
  ⟨init_WF 128 64 (by decide) (by decide) (by decide), by decide, by decide, by decide,
    drawVLine_exact (init 128 64) (init_WF 128 64 (by decide) (by decide) (by decide))
      4 12 0 (by decide) (by decide) (by decide)⟩

/-! ## Transfer protocol -/

theorem display_loop_inv (d : SH1106_OLED) (address i : Nat) (done : List (List Nat))
    (cur0 : List Nat) (pre : List WireEvent) (n : Nat) :
    (pre ++ ((List.range n).foldl (displayStep d address i)
        ([WireEvent.beginTransmission address, WireEvent.write 0x40], 1)).1).foldl txStep
        (done, cur0) =
      (((pre.foldl txStep (done, cur0)).1 ++ (List.range (n / 31)).map (pageChunk d i)),
        0x40 :: (List.range (n % 31)).map (fun t => pageByte d i (31 * (n / 31) + t))) ∧
    ((List.range n).foldl (displayStep d address i)
        ([WireEvent.beginTransmission address, WireEvent.write 0x40], 1)).2 = n % 31 + 1 := by
  induction n with
  | zero =>
    simp [List.foldl_append, txStep]
  | succ n ih =>
    obtain ⟨ih1, ih2⟩ := ih
    have hfold : (List.range (n + 1)).foldl (displayStep d address i)
        ([WireEvent.beginTransmission address, WireEvent.write 0x40], 1) =
        displayStep d address i ((List.range n).foldl (displayStep d address i)
          ([WireEvent.beginTransmission address, WireEvent.write 0x40], 1)) n := by
      rw [List.range_succ, List.foldl_append, List.foldl_cons, List.foldl_nil]
    rw [hfold]
    generalize hst : (List.range n).foldl (displayStep d address i)
        ([WireEvent.beginTransmission address, WireEvent.write 0x40], 1) = st at ih1 ih2 ⊢
    have hn : n = 31 * (n / 31) + n % 31 := by omega
    have hmod : n % 31 < 31 := Nat.mod_lt _ (by norm_num)
    unfold displayStep
    rw [ih2]
    by_cases hfull : n % 31 + 1 = 31
    · have h32 : (n % 31 + 1 + 1) % 256 = WIRE_MAX := by unfold WIRE_MAX; omega
      simp only [h32, if_true]
      have hd : (n + 1) / 31 = n / 31 + 1 := by omega
      have hm : (n + 1) % 31 = 0 := by omega
      rw [hd, hm]
      refine ⟨?_, rfl⟩
      rw [← List.append_assoc, ← List.append_assoc, List.foldl_append, List.foldl_append, ih1]
      simp only [List.foldl_cons, List.foldl_nil, txStep, List.range_succ, List.map_append,
        List.map_cons, List.map_nil, List.range_zero, List.append_assoc]
      have h30 : n % 31 = 30 := by omega
      rw [h30]
      have hb : pageByte d i (31 * (n / 31) + 30) = d.buffer.getD (n + i * 128) 0 := by
        unfold pageByte
        congr 1
        omega
      have hn30 : 31 * (n / 31) + 30 = n := by omega
      simp [pageChunk, List.range_succ, pageByte, hn30]
    · have h32 : ¬ (n % 31 + 1 + 1) % 256 = WIRE_MAX := by unfold WIRE_MAX; omega
      simp only [h32, if_false]
      have hd : (n + 1) / 31 = n / 31 := by omega
      have hm : (n + 1) % 31 = n % 31 + 1 := by omega
      rw [hd, hm]
      refine ⟨?_, by omega⟩
      rw [← List.append_assoc, List.foldl_append, ih1]
      simp only [List.foldl_cons, List.foldl_nil, txStep, List.range_succ, List.map_append,
        List.map_cons, List.map_nil, List.cons_append]
      have hb : pageByte d i (31 * (n / 31) + n % 31) = d.buffer.getD (n + i * 128) 0 := by
        unfold pageByte
        congr 1
        omega
      rw [hb]

theorem displayPage_txStep (d : SH1106_OLED) (address i : Nat) (done : List (List Nat))
    (cur0 : List Nat) :
    (displayPage d address i).foldl txStep (done, cur0) =
      (done ++ [[0x00, (0xB0 + i) % 256, 0x10, 0x02]] ++ (List.range 4).map (pageChunk d i) ++
        [0x40 :: (List.range 4).map (fun t => pageByte d i (124 + t))], []) := by
  unfold displayPage
  rw [List.foldl_append, (display_loop_inv d address i done cur0 _ 128).1]
  simp [txStep]

theorem displayPage_transactions (d : SH1106_OLED) (address i : Nat) :
    transactions (displayPage d address i) =
      [0x00, (0xB0 + i) % 256, 0x10, 0x02] :: ((List.range 4).map (pageChunk d i) ++
        [0x40 :: (List.range 4).map (fun t => pageByte d i (124 + t))]) := by
  unfold transactions
  rw [displayPage_txStep]
  simp

theorem displayPage_dataTransactions (d : SH1106_OLED) (address i : Nat) :
    dataTransactions (displayPage d address i) =
      (List.range 4).map (pageChunk d i) ++
        [0x40 :: (List.range 4).map (fun t => pageByte d i (124 + t))] := by
  unfold dataTransactions
  rw [displayPage_transactions]
  simp [List.filter, pageChunk, List.range_succ]

theorem display_txStep (d : SH1106_OLED) (address : Nat) :
    ∀ n, ((List.range n).foldl (fun trace i => trace ++ displayPage d address i) []).foldl
        txStep ([], []) =
      ((List.range n).foldl (fun acc i => acc ++ transactions (displayPage d address i)) [],
        []) := by
  intro n
  induction n with
  | zero => rfl
  | succ n ih =>
    rw [List.range_succ, List.foldl_append, List.foldl_append]
    simp only [List.foldl_cons, List.foldl_nil]
    rw [List.foldl_append, ih, displayPage_txStep, displayPage_transactions]
    simp

theorem displayPage_commandPackets (d : SH1106_OLED) (address i : Nat) :
    (transactions (displayPage d address i)).filter (fun t => t.head? = some 0x00) =
      [[0x00, (0xB0 + i) % 256, 0x10, 0x02]] := by
  rw [displayPage_transactions]
  simp [List.filter, pageChunk, List.range_succ]

theorem display_commandPackets_aux (d : SH1106_OLED) (address : Nat) (n : Nat) :
    ((List.range n).foldl (fun acc i => acc ++ transactions (displayPage d address i))
        []).filter (fun t => t.head? = some 0x00) =
      (List.range n).map (fun i => [0x00, (0xB0 + i) % 256, 0x10, 0x02]) := by
  induction n with
  | zero => rfl
  | succ n ih =>
    rw [List.range_succ, List.foldl_append, List.map_append]
    simp only [List.foldl_cons, List.foldl_nil, List.filter_append, List.map_cons, List.map_nil]
    rw [ih, displayPage_commandPackets]

theorem display_commandPackets (d : SH1106_OLED) (address : Nat) :
    commandPackets (display d address) =
      (List.range 8).map (fun i => [0x00, (0xB0 + i) % 256, 0x10, 0x02]) := by
  unfold commandPackets transactions display
  rw [display_txStep]
  exact display_commandPackets_aux d address 8

theorem foldl_append_flatMap {α β : Type} (f : α → List β) (l : List α) :
    ∀ acc, l.foldl (fun acc i => acc ++ f i) acc = acc ++ l.flatMap f := by
  induction l with
  | nil => intro acc; simp
  | cons a l ih => intro acc; simp [ih]

theorem display_transactions (d : SH1106_OLED) (address : Nat) :
    transactions (display d address) =
      (List.range 8).flatMap (fun i => transactions (displayPage d address i)) := by
  have h := display_txStep d address 8
  have h2 := foldl_append_flatMap (fun i => transactions (displayPage d address i))
    (List.range 8) []
  rw [h2, List.nil_append] at h
  unfold display
  rw [transactions, h]

theorem displayPage_payload (d : SH1106_OLED) (address i : Nat) :
    ((dataTransactions (displayPage d address i)).map List.tail).flatten =
      (List.range 128).map (pageByte d i) := by
  rw [displayPage_dataTransactions]
  rfl

/-- C7 as stated fails. On the 128x64 display the data transactions of page 0
number 5, while `ceil(width / WIRE_MAX) = ceil(128 / 32) = 4`. -/
theorem display_128_not_four :
    (dataTransactions (displayPage (init 128 64) 0x3C 0)).length = 5 ∧
      ((init 128 64).width + WIRE_MAX - 1) / WIRE_MAX = 4 ∧
      (dataTransactions (displayPage (init 128 64) 0x3C 0)).length ≠
        ((init 128 64).width + WIRE_MAX - 1) / WIRE_MAX := by
  rw [displayPage_dataTransactions]
  refine ⟨rfl, rfl, ?_⟩
  show (5 : Nat) ≠ 4
  decide

/-- C7, amended. For a 128-wide display every page of `display()` is sent in
exactly `ceil(width / (WIRE_MAX - 1)) = 5` data transactions: each starts with
the marker byte `0x40` and carries at most `WIRE_MAX - 1 = 31` framebuffer
bytes after it, because the marker is counted in `bytesWritten`. The
transactions of `display()` are those of its eight pages in order. -/
theorem display_transactions_per_page (d : SH1106_OLED) (address i : Nat)
    (hw : d.width = 128) :
    (dataTransactions (displayPage d address i)).length =
        (d.width + (WIRE_MAX - 1) - 1) / (WIRE_MAX - 1) ∧
      (dataTransactions (displayPage d address i)).length = 5 ∧
      (∀ t ∈ dataTransactions (displayPage d address i),
        t.head? = some 0x40 ∧ t.tail.length ≤ WIRE_MAX - 1) ∧
      transactions (display d address) =
        (List.range 8).flatMap (fun i => transactions (displayPage d address i)) := by
  refine ⟨?_, ?_, ?_, display_transactions d address⟩
  · rw [displayPage_dataTransactions, hw]
    simp [WIRE_MAX]
  · rw [displayPage_dataTransactions]
    simp
  · intro t ht
    rw [displayPage_dataTransactions] at ht
    simp only [List.mem_append, List.mem_map, List.mem_range, List.mem_singleton] at ht
    rcases ht with ⟨k, _, rfl⟩ | rfl
    · exact ⟨rfl, by simp [pageChunk, WIRE_MAX]⟩
    · exact ⟨rfl, by simp [WIRE_MAX]⟩

theorem display_transactions_per_page_witness :
    (init 128 64).width = 128 ∧
      (dataTransactions (displayPage (init 128 64) 0x3C 3)).length =
        ((init 128 64).width + (WIRE_MAX - 1) - 1) / (WIRE_MAX - 1) ∧
      (dataTransactions (displayPage (init 128 64) 0x3C 3)).length = 5 :=
  ⟨rfl, (display_transactions_per_page (init 128 64) 0x3C 3 rfl).1,
    (display_transactions_per_page (init 128 64) 0x3C 3 rfl).2.1⟩

/-- C8, at the failing input. For a 128x32 display (4 pages, a buffer of 512
bytes) `display()` still selects the eight pages `0xB0 .. 0xB7`: the page and
column counts are the literals 8 and 128, not `height / 8` and `width`. -/
theorem display_128x32_sends_eight_pages :
    commandPackets (display (init 128 32) 0x3C) =
        [[0x00, 0xB0, 0x10, 0x02], [0x00, 0xB1, 0x10, 0x02], [0x00, 0xB2, 0x10, 0x02],
          [0x00, 0xB3, 0x10, 0x02], [0x00, 0xB4, 0x10, 0x02], [0x00, 0xB5, 0x10, 0x02],
          [0x00, 0xB6, 0x10, 0x02], [0x00, 0xB7, 0x10, 0x02]] ∧
      (init 128 32).height / 8 = 4 ∧
      (init 128 32).buffer.length = 512 := by
  rw [display_commandPackets]
  refine ⟨rfl, rfl, ?_⟩
  show (List.replicate (128 * 32 / 8) 0).length = 512
  rw [List.length_replicate]

theorem map_getD_eq_take_drop (l : List Nat) (s n : Nat) (h : s + n ≤ l.length) :
    (List.range n).map (fun j => l.getD (j + s) 0) = (l.drop s).take n := by
  apply List.ext_getElem
  · simp
    omega
  · intro k h1 h2
    simp only [List.getElem_map, List.getElem_range, List.getElem_take, List.getElem_drop]
    have hk : k < n := by simpa using h1
    rw [List.getD_eq_getElem?_getD, List.getElem?_eq_getElem (by omega)]
    simp [Nat.add_comm]

/-- On the 128x64 panel `display()` does what the transfer protocol asks: pages
`0..7` are selected in ascending order, and the data transactions of page `i`
carry, after their marker bytes, exactly `buffer[i * width .. (i + 1) * width - 1]`. -/
theorem display_128x64 (d : SH1106_OLED) (address i : Nat) (hwf : WF d)
    (hw : d.width = 128) (hh : d.height = 64) (hi : i < d.height / 8) :
    commandPackets (display d address) =
        (List.range (d.height / 8)).map (fun i => [0x00, (0xB0 + i) % 256, 0x10, 0x02]) ∧
      (∀ t ∈ dataTransactions (displayPage d address i), t.head? = some 0x40) ∧
      ((dataTransactions (displayPage d address i)).map List.tail).flatten =
        (d.buffer.drop (i * d.width)).take d.width := by
  have hlen : d.buffer.length = 1024 := by
    rw [hwf.2.2.2, hw, hh]
  refine ⟨?_, ?_, ?_⟩
  · rw [display_commandPackets, hh]
  · intro t ht
    rw [displayPage_dataTransactions] at ht
    simp only [List.mem_append, List.mem_map, List.mem_range, List.mem_singleton] at ht
    rcases ht with ⟨k, _, rfl⟩ | rfl <;> rfl
  · rw [displayPage_payload, hw]
    exact map_getD_eq_take_drop d.buffer (i * 128) 128 (by omega)

/-! ## Fields kept by a write -/

theorem rmw_fontSize (d : SH1106_OLED) (idx : Nat) (f : Nat → Nat) :
    (rmw d idx f).fontSize = d.fontSize := by
  unfold rmw
  split <;> rfl

/-! ## Bitmap blit -/

/-- What one source byte contributes to bit `b` of buffer byte `m`: its bits
shifted up by `y % 8` on its own page and the overflow on the page below. -/
theorem blit_step_spec (d : SH1106_OLED) (hwf : WF d) (bitmap : List Nat)
    (x y w pc i j : Nat) (hx : x + w ≤ d.width) (hy : y + 8 * pc ≤ d.height)
    (hi : i < w) (hj : j < pc) (e : SH1106_OLED) (he : Frame d e) :
    OrSpec e
      (if y &&& 7 ≠ 0 then
        rmw (rmw e (x + (y / 8) * d.width + i + j * e.width)
            (fun b => b ||| (pgm_read_byte bitmap (i + j * w) <<< (y &&& 7))))
          (x + (y / 8) * d.width + i + (j + 1) *
            (rmw e (x + (y / 8) * d.width + i + j * e.width)
              (fun b => b ||| (pgm_read_byte bitmap (i + j * w) <<< (y &&& 7)))).width)
          (fun b => b ||| (pgm_read_byte bitmap (i + j * w) >>> (8 - (y &&& 7))))
      else
        rmw e (x + (y / 8) * d.width + i + j * e.width)
          (fun b => b ||| (pgm_read_byte bitmap (i + j * w) <<< (y &&& 7))))
      (fun m b =>
        (decide (x + i + (y / 8 + j) * d.width = m) && decide (y % 8 ≤ b) &&
          (bitmap.getD (i + j * w) 0).testBit (b - y % 8)) ||
        (decide (y % 8 ≠ 0) && decide (x + i + (y / 8 + j + 1) * d.width = m) &&
          decide (b < y % 8) && (bitmap.getD (i + j * w) 0).testBit (8 - y % 8 + b))) := by
  have h8 := hwf.2.2.1
  have hew : e.width = d.width := he.1
  have hA1 : x + (y / 8) * d.width + i + j * e.width = x + i + (y / 8 + j) * d.width := by
    rw [hew, Nat.add_mul]; omega
  have hlt1 : x + i + (y / 8 + j) * d.width < e.buffer.length := by
    rw [he.2.2.1]
    have := idx_lt d hwf (x + i) (8 * (y / 8 + j)) (by omega) (by omega)
    unfold bufferIndex at this
    rwa [Nat.mul_div_cancel_left _ (by norm_num : 0 < 8)] at this
  rw [hA1]
  have s1 := rmw_or_spec e (x + i + (y / 8 + j) * d.width)
    (pgm_read_byte bitmap (i + j * w) <<< (y &&& 7)) hlt1
  have hbits1 : ∀ m b, b < 8 →
      (decide (x + i + (y / 8 + j) * d.width = m) &&
        (pgm_read_byte bitmap (i + j * w) <<< (y &&& 7)).testBit b) =
      (decide (x + i + (y / 8 + j) * d.width = m) && decide (y % 8 ≤ b) &&
          (bitmap.getD (i + j * w) 0).testBit (b - y % 8)) := by
    intro m b hb
    rw [and_seven, Nat.testBit_shiftLeft, pgm_read_byte,
      testBit_mod_256 _ _ (by omega : b - y % 8 < 8), Bool.and_assoc]
  by_cases ho : y &&& 7 ≠ 0
  · rw [if_pos ho]
    have ho' : y % 8 ≠ 0 := by rwa [and_seven] at ho
    have hw1 := s1.1.1
    rw [hw1, hew]
    have hA2 : x + (y / 8) * d.width + i + (j + 1) * d.width =
        x + i + (y / 8 + j + 1) * d.width := by
      rw [Nat.add_mul (y / 8 + j), Nat.add_mul (y / 8), Nat.add_mul j]; omega
    rw [hA2]
    have hlt2 : x + i + (y / 8 + j + 1) * d.width <
        (rmw e (x + i + (y / 8 + j) * d.width)
          (fun b => b ||| (pgm_read_byte bitmap (i + j * w) <<< (y &&& 7)))).buffer.length := by
      rw [s1.1.2.2.1, he.2.2.1]
      have := idx_lt d hwf (x + i) (8 * (y / 8 + j + 1)) (by omega) (by omega)
      unfold bufferIndex at this
      rwa [Nat.mul_div_cancel_left _ (by norm_num : 0 < 8)] at this
    have s2 := rmw_or_spec _ (x + i + (y / 8 + j + 1) * d.width)
      (pgm_read_byte bitmap (i + j * w) >>> (8 - (y &&& 7))) hlt2
    refine orSpec_congr (orSpec_trans s1 s2) (fun m b hb => ?_)
    rw [hbits1 m b hb]
    congr 1
    rw [and_seven, Nat.testBit_shiftRight, pgm_read_byte]
    have h256 := Nat.testBit_mod_two_pow (bitmap.getD (i + j * w) 0) 8 (8 - y % 8 + b)
    rw [show (2 : Nat) ^ 8 = 256 from rfl] at h256
    rw [h256]
    simp only [ho', ne_eq, not_false_eq_true, decide_True, Bool.true_and, Bool.and_assoc]
    congr 2
    apply decide_eq_decide.mpr
    omega
  · rw [if_neg ho]
    have ho' : y % 8 = 0 := by
      rw [and_seven] at ho
      omega
    refine orSpec_congr s1 (fun m b hb => ?_)
    rw [hbits1 m b hb]
    simp [ho']

theorem drawBitmap_orSpec (d : SH1106_OLED) (hwf : WF d) (bitmap : List Nat)
    (x y w h : Nat) (hx : x + w ≤ d.width) (hy : y + 8 * pageCount h ≤ d.height) :
    OrSpec d (drawBitmap d bitmap x y w h) (fun m b =>
      (List.range (pageCount h)).any (fun j => (List.range w).any (fun i =>
        (decide (x + i + (y / 8 + j) * d.width = m) && decide (y % 8 ≤ b) &&
          (bitmap.getD (i + j * w) 0).testBit (b - y % 8)) ||
        (decide (y % 8 ≠ 0) && decide (x + i + (y / 8 + j + 1) * d.width = m) &&
          decide (b < y % 8) && (bitmap.getD (i + j * w) 0).testBit (8 - y % 8 + b))))) := by
  unfold drawBitmap
  split
  · rename_i h0
    refine orSpec_congr (orSpec_refl d) (fun m b _ => ?_)
    rcases Nat.eq_zero_or_pos w with hw0 | hw0
    · subst hw0
      simp
    · have hh0 : h = 0 := by
        rcases Nat.mul_eq_zero.mp h0 with h1 | h1
        · omega
        · exact h1
      subst hh0
      simp [pageCount]
  · exact foldl_or_spec _ _ d (List.range (pageCount h))
      (fun e j hj he =>
        foldl_or_spec _ _ d (List.range w)
          (fun e' i hi he' =>
            blit_step_spec d hwf bitmap x y w (pageCount h) i j hx hy
              (List.mem_range.mp hi) (List.mem_range.mp hj) e' he') e he)
      d (frame_refl d)

theorem idx_eq_add {w a b p q : Nat} (ha : a < w) (hb : b < w) :
    a + q * w = b + p * w ↔ (a = b ∧ q = p) := by
  have := @idx_eq w b p a q hb ha
  constructor
  · intro h
    have := this.mp (by omega)
    omega
  · rintro ⟨rfl, rfl⟩
    rfl

theorem drawBitmap_bitAt (d : SH1106_OLED) (hwf : WF d) (bitmap : List Nat)
    (x y w h : Nat) (hx : x + w ≤ d.width) (hy : y + 8 * pageCount h ≤ d.height)
    (px py : Nat) (hpx : px < d.width) :
    bitAt (drawBitmap d bitmap x y w h) px py =
      (bitAt d px py ||
        (decide (x ≤ px ∧ px < x + w ∧ y ≤ py ∧ py < y + 8 * pageCount h) &&
          (bitmap.getD ((px - x) + ((py - y) / 8) * w) 0).testBit ((py - y) % 8))) := by
  rw [bitAt_of_orSpec (drawBitmap_orSpec d hwf bitmap x y w h hx hy)]
  congr 1
  rw [Bool.eq_iff_iff]
  simp only [List.any_eq_true, List.mem_range, Bool.and_eq_true, Bool.or_eq_true,
    decide_eq_true_eq]
  unfold bufferIndex
  constructor
  · rintro ⟨j, hj, i, hi, (⟨⟨h1, h2⟩, h3⟩ | ⟨⟨⟨h0, h1⟩, h2⟩, h3⟩)⟩
    · obtain ⟨e1, e2⟩ := (idx_eq_add (by omega) hpx).mp h1
      have a1 : px - x = i := by omega
      have a2 : (py - y) / 8 = j := by omega
      have a3 : (py - y) % 8 = py % 8 - y % 8 := by omega
      rw [a1, a2, a3]
      exact ⟨⟨by omega, by omega, by omega, by omega⟩, h3⟩
    · obtain ⟨e1, e2⟩ := (idx_eq_add (by omega) hpx).mp h1
      have a1 : px - x = i := by omega
      have a2 : (py - y) / 8 = j := by omega
      have a3 : (py - y) % 8 = 8 - y % 8 + py % 8 := by omega
      rw [a1, a2, a3]
      exact ⟨⟨by omega, by omega, by omega, by omega⟩, h3⟩
  · rintro ⟨⟨h1, h2, h3, h4⟩, h5⟩
    refine ⟨(py - y) / 8, by omega, px - x, by omega, ?_⟩
    by_cases hc : y % 8 ≤ py % 8
    · left
      have a3 : (py - y) % 8 = py % 8 - y % 8 := by omega
      rw [a3] at h5
      exact ⟨⟨(idx_eq_add (by omega) hpx).mpr ⟨by omega, by omega⟩, hc⟩, h5⟩
    · right
      have a3 : (py - y) % 8 = 8 - y % 8 + py % 8 := by omega
      rw [a3] at h5
      exact ⟨⟨⟨by omega, (idx_eq_add (by omega) hpx).mpr ⟨by omega, by omega⟩⟩, by omega⟩, h5⟩

theorem bytes_getD {d : SH1106_OLED} (hb : Bytes d) (m : Nat) : d.buffer.getD m 0 < 256 := by
  rw [List.getD_eq_getElem?_getD]
  rcases Nat.lt_or_ge m d.buffer.length with h | h
  · rw [List.getElem?_eq_getElem h]
    exact hb _ (List.getElem_mem h)
  · rw [List.getElem?_eq_none h]
    exact Nat.zero_lt_succ 255

theorem rmw_bytes {d : SH1106_OLED} (hb : Bytes d) (idx : Nat) (f : Nat → Nat) :
    Bytes (rmw d idx f) := by
  unfold rmw
  split
  · intro b hmem
    rcases List.mem_or_eq_of_mem_set hmem with h | h
    · exact hb b h
    · rw [h]
      exact Nat.mod_lt _ (by norm_num)
  · exact hb

theorem foldl_bytes {α : Type} (step : SH1106_OLED → α → SH1106_OLED)
    (hstep : ∀ e a, Bytes e → Bytes (step e a)) (l : List α) :
    ∀ d, Bytes d → Bytes (l.foldl step d) := by
  induction l with
  | nil => intro d hd; exact hd
  | cons a l ih => intro d hd; exact ih _ (hstep d a hd)

theorem drawBitmap_bytes {d : SH1106_OLED} (hb : Bytes d) (bitmap : List Nat)
    (x y w h : Nat) : Bytes (drawBitmap d bitmap x y w h) := by
  unfold drawBitmap
  split
  · exact hb
  · refine foldl_bytes _ (fun e j he => foldl_bytes _ (fun e' i he' => ?_) _ e he) _ d hb
    simp only
    split
    · exact rmw_bytes (rmw_bytes he' _ _) _ _
    · exact rmw_bytes he' _ _

theorem byte_ext {a b : Nat} (ha : a < 256) (hb : b < 256)
    (h : ∀ j, j < 8 → a.testBit j = b.testBit j) : a = b := by
  apply Nat.eq_of_testBit_eq
  intro j
  rcases Nat.lt_or_ge j 8 with hj | hj
  · exact h j hj
  · have h2 : (256 : Nat) ≤ 2 ^ j :=
      le_trans (by norm_num : 256 ≤ 2 ^ 8) (Nat.pow_le_pow_right (by norm_num) hj)
    rw [Nat.testBit_lt_two_pow (lt_of_lt_of_le ha h2),
      Nat.testBit_lt_two_pow (lt_of_lt_of_le hb h2)]

theorem drawBitmap_aligned (d : SH1106_OLED) (hwf : WF d) (hb : Bytes d) (bitmap : List Nat)
    (x y w h : Nat) (hx : x + w ≤ d.width) (hy : y + 8 * pageCount h ≤ d.height)
    (h0 : y % 8 = 0) :
    (∀ i j, i < w → j < pageCount h →
      (drawBitmap d bitmap x y w h).buffer.getD (x + i + (y / 8 + j) * d.width) 0 =
        d.buffer.getD (x + i + (y / 8 + j) * d.width) 0 |||
          pgm_read_byte bitmap (i + j * w)) ∧
    (∀ m, (∀ i j, i < w → j < pageCount h → m ≠ x + i + (y / 8 + j) * d.width) →
      (drawBitmap d bitmap x y w h).buffer.getD m 0 = d.buffer.getD m 0) := by
  have hs := drawBitmap_orSpec d hwf bitmap x y w h hx hy
  have hb' := drawBitmap_bytes hb bitmap x y w h
  constructor
  · intro i j hi hj
    have hsrc : pgm_read_byte bitmap (i + j * w) < 256 := Nat.mod_lt _ (by norm_num)
    refine byte_ext (bytes_getD hb' _)
      (Nat.or_lt_two_pow (n := 8) (bytes_getD hb _) hsrc) (fun b hb8 => ?_)
    rw [hs.2 _ b hb8, Nat.testBit_or, pgm_read_byte, testBit_mod_256 _ _ hb8]
    congr 1
    rw [Bool.eq_iff_iff]
    simp only [List.any_eq_true, List.mem_range, Bool.and_eq_true, Bool.or_eq_true,
      decide_eq_true_eq, h0]
    constructor
    · rintro ⟨j', hj', i', hi', (⟨⟨h1, h2⟩, h3⟩ | ⟨⟨⟨h1, _⟩, _⟩, _⟩)⟩
      · obtain ⟨e1, e2⟩ := (idx_eq_add (by omega : x + i' < d.width)
          (by omega : x + i < d.width)).mp h1
        have a1 : i' = i := by omega
        have a2 : j' = j := by omega
        subst a1 a2
        simpa using h3
      · exact absurd rfl h1
    · intro h3
      exact ⟨j, hj, i, hi, Or.inl ⟨⟨rfl, Nat.zero_le _⟩, by simpa using h3⟩⟩
  · intro m hm
    refine byte_ext (bytes_getD hb' _) (bytes_getD hb _) (fun b hb8 => ?_)
    rw [hs.2 _ b hb8]
    have : (List.range (pageCount h)).any (fun j => (List.range w).any (fun i =>
        (decide (x + i + (y / 8 + j) * d.width = m) && decide (y % 8 ≤ b) &&
          (bitmap.getD (i + j * w) 0).testBit (b - y % 8)) ||
        (decide (y % 8 ≠ 0) && decide (x + i + (y / 8 + j + 1) * d.width = m) &&
          decide (b < y % 8) && (bitmap.getD (i + j * w) 0).testBit (8 - y % 8 + b)))) =
        false := by
      rw [Bool.eq_false_iff]
      intro hh
      simp only [List.any_eq_true, List.mem_range, Bool.and_eq_true, Bool.or_eq_true,
        decide_eq_true_eq, h0] at hh
      obtain ⟨j', hj', i', hi', (⟨⟨h1, _⟩, _⟩ | ⟨⟨⟨h1, _⟩, _⟩, _⟩)⟩ := hh
      · exact hm i' j' hi' hj' h1.symm
      · exact absurd rfl h1
    beta_reduce
    rw [this, Bool.or_false]

theorem init_bytes (w h : Nat) : Bytes (init w h) := by
  intro b hb
  have : b = 0 := by
    simp only [init, setFontSize] at hb
    exact List.eq_of_mem_replicate hb
  omega

/-- C6. On a well-formed display whose buffer holds bytes, with all the rows
of the source pages on the display (`x + w <= width`,
`y + 8 * ceil(h / 8) <= height`), `drawBitmap` keeps the frame and composites by
OR at any vertical offset: the bit of pixel `(x + i, y + k)` afterwards is its
old bit or bit `k mod 8` of source byte `bitmap[i + (k / 8) * w]`, and every
pixel outside that rectangle keeps its bit. When `y mod 8 = 0` each destination
byte is the old byte or-ed with the source byte and every other byte of the
buffer, the next page included, is unchanged. -/
theorem drawBitmap_composites (d : SH1106_OLED) (hwf : WF d) (hb : Bytes d)
    (bitmap : List Nat) (x y w h : Nat)
    (hx : x + w ≤ d.width) (hy : y + 8 * pageCount h ≤ d.height) :
    Frame d (drawBitmap d bitmap x y w h) ∧
    (∀ i k, i < w → k < 8 * pageCount h →
      bitAt (drawBitmap d bitmap x y w h) (x + i) (y + k) =
        (bitAt d (x + i) (y + k) || (bitmap.getD (i + (k / 8) * w) 0).testBit (k % 8))) ∧
    (∀ px py, px < d.width → py < d.height →
      ¬ (x ≤ px ∧ px < x + w ∧ y ≤ py ∧ py < y + 8 * pageCount h) →
      bitAt (drawBitmap d bitmap x y w h) px py = bitAt d px py) ∧
    (y % 8 = 0 →
      (∀ i j, i < w → j < pageCount h →
        (drawBitmap d bitmap x y w h).buffer.getD (x + i + (y / 8 + j) * d.width) 0 =
          d.buffer.getD (x + i + (y / 8 + j) * d.width) 0 |||
            pgm_read_byte bitmap (i + j * w)) ∧
      (∀ m, (∀ i j, i < w → j < pageCount h → m ≠ x + i + (y / 8 + j) * d.width) →
        (drawBitmap d bitmap x y w h).buffer.getD m 0 = d.buffer.getD m 0)) := by
  refine ⟨(drawBitmap_orSpec d hwf bitmap x y w h hx hy).1, ?_, ?_,
    drawBitmap_aligned d hwf hb bitmap x y w h hx hy⟩
  · intro i k hi hk
    rw [drawBitmap_bitAt d hwf bitmap x y w h hx hy (x + i) (y + k) (by omega)]
    have h1 : x + i - x = i := by omega
    have h2 : y + k - y = k := by omega
    have h3 : (x ≤ x + i ∧ x + i < x + w ∧ y ≤ y + k ∧ y + k < y + 8 * pageCount h) := by
      omega
    rw [h1, h2]
    simp only [h3, and_self, decide_True, Bool.true_and]
  · intro px py hpx _ hout
    rw [drawBitmap_bitAt d hwf bitmap x y w h hx hy px py hpx]
    simp only [hout, decide_False, Bool.false_and, Bool.or_false]

theorem drawBitmap_composites_witness :
    WF (init 128 64) ∧ Bytes (init 128 64) ∧ 3 + 3 ≤ (init 128 64).width ∧
      5 + 8 * pageCount 8 ≤ (init 128 64).height ∧
      (∀ i k, i < 3 → k < 8 * pageCount 8 →
        bitAt (drawBitmap (init 128 64) [0x81, 0xFF, 0x03] 3 5 3 8) (3 + i) (5 + k) =
          (bitAt (init 128 64) (3 + i) (5 + k) ||
            (([0x81, 0xFF, 0x03] : List Nat).getD (i + (k / 8) * 3) 0).testBit (k % 8))) ∧
      3 + 3 ≤ (init 128 64).width ∧ 8 + 8 * pageCount 8 ≤ (init 128 64).height ∧ 8 % 8 = 0 ∧
      (∀ i j, i < 3 → j < pageCount 8 →
        (drawBitmap (init 128 64) [0x81, 0xFF, 0x03] 3 8 3 8).buffer.getD
            (3 + i + (8 / 8 + j) * (init 128 64).width) 0 =
          (init 128 64).buffer.getD (3 + i + (8 / 8 + j) * (init 128 64).width) 0 |||
            pgm_read_byte [0x81, 0xFF, 0x03] (i + j * 3)) :=
  ⟨init_WF 128 64 (by decide) (by decide) (by decide), init_bytes 128 64, by decide, by decide,
    (drawBitmap_composites (init 128 64) (init_WF 128 64 (by decide) (by decide) (by decide))
      (init_bytes 128 64) [0x81, 0xFF, 0x03] 3 5 3 8 (by decide) (by decide)).2.1,
    by decide, by decide, by decide,
    ((drawBitmap_composites (init 128 64) (init_WF 128 64 (by decide) (by decide) (by decide))
      (init_bytes 128 64) [0x81, 0xFF, 0x03] 3 8 3 8 (by decide) (by decide)).2.2.2
        (by decide)).1⟩

/-! ## Filled circle -/

theorem pixSpec_trans {a b c : SH1106_OLED} {p q : Nat → Nat → Bool}
    (h1 : PixSpec a b p) (h2 : PixSpec b c q) :
    PixSpec a c (fun px py => p px py || q px py) := by
  refine ⟨frame_trans h1.1 h2.1, fun px py hpx => ?_⟩
  rw [h2.2 px py (by rw [h1.1.1]; exact hpx), h1.2 px py hpx, Bool.or_assoc]

theorem pixSpec_congr {a b : SH1106_OLED} {p q : Nat → Nat → Bool}
    (h : PixSpec a b p) (hpq : ∀ px py, p px py = q px py) : PixSpec a b q :=
  ⟨h.1, fun px py hpx => by rw [h.2 px py hpx, hpq px py]⟩

theorem hline_int (d : SH1106_OLED) (hwf : WF d) (cx : Nat) (a row : Int)
    (ha0 : 0 ≤ a) (ha : a ≤ cx) (hfit : cx + a < d.width) (hr0 : 0 ≤ row)
    (hr : row < d.height) :
    PixSpec d (drawHLine d (u8 (cx - a)) (u8 (cx + a)) (u8 row)) (fun px py =>
      decide ((py : Int) = row ∧ (cx : Int) - a ≤ px ∧ (px : Int) ≤ cx + a)) := by
  have hw := hwf.1
  have hh := hwf.2.1
  have h1 : u8 (cx - a) < d.width := by unfold u8; omega
  have h2 : u8 (cx + a) < d.width := by unfold u8; omega
  have h3 : u8 row < d.height := by unfold u8; omega
  refine ⟨(drawHLine_orSpec d hwf _ _ _ h1 h2 h3).1, fun px py hpx => ?_⟩
  rw [drawHLine_bitAt d hwf _ _ _ h1 h2 h3 px py hpx]
  congr 1
  apply decide_eq_decide.mpr
  unfold u8
  omega

theorem hline_int_of_frame (d0 d : SH1106_OLED) (hwf : WF d0) (hf : Frame d0 d) (cx : Nat)
    (a row : Int) (ha0 : 0 ≤ a) (ha : a ≤ cx) (hfit : cx + a < d0.width) (hr0 : 0 ≤ row)
    (hr : row < d0.height) :
    PixSpec d (drawHLine d (u8 (cx - a)) (u8 (cx + a)) (u8 row)) (fun px py =>
      decide ((py : Int) = row ∧ (cx : Int) - a ≤ px ∧ (px : Int) ≤ cx + a)) :=
  hline_int d (WF_of_frame hf hwf) cx a row ha0 ha (by rw [hf.1]; exact hfit) hr0
    (by rw [hf.2.1]; exact hr)

theorem circleSpans_spec (d0 d : SH1106_OLED) (hwf : WF d0) (hf : Frame d0 d) (cx cy r : Nat)
    (a b : Int) (h1 : r ≤ cx) (h2 : cx + r < d0.width) (h3 : r ≤ cy)
    (h4 : cy + r < d0.height) (ha0 : 0 ≤ a) (ha : a ≤ r) (hb0 : 0 ≤ b) (hb : b ≤ r) :
    PixSpec d (circleSpans d cx cy a b) (fun px py =>
      decide (((py : Int) = cy + b ∨ (py : Int) = cy - b) ∧
          (cx : Int) - a ≤ px ∧ (px : Int) ≤ cx + a) ||
        decide (((py : Int) = cy + a ∨ (py : Int) = cy - a) ∧
          (cx : Int) - b ≤ px ∧ (px : Int) ≤ cx + b)) := by
  have s1 := hline_int_of_frame d0 d hwf hf cx a (cy + b) ha0 (by omega) (by omega)
    (by omega) (by omega)
  have s2 := hline_int_of_frame d0 _ hwf (frame_trans hf s1.1) cx a (cy - b) ha0 (by omega)
    (by omega) (by omega) (by omega)
  have s12 := pixSpec_trans s1 s2
  have s3 := hline_int_of_frame d0 _ hwf (frame_trans hf s12.1) cx b (cy + a) hb0 (by omega)
    (by omega) (by omega) (by omega)
  have s123 := pixSpec_trans s12 s3
  have s4 := hline_int_of_frame d0 _ hwf (frame_trans hf s123.1) cx b (cy - a) hb0 (by omega)
    (by omega) (by omega) (by omega)
  refine pixSpec_congr (pixSpec_trans s123 s4) (fun px py => ?_)
  rw [Bool.eq_iff_iff]
  simp only [Bool.or_eq_true, decide_eq_true_eq]
  tauto

theorem sq_le_sq_of_bounds (u a : Int) (h1 : -a ≤ u) (h2 : u ≤ a) : u ^ 2 ≤ a ^ 2 := by
  nlinarith

theorem bounds_of_sq_lt (u b : Int) (hb : 0 ≤ b) (h : u ^ 2 < (b + 1) ^ 2) :
    -b ≤ u ∧ u ≤ b := by
  constructor
  · by_contra hc
    have : u ≤ -(b + 1) := by omega
    nlinarith
  · by_contra hc
    have : b + 1 ≤ u := by omega
    nlinarith

theorem circleInv_init (r : Nat) : CircleInv r (1 - (r : Int)) 1 (-2 * (r : Int)) 0 r := by
  have hr : (0 : Int) ≤ r := Int.ofNat_nonneg r
  refine ⟨by ring, by ring, rfl, le_refl _, hr, le_refl _, by nlinarith, fun _ => by nlinarith,
    hr, by nlinarith⟩

theorem circleInv_keep (r : Nat) (f ddF_x ddF_y x y : Int)
    (hinv : CircleInv r f ddF_x ddF_y x y) (hxy : x < y) (hf : ¬ f ≥ 0) :
    CircleInv r (f + (ddF_x + 2)) (ddF_x + 2) ddF_y (x + 1) y ∧
      (x + 1) ^ 2 + y ^ 2 ≤ (r : Int) ^ 2 + r := by
  obtain ⟨h1, h2, h3, h4, h0, h5, h6, h7, h8, h9⟩ := hinv
  have hf' : f < 0 := by omega
  have hn : (x + 1) ^ 2 + y ^ 2 ≤ (r : Int) ^ 2 + r := by nlinarith
  exact ⟨⟨by rw [h1, h2]; ring, by rw [h2]; ring, h3, by omega, h0, h5, by nlinarith,
    fun _ => by nlinarith, by omega, hn⟩, hn⟩

theorem circleInv_dec (r : Nat) (f ddF_x ddF_y x y : Int)
    (hinv : CircleInv r f ddF_x ddF_y x y) (hxy : x < y) (hf : f ≥ 0) :
    CircleInv r (f + (ddF_y + 2) + (ddF_x + 2)) (ddF_x + 2) (ddF_y + 2) (x + 1) (y - 1) ∧
      (x + 1) ^ 2 + (y - 1) ^ 2 ≤ (r : Int) ^ 2 + r ∧
      ∀ u : Int, u ^ 2 + y ^ 2 < (r : Int) ^ 2 → -x ≤ u ∧ u ≤ x := by
  obtain ⟨h1, h2, h3, h4, h0, h5, h6, h7, h8, h9⟩ := hinv
  have h7' := h7 hxy
  have hn : (x + 1) ^ 2 + (y - 1) ^ 2 ≤ (r : Int) ^ 2 + r := by nlinarith
  refine ⟨⟨by rw [h1, h2, h3]; ring, by rw [h2]; ring, by rw [h3]; ring, by omega, by omega,
    by omega, by nlinarith, fun _ => by nlinarith, by omega, hn⟩, hn, fun u hu => ?_⟩
  apply bounds_of_sq_lt u x h4
  nlinarith

/-- The `int16_t` locals of the circle loop never leave the 16-bit range: in
every state of the invariant with an 8-bit radius, `f`, `ddF_x`, `ddF_y`, `x`,
`y` and the intermediate `f + ddF_y` of a round with `f >= 0` are between
`-32768` and `32767`. -/
theorem circleInv_int16 (r : Nat) (f ddF_x ddF_y x y : Int) (hr : r ≤ 255)
    (hinv : CircleInv r f ddF_x ddF_y x y) :
    (-32768 ≤ f ∧ f ≤ 32767) ∧ (-32768 ≤ ddF_x ∧ ddF_x + 2 ≤ 32767) ∧
      (-32768 ≤ ddF_y ∧ ddF_y + 2 ≤ 32767) ∧ (-32768 ≤ x ∧ x + 1 ≤ 32767) ∧
      (-32768 ≤ y - 1 ∧ y ≤ 32767) ∧
      (-32768 ≤ f + (ddF_y + 2) ∧ f + (ddF_y + 2) ≤ 32767) ∧
      (-32768 ≤ f + (ddF_y + 2) + (ddF_x + 2) ∧ f + (ddF_y + 2) + (ddF_x + 2) ≤ 32767) ∧
      (-32768 ≤ f + (ddF_x + 2) ∧ f + (ddF_x + 2) ≤ 32767) := by
  obtain ⟨h1, h2, h3, h4, h0, h5, h6, h7, h8, h9⟩ := hinv
  have hr' : (r : Int) ≤ 255 := by omega
  have hf1 : f ≤ 3 * (r : Int) + 1 := by nlinarith
  have hf2 : -(3 * (r : Int)) ≤ f := by nlinarith
  refine ⟨⟨by omega, by omega⟩, ⟨by omega, by omega⟩, ⟨by omega, by omega⟩,
    ⟨by omega, by omega⟩, ⟨by omega, by omega⟩, ⟨by omega, by omega⟩, ⟨by omega, by omega⟩,
    ⟨by omega, by omega⟩⟩

theorem circle_round (d0 : SH1106_OLED) (hwf : WF d0) (cx cy r : Nat)
    (h1 : r ≤ cx) (h2 : cx + r < d0.width) (h3 : r ≤ cy) (h4 : cy + r < d0.height)
    (d : SH1106_OLED) (hf : Frame d0 d) (x y y1 : Int) (res : SH1106_OLED)
    (hx0 : 0 ≤ x) (hxy : x < y) (hyr : y ≤ r) (hy10 : 0 ≤ y1) (hy1 : y1 ≤ y)
    (hclose : (r : Int) ^ 2 ≤ (y1 + 1) ^ 2 + (x + 1) ^ 2)
    (hnear : (x + 1) ^ 2 + y1 ^ 2 ≤ (r : Int) ^ 2 + r)
    (hdec : y1 = y ∨ (y1 = y - 1 ∧ ∀ u : Int, u ^ 2 + y ^ 2 < (r : Int) ^ 2 → -x ≤ u ∧ u ≤ x))
    (hres : CircleLoopSpec d0 cx cy r (circleSpans d cx cy (x + 1) y1) res (x + 1) y1) :
    CircleLoopSpec d0 cx cy r d res x y := by
  have hS := circleSpans_spec d0 d hwf hf cx cy r (x + 1) y1 h1 h2 h3 h4 (by omega) (by omega)
    hy10 (by omega)
  obtain ⟨rf, rmono, rbound, rcover⟩ := hres
  have hdw : d.width = d0.width := hf.1
  have hstep : ∀ px py, px < d0.width → bitAt (circleSpans d cx cy (x + 1) y1) px py = true →
      bitAt d px py = true ∨
        ((((py : Int) = cy + y1 ∨ (py : Int) = cy - y1) ∧
            (cx : Int) - (x + 1) ≤ px ∧ (px : Int) ≤ cx + (x + 1)) ∨
          (((py : Int) = cy + (x + 1) ∨ (py : Int) = cy - (x + 1)) ∧
            (cx : Int) - y1 ≤ px ∧ (px : Int) ≤ cx + y1)) := by
    intro px py hpx hb
    rw [hS.2 px py (by rw [hdw]; exact hpx)] at hb
    simp only [Bool.or_eq_true, decide_eq_true_eq] at hb
    tauto
  have hon : ∀ px py, px < d0.width →
      (bitAt d px py = true ∨
        ((((py : Int) = cy + y1 ∨ (py : Int) = cy - y1) ∧
            (cx : Int) - (x + 1) ≤ px ∧ (px : Int) ≤ cx + (x + 1)) ∨
          (((py : Int) = cy + (x + 1) ∨ (py : Int) = cy - (x + 1)) ∧
            (cx : Int) - y1 ≤ px ∧ (px : Int) ≤ cx + y1))) →
      bitAt (circleSpans d cx cy (x + 1) y1) px py = true := by
    intro px py hpx hb
    rw [hS.2 px py (by rw [hdw]; exact hpx)]
    simp only [Bool.or_eq_true, decide_eq_true_eq]
    tauto
  refine ⟨frame_trans hS.1 rf, ?_, ?_, ?_⟩
  · intro px py hpx hb
    exact rmono px py hpx (hon px py hpx (Or.inl hb))
  · intro px py hpx hb
    rcases rbound px py hpx hb with hb1 | hb1
    · rcases hstep px py hpx hb1 with hb2 | hb2 | hb2
      · exact Or.inl hb2
      · right
        obtain ⟨hrow, hl, hr⟩ := hb2
        have e1 : ((py : Int) - cy) ^ 2 = y1 ^ 2 := by
          rcases hrow with e | e <;> (rw [e]; ring)
        have e2 := sq_le_sq_of_bounds ((px : Int) - cx) (x + 1) (by omega) (by omega)
        nlinarith
      · right
        obtain ⟨hrow, hl, hr⟩ := hb2
        have e1 : ((py : Int) - cy) ^ 2 = (x + 1) ^ 2 := by
          rcases hrow with e | e <;> (rw [e]; ring)
        have e2 := sq_le_sq_of_bounds ((px : Int) - cx) y1 (by omega) (by omega)
        nlinarith
    · exact Or.inr hb1
  · intro px py hpx hin hrow hrem
    by_cases ha : (py : Int) - cy = x + 1 ∨ (py : Int) - cy = -(x + 1)
    · have e1 : ((py : Int) - cy) ^ 2 = (x + 1) ^ 2 := by
        rcases ha with e | e
        · rw [e]
        · rw [e]; ring
      have hb := bounds_of_sq_lt ((px : Int) - cx) y1 hy10 (by nlinarith)
      exact rmono px py hpx (hon px py hpx (Or.inr (Or.inr ⟨by omega, by omega, by omega⟩)))
    · have hrow' : x + 1 < (py : Int) - cy ∨ (py : Int) - cy < -(x + 1) := by omega
      by_cases hb : -y1 < (py : Int) - cy ∧ (py : Int) - cy < y1
      · exact rcover px py hpx hin hrow' (Or.inl hb)
      · by_cases hc : (py : Int) - cy = y1 ∨ (py : Int) - cy = -y1
        · by_cases hd : -(x + 1) ≤ (px : Int) - cx ∧ (px : Int) - cx ≤ x + 1
          · exact rmono px py hpx
              (hon px py hpx (Or.inr (Or.inl ⟨by omega, by omega, by omega⟩)))
          · exact rcover px py hpx hin hrow' (Or.inr ⟨hc, by omega⟩)
        · exfalso
          rcases hdec with e | ⟨e, hu⟩
          · omega
          · have e1 : ((py : Int) - cy) ^ 2 = y ^ 2 := by
              have : (py : Int) - cy = y ∨ (py : Int) - cy = -y := by omega
              rcases this with e' | e'
              · rw [e']
              · rw [e']; ring
            have := hu ((px : Int) - cx) (by nlinarith)
            omega

theorem circleFillLoop_spec (d0 : SH1106_OLED) (hwf : WF d0) (cx cy r : Nat)
    (h1 : r ≤ cx) (h2 : cx + r < d0.width) (h3 : r ≤ cy) (h4 : cy + r < d0.height) :
    ∀ (n : Nat) (d : SH1106_OLED) (f ddF_x ddF_y x y : Int), (y - x).toNat ≤ n →
      Frame d0 d → CircleInv r f ddF_x ddF_y x y →
      CircleLoopSpec d0 cx cy r d (circleFillLoop d cx cy f ddF_x ddF_y x y) x y := by
  have hstop : ∀ (d : SH1106_OLED) (f ddF_x ddF_y x y : Int), ¬ x < y → 0 ≤ y →
      CircleLoopSpec d0 cx cy r d (circleFillLoop d cx cy f ddF_x ddF_y x y) x y := by
    intro d f ddF_x ddF_y x y hxy hy0
    rw [circleFillLoop, if_neg hxy]
    refine ⟨frame_refl d, fun _ _ _ h => h, fun _ _ _ h => Or.inl h, ?_⟩
    intro px py _ _ hrow hrem
    omega
  intro n
  induction n with
  | zero =>
    intro d f ddF_x ddF_y x y hn _ hinv
    exact hstop d f ddF_x ddF_y x y (by omega) hinv.2.2.2.2.1
  | succ n ih =>
    intro d f ddF_x ddF_y x y hn hf hinv
    by_cases hxy : x < y
    · rw [circleFillLoop, if_pos hxy]
      have hx0 : 0 ≤ x := hinv.2.2.2.1
      have hyr : y ≤ r := hinv.2.2.2.2.2.1
      by_cases hf0 : f ≥ 0
      · simp only [hf0, if_true]
        obtain ⟨hinv1, hnear, hu⟩ := circleInv_dec r f ddF_x ddF_y x y hinv hxy hf0
        have hS := circleSpans_spec d0 d hwf hf cx cy r (x + 1) (y - 1) h1 h2 h3 h4
          (by omega) (by omega) (by omega) (by omega)
        exact circle_round d0 hwf cx cy r h1 h2 h3 h4 d hf x y (y - 1) _ hx0 hxy hyr
          (by omega) (by omega) hinv1.2.2.2.2.2.2.1 hnear (Or.inr ⟨rfl, hu⟩)
          (ih _ _ _ _ _ _ (by omega) (frame_trans hf hS.1) hinv1)
      · simp only [hf0, if_false]
        obtain ⟨hinv1, hnear⟩ := circleInv_keep r f ddF_x ddF_y x y hinv hxy hf0
        have hS := circleSpans_spec d0 d hwf hf cx cy r (x + 1) y h1 h2 h3 h4
          (by omega) (by omega) (by omega) (by omega)
        exact circle_round d0 hwf cx cy r h1 h2 h3 h4 d hf x y y _ hx0 hxy hyr
          (by omega) (le_refl _) hinv1.2.2.2.2.2.2.1 hnear (Or.inl rfl)
          (ih _ _ _ _ _ _ (by omega) (frame_trans hf hS.1) hinv1)
    · exact hstop d f ddF_x ddF_y x y hxy hinv.2.2.2.2.1

theorem u8_natCast (n : Nat) (h : n < 256) : u8 (n : Int) = n := by
  unfold u8
  omega

theorem drawCircleFill_first (d : SH1106_OLED) (hwf : WF d) (cx cy r : Nat)
    (h1 : r ≤ cx) (h2 : cx + r < d.width) (h4 : cy + r < d.height) :
    PixSpec d (drawHLine d (u8 ((cx : Int) - r)) (u8 ((cx : Int) + r)) cy) (fun px py =>
      decide ((py : Int) = cy ∧ (cx : Int) - r ≤ px ∧ (px : Int) ≤ cx + r)) := by
  have h := hline_int d hwf cx r cy (by omega) (by omega) (by omega) (by omega) (by omega)
  rwa [u8_natCast cy (by have := hwf.2.1; omega)] at h

theorem drawCircleFill_loop (d : SH1106_OLED) (hwf : WF d) (cx cy r : Nat)
    (h1 : r ≤ cx) (h2 : cx + r < d.width) (h3 : r ≤ cy) (h4 : cy + r < d.height) :
    CircleLoopSpec d cx cy r (drawHLine d (u8 ((cx : Int) - r)) (u8 ((cx : Int) + r)) cy)
      (drawCircleFill d cx cy r) 0 r :=
  circleFillLoop_spec d hwf cx cy r h1 h2 h3 h4 r _ _ _ _ 0 r (by omega)
    (drawCircleFill_first d hwf cx cy r h1 h2 h4).1 (circleInv_init r)

theorem drawCircleFill_poles (d : SH1106_OLED) (hwf : WF d) (cx cy r : Nat)
    (h1 : r ≤ cx) (h2 : cx + r < d.width) (h3 : r ≤ cy) (h4 : cy + r < d.height)
    (py : Nat) (hpy : (py : Int) = cy + r ∨ (py : Int) = cy - r) :
    bitAt (drawCircleFill d cx cy r) cx py = true := by
  have hfirst := drawCircleFill_first d hwf cx cy r h1 h2 h4
  have hcx : cx < d.width := by omega
  rcases Nat.eq_zero_or_pos r with hr | hr
  · subst hr
    apply (drawCircleFill_loop d hwf cx cy 0 h1 h2 h3 h4).2.1 cx py hcx
    rw [hfirst.2 cx py hcx]
    simp only [Bool.or_eq_true, decide_eq_true_eq]
    right
    omega
  · have hinit := circleInv_init r
    have hxy : (0 : Int) < r := by omega
    unfold drawCircleFill
    simp only
    rw [circleFillLoop, if_pos hxy]
    by_cases hf0 : (1 - (r : Int)) ≥ 0
    · simp only [hf0, if_true]
      obtain ⟨hinv1, _, _⟩ := circleInv_dec r _ _ _ 0 r hinit hxy hf0
      have hS := circleSpans_spec d _ hwf hfirst.1 cx cy r (0 + 1) ((r : Int) - 1) h1 h2 h3 h4
        (by omega) (by omega) (by omega) (by omega)
      have hL := circleFillLoop_spec d hwf cx cy r h1 h2 h3 h4 r _ _ _ _ _ _ (by omega)
        (frame_trans hfirst.1 hS.1) hinv1
      apply hL.2.1 cx py hcx
      rw [hS.2 cx py (by rw [hfirst.1.1]; exact hcx)]
      simp only [Bool.or_eq_true, decide_eq_true_eq]
      right
      right
      omega
    · simp only [hf0, if_false]
      obtain ⟨hinv1, _⟩ := circleInv_keep r _ _ _ 0 r hinit hxy hf0
      have hS := circleSpans_spec d _ hwf hfirst.1 cx cy r (0 + 1) (r : Int) h1 h2 h3 h4
        (by omega) (by omega) (by omega) (by omega)
      have hL := circleFillLoop_spec d hwf cx cy r h1 h2 h3 h4 r _ _ _ _ _ _ (by omega)
        (frame_trans hfirst.1 hS.1) hinv1
      apply hL.2.1 cx py hcx
      rw [hS.2 cx py (by rw [hfirst.1.1]; exact hcx)]
      simp only [Bool.or_eq_true, decide_eq_true_eq]
      right
      left
      omega

/-- C4. For a circle that fits on a well-formed display, `drawCircleFill`
keeps the frame, the four cardinal pixels `(cx + r, cy)`, `(cx - r, cy)`,
`(cx, cy + r)`, `(cx, cy - r)` are on afterwards, and so is every pixel
strictly inside the circle of radius `r`. -/
theorem drawCircleFill_covers (d : SH1106_OLED) (hwf : WF d) (cx cy r : Nat)
    (h1 : r ≤ cx) (h2 : cx + r < d.width) (h3 : r ≤ cy) (h4 : cy + r < d.height) :
    Frame d (drawCircleFill d cx cy r) ∧
    bitAt (drawCircleFill d cx cy r) (cx + r) cy = true ∧
    bitAt (drawCircleFill d cx cy r) (cx - r) cy = true ∧
    bitAt (drawCircleFill d cx cy r) cx (cy + r) = true ∧
    bitAt (drawCircleFill d cx cy r) cx (cy - r) = true ∧
    ∀ px py : Nat, ((px : Int) - cx) ^ 2 + ((py : Int) - cy) ^ 2 < (r : Int) ^ 2 →
      bitAt (drawCircleFill d cx cy r) px py = true := by
  have hfirst := drawCircleFill_first d hwf cx cy r h1 h2 h4
  have hL := drawCircleFill_loop d hwf cx cy r h1 h2 h3 h4
  have hrow : ∀ px : Nat, (cx : Int) - r ≤ px → (px : Int) ≤ cx + r →
      bitAt (drawCircleFill d cx cy r) px cy = true := by
    intro px hl hr
    have hpx : px < d.width := by omega
    apply hL.2.1 px cy hpx
    rw [hfirst.2 px cy hpx]
    simp only [Bool.or_eq_true, decide_eq_true_eq]
    right
    exact ⟨trivial, hl, hr⟩
  refine ⟨frame_trans hfirst.1 hL.1, hrow _ (by omega) (by omega), hrow _ (by omega) (by omega),
    drawCircleFill_poles d hwf cx cy r h1 h2 h3 h4 _ (by omega),
    drawCircleFill_poles d hwf cx cy r h1 h2 h3 h4 _ (by omega), ?_⟩
  intro px py hin
  have hr0 : (0 : Int) ≤ r := Int.ofNat_nonneg r
  have hdx := bounds_of_sq_lt ((px : Int) - cx) r hr0 (by nlinarith)
  have hdy := bounds_of_sq_lt ((py : Int) - cy) r hr0 (by nlinarith)
  by_cases hy0 : (py : Int) - cy = 0
  · have : py = cy := by omega
    subst this
    exact hrow px (by omega) (by omega)
  · have hpx : px < d.width := by omega
    refine hL.2.2.2 px py hpx hin (by omega) (Or.inl ⟨?_, ?_⟩)
    · by_contra hc
      have : (py : Int) - cy = -r := by omega
      rw [this] at hin
      nlinarith
    · by_contra hc
      have : (py : Int) - cy = r := by omega
      rw [this] at hin
      nlinarith

theorem drawCircleFill_covers_witness :
    WF (init 128 64) ∧ 3 ≤ 10 ∧ 10 + 3 < (init 128 64).width ∧ 3 ≤ 10 ∧
      10 + 3 < (init 128 64).height ∧
      bitAt (drawCircleFill (init 128 64) 10 10 3) (10 + 3) 10 = true ∧
      bitAt (drawCircleFill (init 128 64) 10 10 3) (10 - 3) 10 = true ∧
      bitAt (drawCircleFill (init 128 64) 10 10 3) 10 (10 + 3) = true ∧
      bitAt (drawCircleFill (init 128 64) 10 10 3) 10 (10 - 3) = true ∧
      ∀ px py : Nat, ((px : Int) - (10 : Nat)) ^ 2 + ((py : Int) - (10 : Nat)) ^ 2 <
          ((3 : Nat) : Int) ^ 2 →
        bitAt (drawCircleFill (init 128 64) 10 10 3) px py = true :=
  ⟨init_WF 128 64 (by decide) (by decide) (by decide), by decide, by decide, by decide,
    by decide,
    (drawCircleFill_covers (init 128 64) (init_WF 128 64 (by decide) (by decide) (by decide))
      10 10 3 (by decide) (by decide) (by decide) (by decide)).2⟩

/-- C5. For a circle that fits on a well-formed display, every pixel that is
on after `drawCircleFill` was on before or lies within radius `r + 1/2` of the
centre, `4 * (dx^2 + dy^2) <= (2 * r + 1)^2`; on a cleared buffer every pixel
that is on afterwards lies within that radius. -/
theorem drawCircleFill_within (d : SH1106_OLED) (hwf : WF d) (cx cy r : Nat)
    (h1 : r ≤ cx) (h2 : cx + r < d.width) (h3 : r ≤ cy) (h4 : cy + r < d.height) :
    (∀ px py : Nat, px < d.width → py < d.height →
      bitAt (drawCircleFill d cx cy r) px py = true →
      bitAt d px py = true ∨
        4 * (((px : Int) - cx) ^ 2 + ((py : Int) - cy) ^ 2) ≤ (2 * (r : Int) + 1) ^ 2) ∧
    (∀ px py : Nat, px < d.width → py < d.height →
      bitAt (drawCircleFill (clear d) cx cy r) px py = true →
      4 * (((px : Int) - cx) ^ 2 + ((py : Int) - cy) ^ 2) ≤ (2 * (r : Int) + 1) ^ 2) := by
  have key : ∀ e : SH1106_OLED, WF e → cx + r < e.width → cy + r < e.height →
      ∀ px py : Nat, px < e.width →
      bitAt (drawCircleFill e cx cy r) px py = true →
      bitAt e px py = true ∨
        4 * (((px : Int) - cx) ^ 2 + ((py : Int) - cy) ^ 2) ≤ (2 * (r : Int) + 1) ^ 2 := by
    intro e hwe he2 he4 px py hpx hb
    have hfirst := drawCircleFill_first e hwe cx cy r h1 he2 he4
    have hL := drawCircleFill_loop e hwe cx cy r h1 he2 h3 he4
    rcases hL.2.2.1 px py hpx hb with hb1 | hb1
    · rw [hfirst.2 px py hpx] at hb1
      simp only [Bool.or_eq_true, decide_eq_true_eq] at hb1
      rcases hb1 with hb2 | ⟨e1, e2, e3⟩
      · exact Or.inl hb2
      · right
        have e4 : ((py : Int) - cy) ^ 2 = 0 := by rw [e1]; ring
        have e5 := sq_le_sq_of_bounds ((px : Int) - cx) r (by omega) (by omega)
        nlinarith
    · exact Or.inr hb1
  refine ⟨fun px py hpx _ hb => key d hwf h2 h4 px py hpx hb, fun px py hpx _ hb => ?_⟩
  rcases key (clear d) (WF_of_frame (clear_frame d) hwf) h2 h4 px py hpx hb with hb1 | hb1
  · rw [bitAt_clear] at hb1
    exact Bool.noConfusion hb1
  · exact hb1

theorem drawCircleFill_within_witness :
    WF (init 128 64) ∧ 3 ≤ 10 ∧ 10 + 3 < (init 128 64).width ∧ 3 ≤ 10 ∧
      10 + 3 < (init 128 64).height ∧
      ∀ px py : Nat, px < (init 128 64).width → py < (init 128 64).height →
        bitAt (drawCircleFill (clear (init 128 64)) 10 10 3) px py = true →
        4 * (((px : Int) - (10 : Nat)) ^ 2 + ((py : Int) - (10 : Nat)) ^ 2) ≤
          (2 * ((3 : Nat) : Int) + 1) ^ 2 :=
  ⟨init_WF 128 64 (by decide) (by decide) (by decide), by decide, by decide, by decide,
    by decide,
    (drawCircleFill_within (init 128 64) (init_WF 128 64 (by decide) (by decide) (by decide))
      10 10 3 (by decide) (by decide) (by decide) (by decide)).2⟩

/-! ## Text: the page below is overwritten -/

theorem rmw_width (d : SH1106_OLED) (idx : Nat) (f : Nat → Nat) :
    (rmw d idx f).width = d.width := by
  unfold rmw
  split <;> rfl

theorem rmw_length (d : SH1106_OLED) (idx : Nat) (f : Nat → Nat) :
    (rmw d idx f).buffer.length = d.buffer.length := by
  unfold rmw
  split
  · simp
  · rfl

theorem rmw_getD_ne (d : SH1106_OLED) (idx m : Nat) (f : Nat → Nat) (h : idx ≠ m) :
    (rmw d idx f).buffer.getD m 0 = d.buffer.getD m 0 := by
  unfold rmw
  split
  · show (d.buffer.set idx _).getD m 0 = _
    rw [getD_set, if_neg (fun hh => h hh.1)]
  · rfl

theorem printStep_keeps (message : List Nat) (b y : Nat) (d : SH1106_OLED) (i : Nat) :
    (printStep message b y d i).width = d.width ∧
      (printStep message b y d i).fontSize = d.fontSize ∧
      (printStep message b y d i).buffer.length = d.buffer.length := by
  unfold printStep
  simp only
  split
  · simp only [store, rmw_width, rmw_fontSize, rmw_length, and_self]
  · simp only [rmw_width, rmw_fontSize, rmw_length, and_self]

theorem printStep_getD_ne (message : List Nat) (b y : Nat) (d : SH1106_OLED) (i m : Nat)
    (h1 : b + i ≠ m) (h2 : b + i + d.width ≠ m) :
    (printStep message b y d i).buffer.getD m 0 = d.buffer.getD m 0 := by
  unfold printStep
  simp only
  split
  · rw [store, rmw_getD_ne _ _ _ _ (by rw [rmw_width]; exact h2), rmw_getD_ne _ _ _ _ h1]
  · rw [rmw_getD_ne _ _ _ _ h1]

theorem printStep_spill (message : List Nat) (b y : Nat) (d : SH1106_OLED) (i : Nat)
    (hc : y / 8 < (y + d.fontSize) / 8) (hlt : b + i + d.width < d.buffer.length) :
    (printStep message b y d i).buffer.getD (b + i + d.width) 0 =
      (((message.getD i 0 <<< (y &&& 7)) >>> 8) &&& 0xFF) % 256 := by
  unfold printStep
  simp only [rmw_fontSize, hc, if_true, rmw_width, store]
  rw [rmw_getD _ _ _ (by rw [rmw_length]; exact hlt), if_pos rfl]

theorem stageMessage_length (glyphs : List Nat) (fontSize : Nat) (msg : List Nat) :
    (stageMessage glyphs fontSize msg).length =
      ((msg.length : Int) * ((fontSize + 1 : Nat) : Int) - 1).toNat := by
  unfold stageMessage
  have inner : ∀ (l : List Nat) (g : Nat → Nat × Nat) (m : List Nat),
      (l.foldl (fun message j => message.set (g j).1 (g j).2) m).length = m.length := by
    intro l g
    induction l with
    | nil => intro m; rfl
    | cons a l ih => intro m; simp [ih]
  have outer : ∀ (l : List Nat) (m : List Nat),
      (l.foldl (fun message i =>
        (List.range fontSize).foldl
          (fun message j =>
            message.set (i * (fontSize + 1) + j)
              (pgm_read_byte glyphs (u8 ((toUpperCase (msg.getD i 0) : Int) - 32) * fontSize + j)))
          message) m).length = m.length := by
    intro l
    induction l with
    | nil => intro m; rfl
    | cons a l ih =>
      intro m
      rw [List.foldl_cons, ih]
      exact inner (List.range fontSize)
        (fun j => (a * (fontSize + 1) + j,
          pgm_read_byte glyphs (u8 ((toUpperCase (msg.getD a 0) : Int) - 32) * fontSize + j))) m
  simp only
  rw [outer]
  simp

/-- What `print` leaves in the byte below the first column: at `(0, 4)` with
font size 4 on a 128-wide display, a one-character message assigns the
overflow of its first staged column to the byte at index 128, whatever that
byte held before. -/
theorem print_first_spill (d : SH1106_OLED) (table : FontSet → List Nat) (msg : List Nat)
    (hw : d.width = 128) (hfs : d.fontSize = 4) (hlen : d.buffer.length = 1024)
    (hmsg : msg.length = 1) :
    (print table d msg 0 4).buffer.getD 128 0 =
      ((((stageMessage (table d.fontSet) d.fontSize msg).getD 0 0 <<< (4 &&& 7)) >>> 8) &&&
        0xFF) % 256 := by
  have hl : (stageMessage (table d.fontSet) d.fontSize msg).length = 4 := by
    rw [stageMessage_length, hmsg, hfs]
    rfl
  unfold print
  simp only [hl, hw]
  have hr : List.range 4 = [0, 1, 2, 3] := rfl
  rw [hr]
  simp only [List.foldl_cons, List.foldl_nil]
  generalize hM : stageMessage (table d.fontSet) d.fontSize msg = message
  have k0 := printStep_keeps message (0 + 4 / 8 * 128) 4 d 0
  generalize he0 : printStep message (0 + 4 / 8 * 128) 4 d 0 = e0 at k0
  have k1 := printStep_keeps message (0 + 4 / 8 * 128) 4 e0 1
  generalize he1 : printStep message (0 + 4 / 8 * 128) 4 e0 1 = e1 at k1
  have k2 := printStep_keeps message (0 + 4 / 8 * 128) 4 e1 2
  generalize he2 : printStep message (0 + 4 / 8 * 128) 4 e1 2 = e2 at k2
  rw [printStep_getD_ne _ _ _ _ _ _ (by decide) (by rw [k2.1, k1.1, k0.1, hw]; decide)]
  rw [← he2, printStep_getD_ne _ _ _ _ _ _ (by decide) (by rw [k1.1, k0.1, hw]; decide)]
  rw [← he1, printStep_getD_ne _ _ _ _ _ _ (by decide) (by rw [k0.1, hw]; decide)]
  rw [← he0]
  have h := printStep_spill message (0 + 4 / 8 * 128) 4 d 0 (by rw [hfs]; decide)
    (by rw [hw, hlen]; decide)
  rw [hw] at h
  exact h

theorem stageMessage_lt (glyphs : List Nat) (fontSize : Nat) (msg : List Nat) :
    ∀ b ∈ stageMessage glyphs fontSize msg, b < 256 := by
  unfold stageMessage
  have inner : ∀ (l : List Nat) (g : Nat → Nat) (v : Nat → Nat) (m : List Nat),
      (∀ b ∈ m, b < 256) →
      ∀ b ∈ l.foldl (fun message j => message.set (g j) (v j % 256)) m, b < 256 := by
    intro l g v
    induction l with
    | nil => intro m hm; exact hm
    | cons a l ih =>
      intro m hm
      rw [List.foldl_cons]
      apply ih
      intro b hb
      rcases List.mem_or_eq_of_mem_set hb with h | h
      · exact hm b h
      · rw [h]; exact Nat.mod_lt _ (by norm_num)
  have outer : ∀ (l : List Nat) (m : List Nat), (∀ b ∈ m, b < 256) →
      ∀ b ∈ l.foldl (fun message i =>
        (List.range fontSize).foldl
          (fun message j =>
            message.set (i * (fontSize + 1) + j)
              (pgm_read_byte glyphs (u8 ((toUpperCase (msg.getD i 0) : Int) - 32) * fontSize + j)))
          message) m, b < 256 := by
    intro l
    induction l with
    | nil => intro m hm; exact hm
    | cons a l ih =>
      intro m hm
      rw [List.foldl_cons]
      apply ih
      exact inner (List.range fontSize) (fun j => a * (fontSize + 1) + j)
        (fun j => glyphs.getD (u8 ((toUpperCase (msg.getD a 0) : Int) - 32) * fontSize + j) 0)
        m hm
  simp only
  apply outer
  intro b hb
  rw [List.eq_of_mem_replicate hb]
  norm_num

theorem print_width (table : FontSet → List Nat) (d : SH1106_OLED) (msg : List Nat)
    (x y : Nat) : (print table d msg x y).width = d.width := by
  unfold print
  simp only
  generalize List.range _ = l
  generalize stageMessage _ _ _ = message
  have : ∀ e : SH1106_OLED, e.width = d.width →
      (l.foldl (printStep message (x + y / 8 * d.width) y) e).width = d.width := by
    induction l with
    | nil => intro e he; exact he
    | cons a l ih =>
      intro e he
      rw [List.foldl_cons]
      exact ih _ ((printStep_keeps message _ y e a).1.trans he)
  exact this d rfl

/-- C9, at the failing input, for every glyph table. On the 128x64 display
after `init()` (font size 4) with pixel `(0, 12)` turned on, printing the
one-letter message `A` at `(0, 4)` stages `1 * (4 + 1) - 1 = 4` columns and
turns pixel `(0, 12)` off, because the byte on the page below is assigned
rather than or-ed; `drawBitmap` of the same staging row (4 columns, one 8-row
page) at `(0, 4)` keeps the pixel on, so the two buffers differ. -/
theorem print_overwrites_next_page (table : FontSet → List Nat) :
    (stageMessage (table (setPixel (init 128 64) 0 12).fontSet)
        (setPixel (init 128 64) 0 12).fontSize [65]).length = 4 ∧
      bitAt (setPixel (init 128 64) 0 12) 0 12 = true ∧
      bitAt (print table (setPixel (init 128 64) 0 12) [65] 0 4) 0 12 = false ∧
      bitAt (drawBitmap (setPixel (init 128 64) 0 12)
        (stageMessage (table (setPixel (init 128 64) 0 12).fontSet)
          (setPixel (init 128 64) 0 12).fontSize [65]) 0 4 4 8) 0 12 = true ∧
      print table (setPixel (init 128 64) 0 12) [65] 0 4 ≠
        drawBitmap (setPixel (init 128 64) 0 12)
          (stageMessage (table (setPixel (init 128 64) 0 12).fontSet)
            (setPixel (init 128 64) 0 12).fontSize [65]) 0 4 4 8 := by
  have hwf0 := init_WF 128 64 (by decide) (by decide) (by decide)
  have hset := getPixel_high (init 128 64) 0 12 (by decide) (by decide) hwf0 (by decide)
  generalize hd0 : setPixel (init 128 64) 0 12 = d0 at hset ⊢
  have hw : d0.width = 128 := by
    rw [← hd0, setPixel, rmw_width]; rfl
  have hfs : d0.fontSize = 4 := by
    rw [← hd0, setPixel, rmw_fontSize]; rfl
  have hlen : d0.buffer.length = 1024 := by
    rw [← hd0, setPixel, rmw_length]
    show (List.replicate (128 * 64 / 8) 0).length = 1024
    rw [List.length_replicate]
  have hh : d0.height = 64 := by
    rw [← hd0, setPixel]
    unfold rmw
    split <;> rfl
  have hwf : WF d0 := by
    refine ⟨?_, ?_, ?_, ?_⟩
    · rw [hw]; decide
    · rw [hh]; decide
    · rw [hh]
    · rw [hlen, hw, hh]
  have hon : bitAt d0 0 12 = true := hset.2
  have hl : (stageMessage (table d0.fontSet) d0.fontSize [65]).length = 4 := by
    rw [stageMessage_length, hfs]
    rfl
  have hoff : bitAt (print table d0 [65] 0 4) 0 12 = false := by
    unfold bitAt bufferIndex
    rw [print_width, hw]
    show ((print table d0 [65] 0 4).buffer.getD 128 0).testBit 4 = false
    rw [print_first_spill d0 table [65] hw hfs hlen rfl]
    have hm : (stageMessage (table d0.fontSet) d0.fontSize [65]).getD 0 0 < 256 := by
      rw [List.getD_eq_getElem?_getD, List.getElem?_eq_getElem (by rw [hl]; decide)]
      exact stageMessage_lt _ _ _ _ (List.getElem_mem _)
    generalize (stageMessage (table d0.fontSet) d0.fontSize [65]).getD 0 0 = m at hm
    rw [testBit_mod_256 _ _ (by decide), Nat.testBit_and, Nat.testBit_shiftRight,
      Nat.testBit_shiftLeft]
    have : m.testBit (8 + 4 - (4 &&& 7)) = false :=
      Nat.testBit_lt_two_pow (lt_of_lt_of_le hm (by decide))
    rw [this]
    simp
  have hbm : bitAt (drawBitmap d0 (stageMessage (table d0.fontSet) d0.fontSize [65])
      0 4 4 8) 0 12 = true := by
    rw [drawBitmap_bitAt d0 hwf _ 0 4 4 8 (by rw [hw]; decide) (by rw [hh]; decide) 0 12
      (by rw [hw]; decide), hon]
    rfl
  refine ⟨hl, hon, hoff, hbm, fun h => ?_⟩
  rw [h, hbm] at hoff
  exact Bool.noConfusion hoff

/-! ## Pixel addressing: one bit per pixel -/

theorem rmw_height (d : SH1106_OLED) (idx : Nat) (f : Nat → Nat) :
    (rmw d idx f).height = d.height := by
  unfold rmw
  split <;> rfl

theorem bitAt_rmw_other_byte (d : SH1106_OLED) (idx : Nat) (f : Nat → Nat) (px py : Nat)
    (h : idx ≠ bufferIndex d px py) : bitAt (rmw d idx f) px py = bitAt d px py := by
  unfold bitAt
  have hb : bufferIndex (rmw d idx f) px py = bufferIndex d px py := by
    unfold bufferIndex
    rw [rmw_width]
  rw [hb, rmw_getD_ne d idx _ f h]

theorem bitAt_rmw_same_byte (d : SH1106_OLED) (idx : Nat) (f : Nat → Nat) (px py : Nat)
    (hlt : idx < d.buffer.length) (h : idx = bufferIndex d px py) :
    bitAt (rmw d idx f) px py = (f (d.buffer.getD idx 0)).testBit (py % 8) := by
  unfold bitAt
  have hb : bufferIndex (rmw d idx f) px py = bufferIndex d px py := by
    unfold bufferIndex
    rw [rmw_width]
  rw [hb, ← h, rmw_getD d idx f hlt, if_pos rfl,
    testBit_mod_256 _ _ (Nat.mod_lt _ (by norm_num))]

theorem pixel_index_inj (d : SH1106_OLED) (x y x1 y1 : Nat) (hx : x < d.width)
    (hx1 : x1 < d.width) (hidx : bufferIndex d x y = bufferIndex d x1 y1)
    (hbit : y % 8 = y1 % 8) : x = x1 ∧ y = y1 := by
  unfold bufferIndex at hidx
  obtain ⟨e1, e2⟩ := (idx_eq_add hx hx1).mp hidx
  exact ⟨e1, by omega⟩

/-- C14. On a well-formed display every in-bounds pixel `(x, y)` has its byte
index `x + (y / 8) * width` below `width * height / 8`; two in-bounds pixels
with the same byte index and the same bit `y mod 8` are the same pixel; and
`setPixel`, `clearPixel` and `invertPixel` at `(x, y)` leave the bit of every
other in-bounds pixel unchanged. -/
theorem pixel_one_bit (d : SH1106_OLED) (hwf : WF d) (x y x1 y1 : Nat)
    (hx : x < d.width) (hy : y < d.height) (hx1 : x1 < d.width) (hy1 : y1 < d.height) :
    bufferIndex d x y < d.width * d.height / 8 ∧
    bufferIndex d x1 y1 < d.width * d.height / 8 ∧
    (bufferIndex d x y = bufferIndex d x1 y1 ∧ y % 8 = y1 % 8 → x = x1 ∧ y = y1) ∧
    ((x1, y1) ≠ (x, y) →
      bitAt (setPixel d x y) x1 y1 = bitAt d x1 y1 ∧
      bitAt (clearPixel d x y) x1 y1 = bitAt d x1 y1 ∧
      bitAt (invertPixel d x y) x1 y1 = bitAt d x1 y1) := by
  have hlt := idx_lt d hwf x y hx hy
  refine ⟨by rw [← hwf.2.2.2]; exact hlt,
    by rw [← hwf.2.2.2]; exact idx_lt d hwf x1 y1 hx1 hy1,
    fun h => pixel_index_inj d x y x1 y1 hx hx1 h.1 h.2, fun hne => ?_⟩
  by_cases hidx : bufferIndex d x y = bufferIndex d x1 y1
  · have hbit : y % 8 ≠ y1 % 8 := by
      intro hb
      obtain ⟨e1, e2⟩ := pixel_index_inj d x y x1 y1 hx hx1 hidx hb
      exact hne (by rw [e1, e2])
    have hm : (1 <<< (y &&& 7)).testBit (y1 % 8) = false := by
      rw [and_seven, testBit_one_shiftLeft]
      simpa using hbit
    unfold setPixel clearPixel invertPixel
    rw [bitAt_rmw_same_byte d _ _ x1 y1 hlt hidx, bitAt_rmw_same_byte d _ _ x1 y1 hlt hidx,
      bitAt_rmw_same_byte d _ _ x1 y1 hlt hidx]
    simp only [Nat.testBit_or, Nat.testBit_and, Nat.testBit_xor, hm, testBit_255]
    have h8 : y1 % 8 < 8 := Nat.mod_lt _ (by norm_num)
    unfold bitAt
    rw [← hidx]
    simp [h8]
  · unfold setPixel clearPixel invertPixel
    exact ⟨bitAt_rmw_other_byte d _ _ x1 y1 hidx, bitAt_rmw_other_byte d _ _ x1 y1 hidx,
      bitAt_rmw_other_byte d _ _ x1 y1 hidx⟩

theorem pixel_one_bit_witness :
    WF (init 128 64) ∧ 3 < (init 128 64).width ∧ 12 < (init 128 64).height ∧
      3 < (init 128 64).width ∧ 13 < (init 128 64).height ∧
      bufferIndex (init 128 64) 3 12 < (init 128 64).width * (init 128 64).height / 8 ∧
      ((3 : Nat), (13 : Nat)) ≠ (3, 12) ∧
      bitAt (setPixel (init 128 64) 3 12) 3 13 = bitAt (init 128 64) 3 13 ∧
      bitAt (clearPixel (init 128 64) 3 12) 3 13 = bitAt (init 128 64) 3 13 ∧
      bitAt (invertPixel (init 128 64) 3 12) 3 13 = bitAt (init 128 64) 3 13 :=
  ⟨init_WF 128 64 (by decide) (by decide) (by decide), by decide, by decide, by decide,
    by decide,
    (pixel_one_bit (init 128 64) (init_WF 128 64 (by decide) (by decide) (by decide))
      3 12 3 13 (by decide) (by decide) (by decide) (by decide)).1, by decide,
    (pixel_one_bit (init 128 64) (init_WF 128 64 (by decide) (by decide) (by decide))
      3 12 3 13 (by decide) (by decide) (by decide) (by decide)).2.2.2 (by decide)⟩

/-! ## Clearing and inverting -/

theorem getPixel_eq_testBit (d : SH1106_OLED) (x y : Nat) :
    getPixel d x y = (d.buffer.getD (bufferIndex d x y) 0).testBit y := by
  unfold getPixel Nat.testBit
  rw [Nat.and_comm]

/-- C15. On a well-formed display, for every buffer state and every in-bounds
pixel `(x, y)`, `getPixel(x, y)` after `clearPixel(x, y)` returns false, and the
framebuffer bit of the pixel is off. -/
theorem getPixel_clearPixel (d : SH1106_OLED) (hwf : WF d) (x y : Nat)
    (hx : x < d.width) (hy : y < d.height) :
    getPixel (clearPixel d x y) x y = false ∧ bitAt (clearPixel d x y) x y = false := by
  have hlt := idx_lt d hwf x y hx hy
  have hbit : ∀ j, j % 8 = y % 8 →
      ((d.buffer.getD (bufferIndex d x y) 0 &&& (255 ^^^ 1 <<< (y &&& 7))) % 256).testBit j =
        false := by
    intro j hj
    rcases Nat.lt_or_ge j 8 with h8 | h8
    · rw [testBit_mod_256 _ _ h8, Nat.testBit_and, Nat.testBit_xor, testBit_255, and_seven,
        testBit_one_shiftLeft]
      have : y % 8 = j := by omega
      simp [h8, this]
    · exact Nat.testBit_lt_two_pow (lt_of_lt_of_le (Nat.mod_lt _ (by norm_num))
        (le_trans (by norm_num : 256 ≤ 2 ^ 8) (Nat.pow_le_pow_right (by norm_num) h8)))
  constructor
  · rw [getPixel_eq_testBit]
    unfold clearPixel
    have hb : bufferIndex (rmw d (bufferIndex d x y)
        (fun b => b &&& (255 ^^^ 1 <<< (y &&& 7)))) x y = bufferIndex d x y := by
      unfold bufferIndex
      rw [rmw_width]
    rw [hb, rmw_getD d _ _ hlt, if_pos rfl]
    exact hbit y rfl
  · unfold clearPixel
    rw [bitAt_rmw_same_byte d _ _ x y hlt rfl]
    have := hbit (y % 8) (Nat.mod_mod _ _)
    rwa [testBit_mod_256 _ _ (Nat.mod_lt _ (by norm_num))] at this

theorem getPixel_clearPixel_witness :
    WF (init 128 64) ∧ 5 < (init 128 64).width ∧ 3 < (init 128 64).height ∧
      getPixel (clearPixel (setPixel (init 128 64) 5 3) 5 3) 5 3 = false :=
  ⟨init_WF 128 64 (by decide) (by decide) (by decide), by decide, by decide,
    (getPixel_clearPixel (setPixel (init 128 64) 5 3)
      (WF_of_frame (rmw_frame _ _ _
        (idx_lt _ (init_WF 128 64 (by decide) (by decide) (by decide)) 5 3 (by decide)
          (by decide)))
        (init_WF 128 64 (by decide) (by decide) (by decide)))
      5 3 (by rw [setPixel, rmw_width]; decide) (by rw [setPixel, rmw_height]; decide)).1⟩

theorem set_getD_self (l : List Nat) (i : Nat) : l.set i (l.getD i 0) = l := by
  apply List.ext_getElem (by simp)
  intro n h1 h2
  rw [List.getElem_set]
  split
  · rename_i h
    subst h
    rw [List.getD_eq_getElem?_getD, List.getElem?_eq_getElem h2]
    rfl
  · rfl

theorem xor_xor_mod (b m : Nat) (hb : b < 256) (hm : m < 256) :
    ((b ^^^ m) % 256 ^^^ m) % 256 = b := by
  have h1 : b ^^^ m < 256 := Nat.xor_lt_two_pow (n := 8) hb hm
  rw [Nat.mod_eq_of_lt h1, Nat.xor_assoc, Nat.xor_self, Nat.xor_zero, Nat.mod_eq_of_lt hb]

theorem rmw_rmw_restore (d : SH1106_OLED) (idx : Nat) (f g : Nat → Nat)
    (hlt : idx < d.buffer.length)
    (hfg : g (f (d.buffer.getD idx 0) % 256) % 256 = d.buffer.getD idx 0) :
    rmw (rmw d idx f) idx g = d := by
  obtain ⟨w, h, buf, fs, fset, flt⟩ := d
  simp only at hlt hfg
  have h1 : rmw ⟨w, h, buf, fs, fset, flt⟩ idx f =
      ⟨w, h, buf.set idx (f (buf.getD idx 0) % 256), fs, fset, flt⟩ := by
    unfold rmw
    simp only [hlt, if_true]
  rw [h1]
  have hlt2 : idx < (buf.set idx (f (buf.getD idx 0) % 256)).length := by
    rw [List.length_set]; exact hlt
  unfold rmw
  simp only [hlt2, if_true]
  rw [getD_set, if_pos ⟨rfl, hlt⟩, hfg, List.set_set, set_getD_self]

/-- C16. On a well-formed display whose buffer holds bytes, for every in-bounds
pixel `(x, y)`, `invertPixel(x, y)` twice gives back the display it started
from: the whole buffer, and so the bit of the pixel. -/
theorem invertPixel_twice (d : SH1106_OLED) (hwf : WF d) (hb : Bytes d) (x y : Nat)
    (hx : x < d.width) (hy : y < d.height) :
    invertPixel (invertPixel d x y) x y = d ∧
      bitAt (invertPixel (invertPixel d x y) x y) x y = bitAt d x y := by
  have hlt := idx_lt d hwf x y hx hy
  have key : invertPixel (invertPixel d x y) x y = d := by
    have hm : 1 <<< (y &&& 7) < 256 := by
      rw [and_seven, Nat.one_shiftLeft]
      have : y % 8 < 8 := Nat.mod_lt _ (by norm_num)
      exact lt_of_lt_of_le (Nat.pow_lt_pow_right (by norm_num) this) (by norm_num)
    unfold invertPixel
    have hb2 : bufferIndex (rmw d (bufferIndex d x y) (fun b => b ^^^ 1 <<< (y &&& 7))) x y =
        bufferIndex d x y := by
      unfold bufferIndex
      rw [rmw_width]
    rw [hb2]
    exact rmw_rmw_restore d _ _ _ hlt (xor_xor_mod _ _ (bytes_getD hb _) hm)
  exact ⟨key, by rw [key]⟩

theorem invertPixel_twice_witness :
    WF (init 128 64) ∧ Bytes (init 128 64) ∧ 5 < (init 128 64).width ∧
      13 < (init 128 64).height ∧
      invertPixel (invertPixel (init 128 64) 5 13) 5 13 = init 128 64 :=
  ⟨init_WF 128 64 (by decide) (by decide) (by decide), init_bytes 128 64, by decide,
    by decide,
    (invertPixel_twice (init 128 64) (init_WF 128 64 (by decide) (by decide) (by decide))
      (init_bytes 128 64) 5 13 (by decide) (by decide)).1⟩

theorem invert_frame (d : SH1106_OLED) : Frame d (invert d) := by
  simp [Frame, invert]

theorem not_byte_twice (b : Nat) (hb : b < 256) :
    (255 ^^^ (255 ^^^ b) % 256) % 256 = b := by
  have h1 : 255 ^^^ b < 256 := Nat.xor_lt_two_pow (n := 8) (by norm_num) hb
  rw [Nat.mod_eq_of_lt h1, ← Nat.xor_assoc, Nat.xor_self, Nat.zero_xor, Nat.mod_eq_of_lt hb]

theorem invert_getD (d : SH1106_OLED) (m : Nat) (hm : m < d.buffer.length) :
    (invert d).buffer.getD m 0 = (255 ^^^ d.buffer.getD m 0) % 256 := by
  unfold invert
  simp only [List.getD_eq_getElem?_getD, List.getElem?_map, List.getElem?_eq_getElem hm,
    Option.map_some', Option.getD_some]

/-- C17. For every display whose buffer holds bytes, `invert()` twice gives
back the same display, byte for byte; and on a well-formed display a single
`invert()` flips the framebuffer bit of every in-bounds pixel. -/
theorem invert_twice (d : SH1106_OLED) (hb : Bytes d) :
    invert (invert d) = d ∧
    (invert (invert d)).buffer = d.buffer ∧
    (WF d → ∀ x y, x < d.width → y < d.height → bitAt (invert d) x y = !bitAt d x y) := by
  have key : invert (invert d) = d := by
    obtain ⟨w, h, buf, fs, fset, flt⟩ := d
    unfold invert
    simp only [List.map_map]
    congr 1
    have : ∀ b ∈ buf, ((fun b => (255 ^^^ b) % 256) ∘ fun b => (255 ^^^ b) % 256) b = id b := by
      intro b hmem
      exact not_byte_twice b (hb b hmem)
    rw [List.map_congr_left this, List.map_id]
  refine ⟨key, by rw [key], fun hwf x y hx hy => ?_⟩
  have hlt := idx_lt d hwf x y hx hy
  unfold bitAt
  have hbi : bufferIndex (invert d) x y = bufferIndex d x y := rfl
  rw [hbi, invert_getD d _ hlt, testBit_mod_256 _ _ (Nat.mod_lt _ (by norm_num)),
    Nat.testBit_xor, testBit_255]
  have : y % 8 < 8 := Nat.mod_lt _ (by norm_num)
  simp [this]

theorem invert_twice_witness :
    Bytes (init 128 64) ∧ WF (init 128 64) ∧ 5 < (init 128 64).width ∧
      13 < (init 128 64).height ∧
      invert (invert (init 128 64)) = init 128 64 ∧
      bitAt (invert (init 128 64)) 5 13 = !bitAt (init 128 64) 5 13 :=
  ⟨init_bytes 128 64, init_WF 128 64 (by decide) (by decide) (by decide), by decide,
    by decide, (invert_twice (init 128 64) (init_bytes 128 64)).1,
    (invert_twice (init 128 64) (init_bytes 128 64)).2.2
      (init_WF 128 64 (by decide) (by decide) (by decide)) 5 13 (by decide) (by decide)⟩

/-- C18. For every buffer state, after `clear()` `getPixel(x, y)` returns
false for every `(x, y)`, in bounds or not, every byte of the buffer is 0, and
on a well-formed display these are `width * height / 8` zero bytes. -/
theorem getPixel_clear (d : SH1106_OLED) (hwf : WF d) :
    (∀ x y, getPixel (clear d) x y = false) ∧
    (∀ x y, bitAt (clear d) x y = false) ∧
    (clear d).buffer = List.replicate (d.width * d.height / 8) 0 := by
  refine ⟨fun x y => ?_, fun x y => bitAt_clear d x y, ?_⟩
  · rw [getPixel_eq_testBit]
    unfold clear
    simp only [getD_replicate_zero, Nat.zero_testBit]
  · unfold clear
    simp only
    rw [hwf.2.2.2]

theorem getPixel_clear_witness :
    WF (setPixel (init 128 64) 5 3) ∧
      (∀ x y, getPixel (clear (setPixel (init 128 64) 5 3)) x y = false) ∧
      (∀ x y, bitAt (clear (setPixel (init 128 64) 5 3)) x y = false) ∧
      (clear (setPixel (init 128 64) 5 3)).buffer =
        List.replicate ((setPixel (init 128 64) 5 3).width *
          (setPixel (init 128 64) 5 3).height / 8) 0 :=
  ⟨WF_of_frame (rmw_frame _ _ _
      (idx_lt _ (init_WF 128 64 (by decide) (by decide) (by decide)) 5 3 (by decide)
        (by decide))) (init_WF 128 64 (by decide) (by decide) (by decide)),
    getPixel_clear (setPixel (init 128 64) 5 3)
      (WF_of_frame (rmw_frame _ _ _
        (idx_lt _ (init_WF 128 64 (by decide) (by decide) (by decide)) 5 3 (by decide)
          (by decide))) (init_WF 128 64 (by decide) (by decide) (by decide)))⟩

/-! ## Clamping of line coordinates -/

theorem clamp_eq_min (v n : Nat) (hn1 : 1 ≤ n) (hn : n < 256) :
    clamp v 0 (u8 ((n : Int) - 1)) = min v (n - 1) := by
  unfold clamp u8
  split
  · omega
  · split <;> omega

theorem clamp_min (v n : Nat) (hn1 : 1 ≤ n) (hn : n < 256) :
    clamp (min v (n - 1)) 0 (u8 ((n : Int) - 1)) = clamp v 0 (u8 ((n : Int) - 1)) := by
  rw [clamp_eq_min _ _ hn1 hn, clamp_eq_min _ _ hn1 hn]
  omega

theorem drawHLine_clamped (d : SH1106_OLED) (hwf : WF d) (hw : 1 ≤ d.width)
    (hh : 1 ≤ d.height) (x1 x2 y : Nat) :
    drawHLine d x1 x2 y =
      drawHLine d (min x1 (d.width - 1)) (min x2 (d.width - 1)) (min y (d.height - 1)) := by
  unfold drawHLine
  simp only [clamp_min _ _ hw hwf.1, clamp_min _ _ hh hwf.2.1]

theorem drawVLine_clamped (d : SH1106_OLED) (hwf : WF d) (hw : 1 ≤ d.width)
    (hh : 1 ≤ d.height) (y1 y2 x : Nat) :
    drawVLine d y1 y2 x =
      drawVLine d (min y1 (d.height - 1)) (min y2 (d.height - 1)) (min x (d.width - 1)) := by
  unfold drawVLine
  simp only [clamp_min _ _ hw hwf.1, clamp_min _ _ hh hwf.2.1]

/-- C13. On a well-formed display with `width >= 1` and `height >= 1` (so a
positive multiple of 8), for all arguments, `drawHLine` and `drawVLine` give
the same display as the call with each coordinate replaced by
`min(coordinate, limit - 1)`, and they keep the frame: in particular the
`fault` flag is unchanged, so no index outside the `width * height / 8` bytes
of the buffer is read or written. -/
theorem lines_clamp (d : SH1106_OLED) (hwf : WF d) (hw : 1 ≤ d.width) (hh : 1 ≤ d.height)
    (a b c : Nat) :
    drawHLine d a b c =
        drawHLine d (min a (d.width - 1)) (min b (d.width - 1)) (min c (d.height - 1)) ∧
      Frame d (drawHLine d a b c) ∧ (drawHLine d a b c).fault = d.fault ∧
      (drawHLine d a b c).buffer.length = d.width * d.height / 8 ∧
      drawVLine d a b c =
        drawVLine d (min a (d.height - 1)) (min b (d.height - 1)) (min c (d.width - 1)) ∧
      Frame d (drawVLine d a b c) ∧ (drawVLine d a b c).fault = d.fault ∧
      (drawVLine d a b c).buffer.length = d.width * d.height / 8 := by
  have e1 := drawHLine_clamped d hwf hw hh a b c
  have e2 := drawVLine_clamped d hwf hw hh a b c
  have f1 : Frame d (drawHLine d a b c) := by
    rw [e1]
    exact (drawHLine_orSpec d hwf _ _ _ (by omega) (by omega) (by omega)).1
  have f2 : Frame d (drawVLine d a b c) := by
    rw [e2]
    exact (drawVLine_orSpec d hwf _ _ _ (by omega) (by omega) (by omega)).1
  exact ⟨e1, f1, f1.2.2.2.1, by rw [f1.2.2.1, hwf.2.2.2], e2, f2, f2.2.2.2.1,
    by rw [f2.2.2.1, hwf.2.2.2]⟩

theorem lines_clamp_witness :
    WF (init 128 64) ∧ 1 ≤ (init 128 64).width ∧ 1 ≤ (init 128 64).height ∧
      drawHLine (init 128 64) 200 255 99 =
        drawHLine (init 128 64) (min 200 ((init 128 64).width - 1))
          (min 255 ((init 128 64).width - 1)) (min 99 ((init 128 64).height - 1)) ∧
      (drawHLine (init 128 64) 200 255 99).fault = (init 128 64).fault ∧
      (drawVLine (init 128 64) 200 255 99).fault = (init 128 64).fault :=
  ⟨init_WF 128 64 (by decide) (by decide) (by decide), by decide, by decide,
    (lines_clamp (init 128 64) (init_WF 128 64 (by decide) (by decide) (by decide))
      (by decide) (by decide) 200 255 99).1,
    (lines_clamp (init 128 64) (init_WF 128 64 (by decide) (by decide) (by decide))
      (by decide) (by decide) 200 255 99).2.2.1,
    (lines_clamp (init 128 64) (init_WF 128 64 (by decide) (by decide) (by decide))
      (by decide) (by decide) 200 255 99).2.2.2.2.2.2.1⟩

/-! ## Filled triangle on one row -/

theorem triSort_flat (x1 x2 x3 y : Nat) : triSort x1 y x2 y x3 y = (x1, y, x2, y, x3, y) := by
  unfold triSort
  simp only [Nat.lt_irrefl, if_false]

theorem triFlatSpan_eq (x1 x2 x3 : Nat) :
    triFlatSpan x1 x2 x3 = (min x1 (min x2 x3), max x1 (max x2 x3)) := by
  unfold triFlatSpan
  simp only
  congr 1
  · split <;> split <;> omega
  · split <;> split <;> omega

theorem drawTriangleFill_flat_eq (fuel : Nat) (d : SH1106_OLED) (x1 x2 x3 y : Nat) :
    drawTriangleFill fuel d x1 y x2 y x3 y =
      Outcome.done (drawHLine d (min x1 (min x2 x3)) (max x1 (max x2 x3)) y) := by
  unfold drawTriangleFill
  rw [triSort_flat]
  simp only [if_true, triFlatSpan_eq]

/-- C12. For all `x1`, `x2`, `x3` below `width` and `y` below `height` on a
well-formed display, `drawTriangleFill(x1, y, x2, y, x3, y)` returns, whatever
the iteration budget, the display that `drawHLine(min, max, y)` gives for the
least and the greatest of the three `x`: afterwards the bit of every pixel is
its old bit or the test that the pixel lies on row `y` between them. -/
theorem drawTriangleFill_flat (fuel : Nat) (d : SH1106_OLED) (hwf : WF d)
    (x1 x2 x3 y : Nat) (h1 : x1 < d.width) (h2 : x2 < d.width) (h3 : x3 < d.width)
    (hy : y < d.height) :
    drawTriangleFill fuel d x1 y x2 y x3 y =
        Outcome.done (drawHLine d (min x1 (min x2 x3)) (max x1 (max x2 x3)) y) ∧
      ∀ px py, px < d.width → py < d.height →
        bitAt (drawHLine d (min x1 (min x2 x3)) (max x1 (max x2 x3)) y) px py =
          (bitAt d px py ||
            decide (py = y ∧ min x1 (min x2 x3) ≤ px ∧ px ≤ max x1 (max x2 x3))) := by
  refine ⟨drawTriangleFill_flat_eq fuel d x1 x2 x3 y, fun px py hpx _ => ?_⟩
  rw [drawHLine_bitAt d hwf _ _ y (by omega) (by omega) hy px py hpx]
  congr 1
  apply decide_eq_decide.mpr
  omega

theorem drawTriangleFill_flat_witness :
    WF (init 128 64) ∧ 5 < (init 128 64).width ∧ 20 < (init 128 64).width ∧
      9 < (init 128 64).width ∧ 7 < (init 128 64).height ∧
      drawTriangleFill 0 (init 128 64) 5 7 20 7 9 7 =
        Outcome.done (drawHLine (init 128 64) (min 5 (min 20 9)) (max 5 (max 20 9)) 7) :=
  ⟨init_WF 128 64 (by decide) (by decide) (by decide), by decide, by decide, by decide,
    by decide,
    (drawTriangleFill_flat 0 (init 128 64) (init_WF 128 64 (by decide) (by decide) (by decide))
      5 20 9 7 (by decide) (by decide) (by decide) (by decide)).1⟩

/-! ## Rectangles -/

theorem pixSpec_refl (d : SH1106_OLED) : PixSpec d d (fun _ _ => false) :=
  ⟨frame_refl d, fun _ _ _ => by simp⟩

theorem foldl_pix_spec {α : Type} (step : SH1106_OLED → α → SH1106_OLED)
    (s : α → Nat → Nat → Bool) (d0 : SH1106_OLED) (l : List α)
    (hstep : ∀ d a, a ∈ l → Frame d0 d → PixSpec d (step d a) (s a)) :
    ∀ d, Frame d0 d → PixSpec d (l.foldl step d) (fun px py => l.any (fun a => s a px py)) := by
  induction l with
  | nil => intro d _; simpa using pixSpec_refl d
  | cons a l ih =>
    intro d hd
    have h1 := hstep d a (List.mem_cons_self a l) hd
    have h2 := ih (fun d b hb hf => hstep d b (List.mem_cons_of_mem a hb) hf) (step d a)
      (frame_trans hd h1.1)
    simpa [List.foldl_cons, List.any_cons] using pixSpec_trans h1 h2

theorem hline_pix (d0 d : SH1106_OLED) (hwf : WF d0) (hf : Frame d0 d) (x1 x2 y : Nat)
    (hx1 : x1 < d0.width) (hx2 : x2 < d0.width) (hy : y < d0.height) :
    PixSpec d (drawHLine d x1 x2 y)
      (fun px py => decide (py = y ∧ min x1 x2 ≤ px ∧ px ≤ max x1 x2)) := by
  have hw := WF_of_frame hf hwf
  have h1 : x1 < d.width := by rw [hf.1]; exact hx1
  have h2 : x2 < d.width := by rw [hf.1]; exact hx2
  have h3 : y < d.height := by rw [hf.2.1]; exact hy
  exact ⟨(drawHLine_orSpec d hw x1 x2 y h1 h2 h3).1,
    fun px py hpx => drawHLine_bitAt d hw x1 x2 y h1 h2 h3 px py hpx⟩

theorem vline_pix (d0 d : SH1106_OLED) (hwf : WF d0) (hf : Frame d0 d) (y1 y2 x : Nat)
    (hy1 : y1 < d0.height) (hy2 : y2 < d0.height) (hx : x < d0.width) :
    PixSpec d (drawVLine d y1 y2 x)
      (fun px py => decide (px = x ∧ min y1 y2 ≤ py ∧ py ≤ max y1 y2)) := by
  have hw := WF_of_frame hf hwf
  have h1 : y1 < d.height := by rw [hf.2.1]; exact hy1
  have h2 : y2 < d.height := by rw [hf.2.1]; exact hy2
  have h3 : x < d.width := by rw [hf.1]; exact hx
  exact ⟨(drawVLine_orSpec d hw y1 y2 x h1 h2 h3).1,
    fun px py hpx => drawVLine_bitAt d hw y1 y2 x h1 h2 h3 px py hpx⟩

theorem u8_add (a b : Nat) (h : a + b < 256) : u8 ((a : Int) + b) = a + b := by
  unfold u8
  omega

theorem drawRectFill_pix (d : SH1106_OLED) (hwf : WF d) (x y w h : Nat)
    (hx : x + w < d.width) (hy : y + h < d.height) :
    PixSpec d (drawRectFill d x y w h)
      (fun px py => decide (x ≤ px ∧ px ≤ x + w ∧ y ≤ py ∧ py ≤ y + h)) := by
  have hw8 := hwf.1
  have hh8 := hwf.2.1
  unfold drawRectFill
  rw [u8_add x w (by omega)]
  have := foldl_pix_spec (fun e (i : Nat) => drawHLine e x (x + w) (u8 ((y : Int) + i)))
    (fun (i : Nat) px py => decide (py = y + i ∧ x ≤ px ∧ px ≤ x + w)) d (List.range (h + 1))
    (fun e i hi he => by
      have hi' : i < h + 1 := List.mem_range.mp hi
      have hs := hline_pix d e hwf he x (x + w) (y + i) (by omega) (by omega) (by omega)
      simp only
      rw [u8_add y i (by omega)]
      refine pixSpec_congr hs (fun px py => ?_)
      apply decide_eq_decide.mpr
      omega) d (frame_refl d)
  refine pixSpec_congr this (fun px py => ?_)
  rw [Bool.eq_iff_iff]
  simp only [List.any_eq_true, List.mem_range, decide_eq_true_eq]
  constructor
  · rintro ⟨i, hi, h1, h2, h3⟩
    omega
  · rintro ⟨h1, h2, h3, h4⟩
    exact ⟨py - y, by omega, by omega, h1, h2⟩

theorem drawRect_pix (d : SH1106_OLED) (hwf : WF d) (x y w h : Nat)
    (hx : x + w < d.width) (hy : y + h < d.height) :
    PixSpec d (drawRect d x y w h)
      (fun px py => decide (x ≤ px ∧ px ≤ x + w ∧ y ≤ py ∧ py ≤ y + h ∧
        (py = y ∨ py = y + h ∨ px = x ∨ px = x + w))) := by
  have hw8 := hwf.1
  have hh8 := hwf.2.1
  unfold drawRect
  rw [u8_add x w (by omega), u8_add y h (by omega)]
  have s1 := hline_pix d d hwf (frame_refl d) x (x + w) y (by omega) (by omega) (by omega)
  have s2 := hline_pix d _ hwf s1.1 x (x + w) (y + h) (by omega) (by omega) (by omega)
  have s12 := pixSpec_trans s1 s2
  have s3 := vline_pix d _ hwf s12.1 y (y + h) x (by omega) (by omega) (by omega)
  have s123 := pixSpec_trans s12 s3
  have s4 := vline_pix d _ hwf s123.1 y (y + h) (x + w) (by omega) (by omega) (by omega)
  refine pixSpec_congr (pixSpec_trans s123 s4) (fun px py => ?_)
  rw [Bool.eq_iff_iff]
  simp only [Bool.or_eq_true, decide_eq_true_eq]
  omega

/-- C19. For every rectangle that lies on a well-formed display
(`x + w < width`, `y + h < height`) and every buffer state, `drawRectFill`
keeps the frame; afterwards the bit of every pixel is its old bit or the test
`x <= px <= x + w` and `y <= py <= y + h`; on a cleared buffer exactly
`(w + 1) * (h + 1)` pixels are on; and every pixel that is on after
`drawRect(x, y, w, h)` was on before or lies in that rectangle, so it is on
after `drawRectFill` too. -/
theorem drawRectFill_exact (d : SH1106_OLED) (hwf : WF d) (x y w h : Nat)
    (hx : x + w < d.width) (hy : y + h < d.height) :
    Frame d (drawRectFill d x y w h) ∧
    (∀ px py, px < d.width → py < d.height →
      bitAt (drawRectFill d x y w h) px py =
        (bitAt d px py || decide (x ≤ px ∧ px ≤ x + w ∧ y ≤ py ∧ py ≤ y + h))) ∧
    litCount (drawRectFill (clear d) x y w h) = (w + 1) * (h + 1) ∧
    (∀ px py, px < d.width → py < d.height → bitAt (drawRect d x y w h) px py = true →
      (bitAt d px py = true ∨ (x ≤ px ∧ px ≤ x + w ∧ y ≤ py ∧ py ≤ y + h)) ∧
        bitAt (drawRectFill d x y w h) px py = true) := by
  have hs := drawRectFill_pix d hwf x y w h hx hy
  refine ⟨hs.1, fun px py hpx _ => hs.2 px py hpx, ?_, fun px py hpx _ hb => ?_⟩
  · have hc : WF (clear d) := WF_of_frame (clear_frame d) hwf
    have hsc := drawRectFill_pix (clear d) hc x y w h hx hy
    unfold litCount
    rw [hsc.1.1, hsc.1.2.1]
    have hcw : (clear d).width = d.width := rfl
    have hch : (clear d).height = d.height := rfl
    rw [hcw, hch]
    have : (Finset.range d.width ×ˢ Finset.range d.height).filter
        (fun p => bitAt (drawRectFill (clear d) x y w h) p.1 p.2 = true) =
        Finset.Icc x (x + w) ×ˢ Finset.Icc y (y + h) := by
      ext ⟨px, py⟩
      simp only [Finset.mem_filter, Finset.mem_product, Finset.mem_range, Finset.mem_Icc]
      constructor
      · rintro ⟨⟨hpx, hpy⟩, hb⟩
        rw [hsc.2 px py hpx, bitAt_clear] at hb
        simp only [Bool.false_or, decide_eq_true_eq] at hb
        omega
      · rintro ⟨⟨h1, h2⟩, h3, h4⟩
        refine ⟨⟨by omega, by omega⟩, ?_⟩
        rw [hsc.2 px py (by rw [hcw]; omega), bitAt_clear]
        simp only [Bool.false_or, decide_eq_true_eq]
        omega
    rw [this, Finset.card_product, Nat.card_Icc, Nat.card_Icc]
    congr 1 <;> omega
  · have hr := drawRect_pix d hwf x y w h hx hy
    rw [hr.2 px py hpx] at hb
    simp only [Bool.or_eq_true, decide_eq_true_eq] at hb
    constructor
    · rcases hb with hb | hb
      · exact Or.inl hb
      · exact Or.inr ⟨hb.1, hb.2.1, hb.2.2.1, hb.2.2.2.1⟩
    · rw [hs.2 px py hpx]
      simp only [Bool.or_eq_true, decide_eq_true_eq]
      rcases hb with hb | hb
      · exact Or.inl hb
      · exact Or.inr ⟨hb.1, hb.2.1, hb.2.2.1, hb.2.2.2.1⟩

theorem drawRectFill_exact_witness :
    WF (init 128 64) ∧ 3 + 2 < (init 128 64).width ∧ 4 + 3 < (init 128 64).height ∧
      (∀ px py, px < (init 128 64).width → py < (init 128 64).height →
        bitAt (drawRectFill (init 128 64) 3 4 2 3) px py =
          (bitAt (init 128 64) px py || decide (3 ≤ px ∧ px ≤ 3 + 2 ∧ 4 ≤ py ∧ py ≤ 4 + 3))) ∧
      litCount (drawRectFill (clear (init 128 64)) 3 4 2 3) = (2 + 1) * (3 + 1) :=
  ⟨init_WF 128 64 (by decide) (by decide) (by decide), by decide, by decide,
    (drawRectFill_exact (init 128 64) (init_WF 128 64 (by decide) (by decide) (by decide))
      3 4 2 3 (by decide) (by decide)).2.1,
    (drawRectFill_exact (init 128 64) (init_WF 128 64 (by decide) (by decide) (by decide))
      3 4 2 3 (by decide) (by decide)).2.2.1⟩

/-! ## Arbitrary line: the 8-bit loop counter -/

theorem wrap8_range (v : Int) : -128 ≤ wrap8 v ∧ wrap8 v ≤ 127 := by
  unfold wrap8
  omega

/-- With `abs(xDistance) = 127` the test `i <= abs(xDistance)` holds for every
`int8_t` value of `i`, so the x-driven loop of `drawLine` uses up any iteration
budget. -/
theorem lineLoopX_full_width (arith : LineArith) (x1 y1 : Nat) (xDistance yDistance : Int)
    (hx : absInt xDistance = 127) :
    ∀ (fuel : Nat) (d : SH1106_OLED) (i : Int), i ≤ 127 →
      lineLoopX arith x1 y1 xDistance yDistance fuel d i = Outcome.outOfFuel := by
  intro fuel
  induction fuel with
  | zero => intro d i _; rfl
  | succ n ih =>
    intro d i hi
    unfold lineLoopX
    rw [hx, if_pos hi]
    exact ih _ _ (wrap8_range _).2

/-- C11, at the failing input. On any display, `drawLine(0, 0, 127, 1)` does
not return within any number of iterations of its stepping loop, whatever the
floating-point rounding: `abs(xDistance)` is 127 and the `int8_t` counter wraps
from 127 to -128 without ever exceeding it. -/
theorem drawLine_full_width_never_returns (arith : LineArith) (fuel : Nat)
    (d : SH1106_OLED) : drawLine arith fuel d 0 0 127 1 = Outcome.outOfFuel := by
  unfold drawLine
  have h1 : ¬ (0 : Nat) = 1 := by decide
  have h2 : ¬ (0 : Nat) = 127 := by decide
  rw [if_neg h1, if_neg h2]
  have hx : wrap8 (((127 : Nat) : Int) - ((0 : Nat) : Int)) = 127 := by decide
  have hy : wrap8 (((1 : Nat) : Int) - ((0 : Nat) : Int)) = 1 := by decide
  simp only [hx, hy]
  have hc : absInt 1 ≤ absInt 127 := by decide
  rw [if_pos hc]
  exact lineLoopX_full_width arith 0 0 127 1 (by decide) fuel d 0 (by decide)

/-- Below full width the x-driven loop of `drawLine` returns: with
`abs(xDistance) <= 126` and a budget of `abs(xDistance) + 2` rounds from
counter `0` there is a display it returns. -/
theorem lineLoopX_returns (arith : LineArith) (x1 y1 : Nat) (xDistance yDistance : Int)
    (hx : absInt xDistance ≤ 126) :
    ∀ (n : Nat) (fuel : Nat) (d : SH1106_OLED) (i : Int), 0 ≤ i →
      (absInt xDistance + 1 - i).toNat ≤ n → n < fuel →
      ∃ e, lineLoopX arith x1 y1 xDistance yDistance fuel d i = Outcome.done e := by
  intro n
  induction n with
  | zero =>
    intro fuel d i hi hn hf
    obtain ⟨k, rfl⟩ : ∃ k, fuel = k + 1 := ⟨fuel - 1, by omega⟩
    unfold lineLoopX
    rw [if_neg (by omega)]
    exact ⟨d, rfl⟩
  | succ n ih =>
    intro fuel d i hi hn hf
    obtain ⟨k, rfl⟩ : ∃ k, fuel = k + 1 := ⟨fuel - 1, by omega⟩
    unfold lineLoopX
    by_cases hc : i ≤ absInt xDistance
    · rw [if_pos hc]
      have hw : wrap8 (i + 1) = i + 1 := by unfold wrap8; omega
      simp only [hw]
      exact ih k _ (i + 1) (by omega) (by omega) (by omega)
    · rw [if_neg hc]
      exact ⟨d, rfl⟩

/-! ## Circle outline and corner arcs -/

theorem midpointLoop_eq_foldl (plot : SH1106_OLED → Int → Int → SH1106_OLED) :
    ∀ (n : Nat) (d : SH1106_OLED) (f ddF_x ddF_y x y : Int), (y - x).toNat ≤ n →
      midpointLoop plot d f ddF_x ddF_y x y =
        (midpointTrace f ddF_x ddF_y x y).foldl (fun d p => plot d p.1 p.2) d := by
  intro n
  induction n with
  | zero =>
    intro d f ddF_x ddF_y x y hn
    have hxy : ¬ x < y := by omega
    rw [midpointLoop, midpointTrace, if_neg hxy, if_neg hxy]
    rfl
  | succ n ih =>
    intro d f ddF_x ddF_y x y hn
    by_cases hxy : x < y
    · rw [midpointLoop, midpointTrace, if_pos hxy, if_pos hxy]
      simp only [List.foldl_cons]
      apply ih
      split <;> omega
    · rw [midpointLoop, midpointTrace, if_neg hxy, if_neg hxy]
      rfl

theorem midpointTrace_bounds (r : Nat) :
    ∀ (n : Nat) (f ddF_x ddF_y x y : Int), (y - x).toNat ≤ n →
      CircleInv r f ddF_x ddF_y x y →
      ∀ p ∈ midpointTrace f ddF_x ddF_y x y, 0 ≤ p.1 ∧ p.1 ≤ r ∧ 0 ≤ p.2 ∧ p.2 ≤ r := by
  intro n
  induction n with
  | zero =>
    intro f ddF_x ddF_y x y hn _ p hp
    have hxy : ¬ x < y := by omega
    rw [midpointTrace, if_neg hxy] at hp
    exact absurd hp (List.not_mem_nil p)
  | succ n ih =>
    intro f ddF_x ddF_y x y hn hinv p hp
    by_cases hxy : x < y
    · rw [midpointTrace, if_pos hxy] at hp
      by_cases hf0 : f ≥ 0
      · simp only [hf0, if_true, List.mem_cons] at hp
        obtain ⟨hinv1, _, _⟩ := circleInv_dec r f ddF_x ddF_y x y hinv hxy hf0
        rcases hp with rfl | hp
        · exact ⟨hinv1.2.2.2.1, hinv1.2.2.2.2.2.2.2.2.1, hinv1.2.2.2.2.1,
            hinv1.2.2.2.2.2.1⟩
        · exact ih _ _ _ _ _ (by omega) hinv1 p hp
      · simp only [hf0, if_false, List.mem_cons] at hp
        obtain ⟨hinv1, _⟩ := circleInv_keep r f ddF_x ddF_y x y hinv hxy hf0
        rcases hp with rfl | hp
        · exact ⟨hinv1.2.2.2.1, hinv1.2.2.2.2.2.2.2.2.1, hinv1.2.2.2.2.1,
            hinv1.2.2.2.2.2.1⟩
        · exact ih _ _ _ _ _ (by omega) hinv1 p hp
    · rw [midpointTrace, if_neg hxy] at hp
      exact absurd hp (List.not_mem_nil p)

theorem setPixel_spec (d0 : SH1106_OLED) (hwf : WF d0) (e : SH1106_OLED) (he : Frame d0 e)
    (x y : Nat) (hx : x < d0.width) (hy : y < d0.height) :
    OrSpec e (setPixel e x y) (pixelMask d0 x y) := by
  have hb : bufferIndex e x y = bufferIndex d0 x y := by
    unfold bufferIndex
    rw [he.1]
  have hlt : bufferIndex d0 x y < e.buffer.length := by
    rw [he.2.2.1]
    exact idx_lt d0 hwf x y hx hy
  unfold setPixel
  rw [hb]
  refine orSpec_congr (rmw_or_spec e _ _ hlt) (fun m j _ => ?_)
  rw [and_seven, testBit_one_shiftLeft]
  rfl

theorem cond_spec (P : Prop) [Decidable P] (e e1 : SH1106_OLED) (c : Nat → Nat → Bool)
    (h : OrSpec e e1 c) : OrSpec e (if P then e1 else e) (fun m j => decide P && c m j) := by
  by_cases hp : P
  · rw [if_pos hp]
    exact orSpec_congr h (fun m j _ => by simp [hp])
  · rw [if_neg hp]
    exact orSpec_congr (orSpec_refl e) (fun m j _ => by simp [hp])

theorem circlePlot_spec (d0 : SH1106_OLED) (hwf : WF d0) (cx cy r : Nat)
    (h1 : r ≤ cx) (h2 : cx + r < d0.width) (h3 : r ≤ cy) (h4 : cy + r < d0.height)
    (e : SH1106_OLED) (he : Frame d0 e) (x y : Int)
    (hx0 : 0 ≤ x) (hx : x ≤ r) (hy0 : 0 ≤ y) (hy : y ≤ r) :
    OrSpec e (circlePlot cx cy e x y) (circlePlotMask d0 cx cy x y) := by
  have hw := hwf.1
  have hh := hwf.2.1
  have b1 : u8 (cx + x) < d0.width := by unfold u8; omega
  have b2 : u8 (cx - x) < d0.width := by unfold u8; omega
  have b3 : u8 (cx + y) < d0.width := by unfold u8; omega
  have b4 : u8 (cx - y) < d0.width := by unfold u8; omega
  have c1 : u8 (cy + x) < d0.height := by unfold u8; omega
  have c2 : u8 (cy - x) < d0.height := by unfold u8; omega
  have c3 : u8 (cy + y) < d0.height := by unfold u8; omega
  have c4 : u8 (cy - y) < d0.height := by unfold u8; omega
  have s1 := setPixel_spec d0 hwf e he _ _ b1 c3
  have t1 := s1
  have s2 := setPixel_spec d0 hwf _ (frame_trans he t1.1) _ _ b2 c3
  have t2 := orSpec_trans t1 s2
  have s3 := setPixel_spec d0 hwf _ (frame_trans he t2.1) _ _ b1 c4
  have t3 := orSpec_trans t2 s3
  have s4 := setPixel_spec d0 hwf _ (frame_trans he t3.1) _ _ b2 c4
  have t4 := orSpec_trans t3 s4
  have s5 := setPixel_spec d0 hwf _ (frame_trans he t4.1) _ _ b3 c1
  have t5 := orSpec_trans t4 s5
  have s6 := setPixel_spec d0 hwf _ (frame_trans he t5.1) _ _ b4 c1
  have t6 := orSpec_trans t5 s6
  have s7 := setPixel_spec d0 hwf _ (frame_trans he t6.1) _ _ b3 c2
  have t7 := orSpec_trans t6 s7
  have s8 := setPixel_spec d0 hwf _ (frame_trans he t7.1) _ _ b4 c2
  exact orSpec_congr (orSpec_trans t7 s8) (fun m j _ => rfl)

theorem arcPlot_spec (corner : Corner) (d0 : SH1106_OLED) (hwf : WF d0) (cx cy r : Nat)
    (h1 : r ≤ cx) (h2 : cx + r < d0.width) (h3 : r ≤ cy) (h4 : cy + r < d0.height)
    (e : SH1106_OLED) (he : Frame d0 e) (x y : Int)
    (hx0 : 0 ≤ x) (hx : x ≤ r) (hy0 : 0 ≤ y) (hy : y ≤ r) :
    OrSpec e (arcPlot corner cx cy e x y) (arcPlotMask corner d0 cx cy x y) := by
  have hw := hwf.1
  have hh := hwf.2.1
  have b1 : u8 (cx + x) < d0.width := by unfold u8; omega
  have b2 : u8 (cx - x) < d0.width := by unfold u8; omega
  have b3 : u8 (cx + y) < d0.width := by unfold u8; omega
  have b4 : u8 (cx - y) < d0.width := by unfold u8; omega
  have c1 : u8 (cy + x) < d0.height := by unfold u8; omega
  have c2 : u8 (cy - x) < d0.height := by unfold u8; omega
  have c3 : u8 (cy + y) < d0.height := by unfold u8; omega
  have c4 : u8 (cy - y) < d0.height := by unfold u8; omega
  have two : ∀ (g : SH1106_OLED), Frame d0 g → ∀ (X1 Y1 X2 Y2 : Nat), X1 < d0.width →
      Y1 < d0.height → X2 < d0.width → Y2 < d0.height →
      OrSpec g (setPixel (setPixel g X1 Y1) X2 Y2)
        (fun m j => pixelMask d0 X1 Y1 m j || pixelMask d0 X2 Y2 m j) := by
    intro g hg X1 Y1 X2 Y2 a1 a2 a3 a4
    have s1 := setPixel_spec d0 hwf g hg X1 Y1 a1 a2
    exact orSpec_trans s1 (setPixel_spec d0 hwf _ (frame_trans hg s1.1) X2 Y2 a3 a4)
  have t1 := cond_spec (corner = Corner.TOP_LEFT) e _ _ (two e he _ _ _ _ b4 c2 b2 c4)
  have t2 := cond_spec (corner = Corner.TOP_RIGHT) _ _ _
    (two _ (frame_trans he t1.1) _ _ _ _ b1 c4 b3 c2)
  have t12 := orSpec_trans t1 t2
  have t3 := cond_spec (corner = Corner.BOTTOM_RIGHT) _ _ _
    (two _ (frame_trans he t12.1) _ _ _ _ b1 c3 b3 c1)
  have t123 := orSpec_trans t12 t3
  have t4 := cond_spec (corner = Corner.BOTTOM_LEFT) _ _ _
    (two _ (frame_trans he t123.1) _ _ _ _ b4 c1 b2 c3)
  exact orSpec_congr (orSpec_trans t123 t4) (fun m j _ => rfl)

theorem midpointLoop_spec (d0 : SH1106_OLED) (r : Nat)
    (plot : SH1106_OLED → Int → Int → SH1106_OLED) (mask : Int → Int → Nat → Nat → Bool)
    (hplot : ∀ e, Frame d0 e → ∀ x y : Int, 0 ≤ x → x ≤ r → 0 ≤ y → y ≤ r →
      OrSpec e (plot e x y) (mask x y))
    (e : SH1106_OLED) (he : Frame d0 e) (f ddF_x ddF_y x y : Int)
    (hinv : CircleInv r f ddF_x ddF_y x y) :
    OrSpec e (midpointLoop plot e f ddF_x ddF_y x y)
      (fun m j => (midpointTrace f ddF_x ddF_y x y).any (fun p => mask p.1 p.2 m j)) := by
  rw [midpointLoop_eq_foldl plot (y - x).toNat e f ddF_x ddF_y x y (le_refl _)]
  exact foldl_or_spec (fun d (p : Int × Int) => plot d p.1 p.2)
    (fun (p : Int × Int) => mask p.1 p.2) d0 _
    (fun g p hp hg => by
      obtain ⟨a1, a2, a3, a4⟩ :=
        midpointTrace_bounds r (y - x).toNat f ddF_x ddF_y x y (le_refl _) hinv p hp
      exact hplot g hg p.1 p.2 a1 a2 a3 a4) e he

theorem drawCircle_spec (d : SH1106_OLED) (hwf : WF d) (cx cy r : Nat)
    (h1 : r ≤ cx) (h2 : cx + r < d.width) (h3 : r ≤ cy) (h4 : cy + r < d.height) :
    OrSpec d (drawCircle d cx cy r) (fun m j =>
      circleInitMask d cx cy r m j ||
        (midpointTrace (1 - (r : Int)) 1 (-2 * (r : Int)) 0 r).any
          (fun p => circlePlotMask d cx cy p.1 p.2 m j)) := by
  have hw := hwf.1
  have hh := hwf.2.1
  have b0 : cx < d.width := by omega
  have c0 : cy < d.height := by omega
  have b1 : u8 ((cx : Int) + r) < d.width := by unfold u8; omega
  have b2 : u8 ((cx : Int) - r) < d.width := by unfold u8; omega
  have c1 : u8 ((cy : Int) + r) < d.height := by unfold u8; omega
  have c2 : u8 ((cy : Int) - r) < d.height := by unfold u8; omega
  have s1 := setPixel_spec d hwf d (frame_refl d) _ _ b0 c1
  have s2 := setPixel_spec d hwf _ s1.1 _ _ b0 c2
  have t2 := orSpec_trans s1 s2
  have s3 := setPixel_spec d hwf _ t2.1 _ _ b1 c0
  have t3 := orSpec_trans t2 s3
  have s4 := setPixel_spec d hwf _ t3.1 _ _ b2 c0
  have t4 := orSpec_trans t3 s4
  have sl := midpointLoop_spec d r (circlePlot cx cy) (circlePlotMask d cx cy)
    (fun e he x y a1 a2 a3 a4 => circlePlot_spec d hwf cx cy r h1 h2 h3 h4 e he x y a1 a2 a3 a4)
    _ t4.1 _ _ _ _ _ (circleInv_init r)
  exact orSpec_congr (orSpec_trans t4 sl) (fun m j _ => rfl)

theorem drawArc_spec (corner : Corner) (d0 : SH1106_OLED) (hwf : WF d0) (cx cy r : Nat)
    (h1 : r ≤ cx) (h2 : cx + r < d0.width) (h3 : r ≤ cy) (h4 : cy + r < d0.height)
    (e : SH1106_OLED) (he : Frame d0 e) :
    OrSpec e (drawArc e cx cy r corner) (fun m j =>
      arcInitMask corner d0 cx cy r m j ||
        (midpointTrace (1 - (r : Int)) 1 (-2 * (r : Int)) 0 r).any
          (fun p => arcPlotMask corner d0 cx cy p.1 p.2 m j)) := by
  have hw := hwf.1
  have hh := hwf.2.1
  have b0 : cx < d0.width := by omega
  have c0 : cy < d0.height := by omega
  have b1 : u8 ((cx : Int) + r) < d0.width := by unfold u8; omega
  have b2 : u8 ((cx : Int) - r) < d0.width := by unfold u8; omega
  have c1 : u8 ((cy : Int) + r) < d0.height := by unfold u8; omega
  have c2 : u8 ((cy : Int) - r) < d0.height := by unfold u8; omega
  have s1 := cond_spec (corner = Corner.BOTTOM_LEFT ∨ corner = Corner.BOTTOM_RIGHT) e _ _
    (setPixel_spec d0 hwf e he _ _ b0 c1)
  have s2 := cond_spec (corner = Corner.TOP_LEFT ∨ corner = Corner.TOP_RIGHT) _ _ _
    (setPixel_spec d0 hwf _ (frame_trans he s1.1) _ _ b0 c2)
  have t2 := orSpec_trans s1 s2
  have s3 := cond_spec (corner = Corner.TOP_RIGHT ∨ corner = Corner.BOTTOM_RIGHT) _ _ _
    (setPixel_spec d0 hwf _ (frame_trans he t2.1) _ _ b1 c0)
  have t3 := orSpec_trans t2 s3
  have s4 := cond_spec (corner = Corner.TOP_LEFT ∨ corner = Corner.BOTTOM_LEFT) _ _ _
    (setPixel_spec d0 hwf _ (frame_trans he t3.1) _ _ b2 c0)
  have t4 := orSpec_trans t3 s4
  have sl := midpointLoop_spec d0 r (arcPlot corner cx cy) (arcPlotMask corner d0 cx cy)
    (fun g hg x y a1 a2 a3 a4 =>
      arcPlot_spec corner d0 hwf cx cy r h1 h2 h3 h4 g hg x y a1 a2 a3 a4)
    _ (frame_trans he t4.1) _ _ _ _ _ (circleInv_init r)
  exact orSpec_congr (orSpec_trans t4 sl) (fun m j _ => rfl)

theorem eq_of_orSpec {d a b : SH1106_OLED} {ca cb : Nat → Nat → Bool}
    (ha : OrSpec d a ca) (hb : OrSpec d b cb) (hc : ∀ m j, j < 8 → ca m j = cb m j)
    (hba : Bytes a) (hbb : Bytes b) : a = b := by
  have hbuf : a.buffer = b.buffer := by
    apply List.ext_getElem
    · rw [ha.1.2.2.1, hb.1.2.2.1]
    · intro n h1 h2
      have e1 : a.buffer.getD n 0 = a.buffer[n] := by
        rw [List.getD_eq_getElem?_getD, List.getElem?_eq_getElem h1]
        rfl
      have e2 : b.buffer.getD n 0 = b.buffer[n] := by
        rw [List.getD_eq_getElem?_getD, List.getElem?_eq_getElem h2]
        rfl
      rw [← e1, ← e2]
      refine byte_ext (bytes_getD hba n) (bytes_getD hbb n) (fun j hj => ?_)
      rw [ha.2 n j hj, hb.2 n j hj, hc n j hj]
  obtain ⟨f1, f2, _, f4, f5, f6⟩ := ha.1
  obtain ⟨g1, g2, _, g4, g5, g6⟩ := hb.1
  cases a
  cases b
  simp only at hbuf f1 f2 f4 f5 f6 g1 g2 g4 g5 g6
  simp only [SH1106_OLED.mk.injEq]
  exact ⟨f1.trans g1.symm, f2.trans g2.symm, hbuf, f5.trans g5.symm, f6.trans g6.symm,
    f4.trans g4.symm⟩

theorem setPixel_bytes {d : SH1106_OLED} (hb : Bytes d) (x y : Nat) :
    Bytes (setPixel d x y) :=
  rmw_bytes hb _ _

theorem midpointLoop_bytes (plot : SH1106_OLED → Int → Int → SH1106_OLED)
    (hplot : ∀ e x y, Bytes e → Bytes (plot e x y)) (d : SH1106_OLED) (hb : Bytes d)
    (f ddF_x ddF_y x y : Int) : Bytes (midpointLoop plot d f ddF_x ddF_y x y) := by
  rw [midpointLoop_eq_foldl plot (y - x).toNat d f ddF_x ddF_y x y (le_refl _)]
  exact foldl_bytes (fun d (p : Int × Int) => plot d p.1 p.2)
    (fun e p he => hplot e p.1 p.2 he) _ d hb

theorem drawCircle_bytes {d : SH1106_OLED} (hb : Bytes d) (cx cy r : Nat) :
    Bytes (drawCircle d cx cy r) := by
  unfold drawCircle
  refine midpointLoop_bytes _ (fun e x y he => ?_) _ ?_ _ _ _ _ _
  · unfold circlePlot
    exact setPixel_bytes (setPixel_bytes (setPixel_bytes (setPixel_bytes (setPixel_bytes
      (setPixel_bytes (setPixel_bytes (setPixel_bytes he _ _) _ _) _ _) _ _) _ _) _ _) _ _) _ _
  · exact setPixel_bytes (setPixel_bytes (setPixel_bytes (setPixel_bytes hb _ _) _ _) _ _) _ _

theorem ite_bytes (P : Prop) [Decidable P] {e e1 : SH1106_OLED} (h : Bytes e) (h1 : Bytes e1) :
    Bytes (if P then e1 else e) := by
  split
  · exact h1
  · exact h

theorem drawArc_bytes {d : SH1106_OLED} (hb : Bytes d) (cx cy r : Nat) (corner : Corner) :
    Bytes (drawArc d cx cy r corner) := by
  unfold drawArc
  refine midpointLoop_bytes _ (fun e x y he => ?_) _ ?_ _ _ _ _ _
  · unfold arcPlot
    simp only []
    repeat' first | exact he | apply setPixel_bytes | apply ite_bytes
  · repeat' first | exact hb | apply setPixel_bytes | apply ite_bytes

theorem any_or {α : Type} (l : List α) (p q : α → Bool) :
    l.any (fun a => p a || q a) = (l.any p || l.any q) := by
  induction l with
  | nil => rfl
  | cons a l ih =>
    simp only [List.any_cons, ih]
    cases p a <;> cases q a <;> cases l.any p <;> cases l.any q <;> rfl

theorem circlePlotMask_split (d : SH1106_OLED) (cx cy : Nat) (x y : Int) (m j : Nat) :
    circlePlotMask d cx cy x y m j =
      (arcPlotMask Corner.TOP_LEFT d cx cy x y m j ||
        arcPlotMask Corner.TOP_RIGHT d cx cy x y m j ||
        arcPlotMask Corner.BOTTOM_RIGHT d cx cy x y m j ||
        arcPlotMask Corner.BOTTOM_LEFT d cx cy x y m j) := by
  unfold circlePlotMask arcPlotMask
  generalize pixelMask d (u8 (cx + x)) (u8 (cy + y)) m j = a1
  generalize pixelMask d (u8 (cx - x)) (u8 (cy + y)) m j = a2
  generalize pixelMask d (u8 (cx + x)) (u8 (cy - y)) m j = a3
  generalize pixelMask d (u8 (cx - x)) (u8 (cy - y)) m j = a4
  generalize pixelMask d (u8 (cx + y)) (u8 (cy + x)) m j = a5
  generalize pixelMask d (u8 (cx - y)) (u8 (cy + x)) m j = a6
  generalize pixelMask d (u8 (cx + y)) (u8 (cy - x)) m j = a7
  generalize pixelMask d (u8 (cx - y)) (u8 (cy - x)) m j = a8
  revert a1 a2 a3 a4 a5 a6 a7 a8
  decide

theorem circleInitMask_split (d : SH1106_OLED) (cx cy r m j : Nat) :
    circleInitMask d cx cy r m j =
      (arcInitMask Corner.TOP_LEFT d cx cy r m j ||
        arcInitMask Corner.TOP_RIGHT d cx cy r m j ||
        arcInitMask Corner.BOTTOM_RIGHT d cx cy r m j ||
        arcInitMask Corner.BOTTOM_LEFT d cx cy r m j) := by
  unfold circleInitMask arcInitMask
  generalize pixelMask d cx (u8 ((cy : Int) + r)) m j = a1
  generalize pixelMask d cx (u8 ((cy : Int) - r)) m j = a2
  generalize pixelMask d (u8 ((cx : Int) + r)) cy m j = a3
  generalize pixelMask d (u8 ((cx : Int) - r)) cy m j = a4
  revert a1 a2 a3 a4
  decide

theorem pixelMask_hit (d : SH1106_OLED) (X Y px py : Nat) (hX : X < d.width)
    (hpx : px < d.width) (h : pixelMask d X Y (bufferIndex d px py) (py % 8) = true) :
    px = X ∧ py = Y := by
  unfold pixelMask at h
  simp only [Bool.and_eq_true, decide_eq_true_eq] at h
  obtain ⟨e1, e2⟩ := pixel_index_inj d X Y px py hX hpx h.1 h.2
  exact ⟨e1.symm, e2.symm⟩

theorem arc_masks_quadrant (corner : Corner) (d : SH1106_OLED) (hwf : WF d) (cx cy r : Nat)
    (h1 : r ≤ cx) (h2 : cx + r < d.width) (h3 : r ≤ cy) (h4 : cy + r < d.height)
    (px py : Nat) (hpx : px < d.width) :
    (arcInitMask corner d cx cy r (bufferIndex d px py) (py % 8) = true →
      inQuadrant corner cx cy px py) ∧
    (∀ x y : Int, 0 ≤ x → x ≤ r → 0 ≤ y → y ≤ r →
      arcPlotMask corner d cx cy x y (bufferIndex d px py) (py % 8) = true →
      inQuadrant corner cx cy px py) := by
  have hw := hwf.1
  have hh := hwf.2.1
  have hit : ∀ X Y : Nat, X < d.width →
      pixelMask d X Y (bufferIndex d px py) (py % 8) = true → px = X ∧ py = Y :=
    fun X Y hX h => pixelMask_hit d X Y px py hX hpx h
  have hitI : ∀ a b : Int, -(r : Int) ≤ a → a ≤ r → -(r : Int) ≤ b → b ≤ r →
      pixelMask d (u8 (cx + a)) (u8 (cy + b)) (bufferIndex d px py) (py % 8) = true →
      (px : Int) = cx + a ∧ (py : Int) = cy + b := by
    intro a b a1 a2 b1 b2 h
    have hX : u8 (cx + a) < d.width := by unfold u8; omega
    obtain ⟨e1, e2⟩ := hit _ _ hX h
    unfold u8 at e1 e2
    omega
  have hitS : ∀ a b : Int, 0 ≤ a → a ≤ r → 0 ≤ b → b ≤ r →
      ((pixelMask d (u8 (cx + a)) (u8 (cy + b)) (bufferIndex d px py) (py % 8) = true →
        (px : Int) = cx + a ∧ (py : Int) = cy + b) ∧
      (pixelMask d (u8 (cx - a)) (u8 (cy + b)) (bufferIndex d px py) (py % 8) = true →
        (px : Int) = cx - a ∧ (py : Int) = cy + b) ∧
      (pixelMask d (u8 (cx + a)) (u8 (cy - b)) (bufferIndex d px py) (py % 8) = true →
        (px : Int) = cx + a ∧ (py : Int) = cy - b) ∧
      (pixelMask d (u8 (cx - a)) (u8 (cy - b)) (bufferIndex d px py) (py % 8) = true →
        (px : Int) = cx - a ∧ (py : Int) = cy - b)) := by
    intro a b a1 a2 b1 b2
    refine ⟨hitI a b (by omega) a2 (by omega) b2, fun h => ?_, fun h => ?_, fun h => ?_⟩
    · have := hitI (-a) b (by omega) (by omega) (by omega) b2
        (by rw [← sub_eq_add_neg]; exact h)
      omega
    · have := hitI a (-b) (by omega) a2 (by omega) (by omega)
        (by rw [← sub_eq_add_neg]; exact h)
      omega
    · have := hitI (-a) (-b) (by omega) (by omega) (by omega) (by omega)
        (by rw [← sub_eq_add_neg, ← sub_eq_add_neg]; exact h)
      omega
  have hr0 : (0 : Int) ≤ r := Int.ofNat_nonneg r
  have hcx := hitS 0 r (le_refl _) hr0 hr0 (le_refl _)
  have hcy := hitS r 0 hr0 (le_refl _) (le_refl _) hr0
  simp only [add_zero, sub_zero] at hcx hcy
  have ucx : u8 ((cx : Int)) = cx := u8_natCast cx (by omega)
  have ucy : u8 ((cy : Int)) = cy := u8_natCast cy (by omega)
  rw [ucx] at hcx
  rw [ucy] at hcy
  constructor
  · intro h
    unfold arcInitMask at h
    cases corner <;>
      simp only [Bool.or_eq_true, Bool.and_eq_true, decide_eq_true_eq, reduceCtorEq, or_false,
        false_or, or_true, true_or, true_and, false_and, or_self] at h <;>
      unfold inQuadrant <;> simp only
    · rcases h with h | h
      · have := hcx.2.2.1 h; omega
      · have := hcy.2.1 h; omega
    · rcases h with h | h
      · have := hcx.2.2.1 h; omega
      · have := hcy.1 h; omega
    · rcases h with h | h
      · have := hcx.1 h; omega
      · have := hcy.1 h; omega
    · rcases h with h | h
      · have := hcx.1 h; omega
      · have := hcy.2.1 h; omega
  · intro x y x0 x1 y0 y1 h
    have hxy := hitS x y x0 x1 y0 y1
    have hyx := hitS y x y0 y1 x0 x1
    unfold arcPlotMask at h
    cases corner <;>
      simp only [Bool.or_eq_true, Bool.and_eq_true, decide_eq_true_eq, reduceCtorEq, or_false,
        false_or, or_true, true_or, true_and, false_and, or_self] at h <;>
      unfold inQuadrant <;> simp only
    · rcases h with h | h
      · have := hyx.2.2.2 h; omega
      · have := hxy.2.2.2 h; omega
    · rcases h with h | h
      · have := hxy.2.2.1 h; omega
      · have := hyx.2.2.1 h; omega
    · rcases h with h | h
      · have := hxy.1 h; omega
      · have := hyx.1 h; omega
    · rcases h with h | h
      · have := hyx.2.1 h; omega
      · have := hxy.2.1 h; omega

theorem any_all_corners (cs : List Corner) (hall : ∀ c : Corner, c ∈ cs) (F : Corner → Bool) :
    cs.any F = (F Corner.TOP_LEFT || F Corner.TOP_RIGHT || F Corner.BOTTOM_RIGHT ||
      F Corner.BOTTOM_LEFT) := by
  rw [Bool.eq_iff_iff]
  simp only [List.any_eq_true, Bool.or_eq_true]
  constructor
  · rintro ⟨c, _, h⟩
    cases c
    · exact Or.inl (Or.inl (Or.inl h))
    · exact Or.inl (Or.inl (Or.inr h))
    · exact Or.inl (Or.inr h)
    · exact Or.inr h
  · rintro (((h | h) | h) | h)
    · exact ⟨_, hall _, h⟩
    · exact ⟨_, hall _, h⟩
    · exact ⟨_, hall _, h⟩
    · exact ⟨_, hall _, h⟩

theorem arcs_mask_eq_circle_mask (d : SH1106_OLED) (cx cy r : Nat) (cs : List Corner)
    (hall : ∀ c : Corner, c ∈ cs) (m j : Nat) :
    cs.any (fun c => arcInitMask c d cx cy r m j ||
        (midpointTrace (1 - (r : Int)) 1 (-2 * (r : Int)) 0 r).any
          (fun p => arcPlotMask c d cx cy p.1 p.2 m j)) =
      (circleInitMask d cx cy r m j ||
        (midpointTrace (1 - (r : Int)) 1 (-2 * (r : Int)) 0 r).any
          (fun p => circlePlotMask d cx cy p.1 p.2 m j)) := by
  rw [any_all_corners cs hall]
  have hp : (fun p : Int × Int => circlePlotMask d cx cy p.1 p.2 m j) =
      (fun p : Int × Int => arcPlotMask Corner.TOP_LEFT d cx cy p.1 p.2 m j ||
        arcPlotMask Corner.TOP_RIGHT d cx cy p.1 p.2 m j ||
        arcPlotMask Corner.BOTTOM_RIGHT d cx cy p.1 p.2 m j ||
        arcPlotMask Corner.BOTTOM_LEFT d cx cy p.1 p.2 m j) :=
    funext (fun p => circlePlotMask_split d cx cy p.1 p.2 m j)
  rw [hp, circleInitMask_split, any_or, any_or, any_or]
  generalize arcInitMask Corner.TOP_LEFT d cx cy r m j = i1
  generalize arcInitMask Corner.TOP_RIGHT d cx cy r m j = i2
  generalize arcInitMask Corner.BOTTOM_RIGHT d cx cy r m j = i3
  generalize arcInitMask Corner.BOTTOM_LEFT d cx cy r m j = i4
  generalize (midpointTrace (1 - (r : Int)) 1 (-2 * (r : Int)) 0 r).any
    (fun p => arcPlotMask Corner.TOP_LEFT d cx cy p.1 p.2 m j) = a1
  generalize (midpointTrace (1 - (r : Int)) 1 (-2 * (r : Int)) 0 r).any
    (fun p => arcPlotMask Corner.TOP_RIGHT d cx cy p.1 p.2 m j) = a2
  generalize (midpointTrace (1 - (r : Int)) 1 (-2 * (r : Int)) 0 r).any
    (fun p => arcPlotMask Corner.BOTTOM_RIGHT d cx cy p.1 p.2 m j) = a3
  generalize (midpointTrace (1 - (r : Int)) 1 (-2 * (r : Int)) 0 r).any
    (fun p => arcPlotMask Corner.BOTTOM_LEFT d cx cy p.1 p.2 m j) = a4
  revert i1 i2 i3 i4 a1 a2 a3 a4
  decide

/-- C20. On a well-formed display whose buffer cells are bytes, and for a
circle that fits on it (the radius is at most both centre coordinates and
the centre plus the radius stays inside the width and the height): running
`drawArc` once for every corner, in any order and with any repetitions, as
long as all four of TOP_LEFT, TOP_RIGHT, BOTTOM_RIGHT and BOTTOM_LEFT occur,
leaves exactly the display that `drawCircle` leaves; and a single `drawArc`
leaves every pixel outside the closed quadrant of its corner as it was, so
the only pixels it can turn on lie in that quadrant (for TOP_LEFT the pixels
with `px <= cx` and `py <= cy`). -/
theorem drawArc_corners_eq_drawCircle (d : SH1106_OLED) (hwf : WF d) (hb : Bytes d)
    (cx cy r : Nat) (h1 : r ≤ cx) (h2 : cx + r < d.width) (h3 : r ≤ cy)
    (h4 : cy + r < d.height) :
    (∀ cs : List Corner, (∀ c : Corner, c ∈ cs) →
      cs.foldl (fun e c => drawArc e cx cy r c) d = drawCircle d cx cy r) ∧
    (∀ (corner : Corner) (px py : Nat), px < d.width → py < d.height →
      ¬ inQuadrant corner cx cy px py →
      bitAt (drawArc d cx cy r corner) px py = bitAt d px py) ∧
    (∀ (corner : Corner) (px py : Nat), px < d.width → py < d.height →
      bitAt (drawArc d cx cy r corner) px py = true →
      bitAt d px py = true ∨ inQuadrant corner cx cy px py) := by
  have hq : ∀ (corner : Corner) (px py : Nat), px < d.width →
      bitAt (drawArc d cx cy r corner) px py = true →
      bitAt d px py = true ∨ inQuadrant corner cx cy px py := by
    intro corner px py hpx hbit
    rw [bitAt_of_orSpec (drawArc_spec corner d hwf cx cy r h1 h2 h3 h4 d (frame_refl d))] at hbit
    simp only [Bool.or_eq_true, List.any_eq_true] at hbit
    have hm := arc_masks_quadrant corner d hwf cx cy r h1 h2 h3 h4 px py hpx
    rcases hbit with hbit | hbit | ⟨p, hp, hbit⟩
    · exact Or.inl hbit
    · exact Or.inr (hm.1 hbit)
    · obtain ⟨b1, b2, b3, b4⟩ := midpointTrace_bounds r _ _ _ _ _ _ (le_refl _)
        (circleInv_init r) p hp
      exact Or.inr (hm.2 p.1 p.2 b1 b2 b3 b4 hbit)
  refine ⟨fun cs hall => ?_, fun corner px py hpx _ hnq => ?_,
    fun corner px py hpx _ hbit => hq corner px py hpx hbit⟩
  · have hA := foldl_or_spec (fun e c => drawArc e cx cy r c)
      (fun c m j => arcInitMask c d cx cy r m j ||
        (midpointTrace (1 - (r : Int)) 1 (-2 * (r : Int)) 0 r).any
          (fun p => arcPlotMask c d cx cy p.1 p.2 m j)) d cs
      (fun e c _ he => drawArc_spec c d hwf cx cy r h1 h2 h3 h4 e he) d (frame_refl d)
    have hC := drawCircle_spec d hwf cx cy r h1 h2 h3 h4
    exact eq_of_orSpec hA hC
      (fun m j _ => arcs_mask_eq_circle_mask d cx cy r cs hall m j)
      (foldl_bytes _ (fun e c he => drawArc_bytes he cx cy r c) cs d hb)
      (drawCircle_bytes hb cx cy r)
  · have hor := bitAt_of_orSpec
      (drawArc_spec corner d hwf cx cy r h1 h2 h3 h4 d (frame_refl d)) px py
    cases hbit : bitAt (drawArc d cx cy r corner) px py
    · rw [hbit] at hor
      cases hd : bitAt d px py
      · rfl
      · rw [hd] at hor
        simp at hor
    · rcases hq corner px py hpx hbit with h | h
      · exact h.symm
      · exact absurd h hnq

theorem drawArc_corners_eq_drawCircle_witness :
    WF (init 128 64) ∧ Bytes (init 128 64) ∧ 4 ≤ 10 ∧ 10 + 4 < (init 128 64).width ∧
      10 + 4 < (init 128 64).height ∧
      drawArc (drawArc (drawArc (drawArc (init 128 64) 10 10 4 Corner.TOP_LEFT) 10 10 4
        Corner.TOP_RIGHT) 10 10 4 Corner.BOTTOM_RIGHT) 10 10 4 Corner.BOTTOM_LEFT =
        drawCircle (init 128 64) 10 10 4 :=
  ⟨init_WF 128 64 (by decide) (by decide) (by decide), init_bytes 128 64, by decide, by decide,
    by decide,
    (drawArc_corners_eq_drawCircle (init 128 64)
      (init_WF 128 64 (by decide) (by decide) (by decide)) (init_bytes 128 64) 10 10 4
      (by decide) (by decide) (by decide) (by decide)).1
      [Corner.TOP_LEFT, Corner.TOP_RIGHT, Corner.BOTTOM_RIGHT, Corner.BOTTOM_LEFT]
      (fun c => by cases c <;> simp)⟩

/-! ## Filled triangle: scanline loops -/

/-- C23, at the failing input. On any display, as soon as the first scanline
loop is allowed one iteration, `drawTriangleFill(0, 0, 10, 0, 5, 10)` divides
by zero: the two top vertices are on row 0, so `yDistance12` is 0 and
`yStop = y2 - 1` wraps to 255 in its `uint8_t`, the test `y <= yStop` of the
first loop holds at `y = 0` (and at every `uint8_t` value), and the loop body
evaluates `runAmount12 / yDistance12`. -/
theorem drawTriangleFill_flat_top_divides_by_zero (fuel : Nat) (d : SH1106_OLED) :
    drawTriangleFill (fuel + 1) d 0 0 10 0 5 10 = Outcome.divByZero := by
  have hs : triSort 0 0 10 0 5 10 = (0, 0, 10, 0, 5, 10) := by decide
  unfold drawTriangleFill
  rw [hs]
  have h1 : ¬ (0 : Nat) = 10 := by decide
  have h2 : wrap8 (((0 : Nat) : Int) - ((0 : Nat) : Int)) = 0 := by decide
  have h3 : u8 (((0 : Nat) : Int) - 1) = 255 := by decide
  simp only [h1, if_false, h2, h3]
  unfold triLoop1
  simp

theorem swap_exact (a b : Nat) (ha : a < 256) (hb : b < 256) : swap a b = (b, a) := by
  unfold swap u8
  refine Prod.ext ?_ ?_ <;> simp only <;> omega

theorem triSort_sorted (x1 y1 x2 y2 x3 y3 : Nat) (hx1 : x1 < 256) (hy1 : y1 < 256)
    (hx2 : x2 < 256) (hy2 : y2 < 256) (hx3 : x3 < 256) (hy3 : y3 < 256) :
    ∃ X1 Y1 X2 Y2 X3 Y3 : Nat, triSort x1 y1 x2 y2 x3 y3 = (X1, Y1, X2, Y2, X3, Y3) ∧
      List.Perm [(X1, Y1), (X2, Y2), (X3, Y3)] [(x1, y1), (x2, y2), (x3, y3)] ∧
      Y1 ≤ Y2 ∧ Y2 ≤ Y3 := by
  have p12 : List.Perm [(x2, y2), (x1, y1), (x3, y3)] [(x1, y1), (x2, y2), (x3, y3)] :=
    List.Perm.swap _ _ _
  have p23 : List.Perm [(x1, y1), (x3, y3), (x2, y2)] [(x1, y1), (x2, y2), (x3, y3)] :=
    List.Perm.cons _ (List.Perm.swap _ _ _)
  unfold triSort
  by_cases c1 : y2 < y1
  · simp only [c1, if_true, swap_exact y1 y2 hy1 hy2, swap_exact x1 x2 hx1 hx2]
    by_cases c2 : y3 < y1
    · simp only [c2, if_true, swap_exact y1 y3 hy1 hy3, swap_exact x1 x3 hx1 hx3]
      by_cases c3 : y3 < y2
      · simp only [c3, if_true, swap_exact y2 y3 hy2 hy3, swap_exact x2 x3 hx2 hx3]
        refine ⟨_, _, _, _, _, _, rfl, ?_, by omega, by omega⟩
        exact (List.Perm.swap _ _ _).trans ((List.Perm.cons _ (List.Perm.swap _ _ _)).trans
          (List.Perm.swap _ _ _))
      · simp only [c3, if_false]
        refine ⟨_, _, _, _, _, _, rfl, ?_, by omega, by omega⟩
        exact (List.Perm.cons _ (List.Perm.swap _ _ _)).trans (List.Perm.swap _ _ _)
    · simp only [c2, if_false, c1, if_true]
      have c3 : ¬ y1 < y2 := by omega
      simp only [c3, if_false]
      exact ⟨_, _, _, _, _, _, rfl, p12, by omega, by omega⟩
  · simp only [c1, if_false]
    by_cases c2 : y3 < y2
    · simp only [c2, if_true, swap_exact y2 y3 hy2 hy3, swap_exact x2 x3 hx2 hx3]
      by_cases c3 : y3 < y1
      · simp only [c3, if_true, swap_exact y1 y3 hy1 hy3, swap_exact x1 x3 hx1 hx3]
        refine ⟨_, _, _, _, _, _, rfl, ?_, by omega, by omega⟩
        exact (List.Perm.swap _ _ _).trans (List.Perm.cons _ (List.Perm.swap _ _ _))
      · simp only [c3, if_false]
        exact ⟨_, _, _, _, _, _, rfl, p23, by omega, by omega⟩
    · simp only [c2, if_false, c1]
      exact ⟨_, _, _, _, _, _, rfl, List.Perm.refl _, by omega, by omega⟩

theorem tdiv_between (k n dx : Int) (hk0 : 0 ≤ k) (hkn : k ≤ n) (hn : 0 < n) :
    (0 ≤ dx → 0 ≤ Int.tdiv (k * dx) n ∧ Int.tdiv (k * dx) n ≤ dx) ∧
    (dx ≤ 0 → dx ≤ Int.tdiv (k * dx) n ∧ Int.tdiv (k * dx) n ≤ 0) := by
  have pos : ∀ e : Int, 0 ≤ e → 0 ≤ Int.tdiv (k * e) n ∧ Int.tdiv (k * e) n ≤ e := by
    intro e he
    have h0 : 0 ≤ k * e := Int.mul_nonneg hk0 he
    rw [Int.tdiv_eq_ediv h0 (le_of_lt hn)]
    refine ⟨Int.ediv_nonneg h0 (le_of_lt hn), Int.ediv_le_of_le_mul hn ?_⟩
    nlinarith
  refine ⟨pos dx, fun hdx => ?_⟩
  have h := pos (-dx) (by omega)
  have e : k * dx = -(k * -dx) := by ring
  rw [e, Int.neg_tdiv]
  omega

theorem edgeX_between (xa ya xb yb y : Nat) (hab : ya < yb) (h1 : ya ≤ y) (h2 : y ≤ yb) :
    ((min xa xb : Nat) : Int) ≤ edgeX xa ya xb yb y ∧
      edgeX xa ya xb yb y ≤ ((max xa xb : Nat) : Int) := by
  unfold edgeX
  have h := tdiv_between ((y : Int) - ya) ((yb : Int) - ya) ((xb : Int) - xa)
    (by omega) (by omega) (by omega)
  rcases Nat.le_total xa xb with hx | hx
  · have := h.1 (by omega)
    rw [Nat.min_eq_left hx, Nat.max_eq_right hx]
    omega
  · have := h.2 (by omega)
    rw [Nat.min_eq_right hx, Nat.max_eq_left hx]
    omega

theorem u8_edgeX (xa ya xb yb y : Nat) (hab : ya < yb) (h1 : ya ≤ y) (h2 : y ≤ yb)
    (hxa : xa < 256) (hxb : xb < 256) :
    u8 ((xa : Int) + Int.tdiv (((y : Int) - ya) * ((xb : Int) - xa)) ((yb : Int) - ya)) =
      (edgeX xa ya xb yb y).toNat := by
  have h := edgeX_between xa ya xb yb y hab h1 h2
  have hmin : 0 ≤ ((min xa xb : Nat) : Int) := Int.ofNat_nonneg _
  have hmax : ((max xa xb : Nat) : Int) < 256 := by
    rcases Nat.le_total xa xb with hx | hx
    · rw [Nat.max_eq_right hx]; omega
    · rw [Nat.max_eq_left hx]; omega
  unfold edgeX at h ⊢
  unfold u8
  omega

theorem wrap8_id (v : Int) (h1 : -128 ≤ v) (h2 : v ≤ 127) : wrap8 v = v := by
  unfold wrap8
  omega

theorem foldl_congr_mem {α : Type} (f g : SH1106_OLED → α → SH1106_OLED) (l : List α)
    (h : ∀ a ∈ l, ∀ d, f d a = g d a) : ∀ d, l.foldl f d = l.foldl g d := by
  induction l with
  | nil => intro d; rfl
  | cons a l ih =>
    intro d
    rw [List.foldl_cons, List.foldl_cons, h a (List.mem_cons_self a l) d]
    exact ih (fun b hb => h b (List.mem_cons_of_mem a hb)) _

theorem triLoop1_spans (x1 : Nat) (xd12 yd12 xd13 yd13 : Int) (yStop y0 : Nat)
    (hs : yStop < 255) :
    ∀ (n fuel : Nat) (d : SH1106_OLED) (y : Nat), y + n = yStop + 1 → n < fuel →
      (0 < n → yd12 ≠ 0 ∧ yd13 ≠ 0) →
      triLoop1 x1 xd12 yd12 xd13 yd13 yStop fuel d y (((y : Int) - y0) * xd12)
          (((y : Int) - y0) * xd13) =
        Outcome.done ((List.range' y n).foldl (fun d (r : Nat) => drawHLine d
          (u8 (x1 + Int.tdiv (((r : Int) - y0) * xd12) yd12))
          (u8 (x1 + Int.tdiv (((r : Int) - y0) * xd13) yd13)) r) d) := by
  intro n
  induction n with
  | zero =>
    intro fuel d y hy hf _
    obtain ⟨f, rfl⟩ : ∃ f, fuel = f + 1 := ⟨fuel - 1, by omega⟩
    have hc : ¬ y ≤ yStop := by omega
    unfold triLoop1
    rw [if_neg hc]
    rfl
  | succ n ih =>
    intro fuel d y hy hf hd
    obtain ⟨f, rfl⟩ : ∃ f, fuel = f + 1 := ⟨fuel - 1, by omega⟩
    have hc : y ≤ yStop := by omega
    obtain ⟨d1, d2⟩ := hd (Nat.succ_pos n)
    have hz : ¬ (yd12 = 0 ∨ yd13 = 0) := fun h => h.elim d1 d2
    have hy1 : (y + 1) % 256 = y + 1 := Nat.mod_eq_of_lt (by omega)
    unfold triLoop1
    rw [if_pos hc, if_neg hz]
    simp only [hy1]
    have e1 : ((y : Int) - y0) * xd12 + xd12 = (((y + 1 : Nat) : Int) - y0) * xd12 := by
      push_cast; ring
    have e2 : ((y : Int) - y0) * xd13 + xd13 = (((y + 1 : Nat) : Int) - y0) * xd13 := by
      push_cast; ring
    rw [e1, e2, ih f _ (y + 1) (by omega) (by omega) (fun _ => ⟨d1, d2⟩)]
    rfl

theorem triLoop2_spans (x1 x2 y3 : Nat) (xd13 yd13 xd23 yd23 : Int) (y1 y2 : Nat)
    (hs : y3 ≤ 255) :
    ∀ (n fuel : Nat) (d : SH1106_OLED) (y : Nat), n = y3 - y → n < fuel →
      (0 < n → yd23 ≠ 0 ∧ yd13 ≠ 0) →
      triLoop2 x1 x2 y3 xd13 yd13 xd23 yd23 fuel d y (((y : Int) - y1) * xd13)
          (((y : Int) - y2) * xd23) =
        Outcome.done ((List.range' y n).foldl (fun d (r : Nat) => drawHLine d
          (u8 (x2 + Int.tdiv (((r : Int) - y2) * xd23) yd23))
          (u8 (x1 + Int.tdiv (((r : Int) - y1) * xd13) yd13)) r) d) := by
  intro n
  induction n with
  | zero =>
    intro fuel d y hy hf _
    obtain ⟨f, rfl⟩ : ∃ f, fuel = f + 1 := ⟨fuel - 1, by omega⟩
    have hc : ¬ y < y3 := by omega
    unfold triLoop2
    rw [if_neg hc]
    rfl
  | succ n ih =>
    intro fuel d y hy hf hd
    obtain ⟨f, rfl⟩ : ∃ f, fuel = f + 1 := ⟨fuel - 1, by omega⟩
    have hc : y < y3 := by omega
    obtain ⟨d1, d2⟩ := hd (Nat.succ_pos n)
    have hz : ¬ (yd23 = 0 ∨ yd13 = 0) := fun h => h.elim d1 d2
    have hy1 : (y + 1) % 256 = y + 1 := Nat.mod_eq_of_lt (by omega)
    unfold triLoop2
    rw [if_pos hc, if_neg hz]
    simp only [hy1]
    have e1 : ((y : Int) - y1) * xd13 + xd13 = (((y + 1 : Nat) : Int) - y1) * xd13 := by
      push_cast; ring
    have e2 : ((y : Int) - y2) * xd23 + xd23 = (((y + 1 : Nat) : Int) - y2) * xd23 := by
      push_cast; ring
    rw [e1, e2, ih f _ (y + 1) (by omega) (by omega) (fun _ => ⟨d1, d2⟩)]
    rfl

theorem rows_as_spans (d : SH1106_OLED) (rows : List Nat) (a b : Nat → Nat) (ea eb : Nat → Int)
    (h : ∀ r ∈ rows, a r = (ea r).toNat ∧ b r = (eb r).toNat) :
    rows.foldl (fun d (r : Nat) => drawHLine d (a r) (b r) r) d =
      drawSpans d (rows.map (fun y => ((ea y).toNat, (eb y).toNat, y))) := by
  unfold drawSpans
  rw [List.foldl_map]
  exact foldl_congr_mem _ _ rows (fun r hr e => by rw [(h r hr).1, (h r hr).2]) d

theorem drawSpans_append (d : SH1106_OLED) (s t : List (Nat × Nat × Nat)) :
    drawSpans d (s ++ t) = drawSpans (drawSpans d s) t := by
  unfold drawSpans
  rw [List.foldl_append]

theorem drawTriangleFill_sorted_spans (fuel : Nat) (d : SH1106_OLED)
    (a1 b1 a2 b2 a3 b3 X1 Y1 X2 Y2 X3 Y3 : Nat)
    (hs : triSort a1 b1 a2 b2 a3 b3 = (X1, Y1, X2, Y2, X3, Y3))
    (hX1 : X1 ≤ 127) (hX2 : X2 ≤ 127) (hX3 : X3 ≤ 127) (hY3 : Y3 ≤ 127)
    (h12 : Y1 ≤ Y2) (h23 : Y2 ≤ Y3) (h13 : Y1 < Y3) (hY2 : 0 < Y2) (hf : Y3 + 2 ≤ fuel) :
    drawTriangleFill fuel d a1 b1 a2 b2 a3 b3 =
      Outcome.done (drawSpans d (closedFormSpans X1 Y1 X2 Y2 X3 Y3)) := by
  unfold drawTriangleFill
  rw [hs]
  simp only []
  rw [if_neg (by omega : ¬ Y1 = Y3)]
  rw [wrap8_id ((X2 : Int) - X1) (by omega) (by omega),
    wrap8_id ((X3 : Int) - X1) (by omega) (by omega),
    wrap8_id ((X3 : Int) - X2) (by omega) (by omega),
    wrap8_id ((Y2 : Int) - Y1) (by omega) (by omega),
    wrap8_id ((Y3 : Int) - Y1) (by omega) (by omega),
    wrap8_id ((Y3 : Int) - Y2) (by omega) (by omega)]
  have hstop : (if Y2 = Y3 then (u8 ((Y2 : Int) - 1) + 1) % 256 else u8 ((Y2 : Int) - 1)) =
      (if Y2 = Y3 then Y2 + 1 else Y2) - 1 := by
    unfold u8
    split <;> omega
  obtain ⟨S, hS⟩ : ∃ S : Nat, (if Y2 = Y3 then Y2 + 1 else Y2) = S := ⟨_, rfl⟩
  have hgt : ¬ Y2 = Y3 → S = Y2 := fun h => by rw [← hS, if_neg h]
  have heq : Y2 = Y3 → S = Y2 + 1 := fun h => by rw [← hS, if_pos h]
  have hle : S ≤ Y3 + 1 := by
    by_cases e : Y2 = Y3
    · have := heq e; omega
    · have := hgt e; omega
  have hge : Y1 ≤ S := by
    by_cases e : Y2 = Y3
    · have := heq e; omega
    · have := hgt e; omega
  have hpos : 0 < S := by
    by_cases e : Y2 = Y3
    · have := heq e; omega
    · have := hgt e; omega
  rw [hstop, hS]
  have l1 := triLoop1_spans X1 ((X2 : Int) - X1) ((Y2 : Int) - Y1) ((X3 : Int) - X1)
    ((Y3 : Int) - Y1) (S - 1) Y1 (by omega) (S - Y1) fuel d Y1 (by omega) (by omega)
    (fun hn => ⟨by
      by_cases e : Y2 = Y3
      · omega
      · have := hgt e; omega, by omega⟩)
  simp only [sub_self, zero_mul] at l1
  rw [l1]
  simp only []
  have hu : u8 (((S - 1 : Nat) : Int) + 1) = S := by unfold u8; omega
  have r13 : ((X3 : Int) - X1) * (((S - 1 : Nat) : Int) - Y1 + 1) =
      ((S : Int) - Y1) * ((X3 : Int) - X1) := by
    have : ((S - 1 : Nat) : Int) = (S : Int) - 1 := by omega
    rw [this]; ring
  have r23 : ((X3 : Int) - X2) * (((S - 1 : Nat) : Int) - Y2 + 1) =
      ((S : Int) - Y2) * ((X3 : Int) - X2) := by
    have : ((S - 1 : Nat) : Int) = (S : Int) - 1 := by omega
    rw [this]; ring
  rw [hu, r13, r23]
  have l2 := triLoop2_spans X1 X2 Y3 ((X3 : Int) - X1) ((Y3 : Int) - Y1) ((X3 : Int) - X2)
    ((Y3 : Int) - Y2) Y1 Y2 (by omega) (Y3 - S) fuel
    ((List.range' Y1 (S - Y1)).foldl (fun d (r : Nat) => drawHLine d
      (u8 (X1 + Int.tdiv (((r : Int) - Y1) * ((X2 : Int) - X1)) ((Y2 : Int) - Y1)))
      (u8 (X1 + Int.tdiv (((r : Int) - Y1) * ((X3 : Int) - X1)) ((Y3 : Int) - Y1))) r) d)
    S rfl (by omega)
    (fun hn => ⟨by
      by_cases e : Y2 = Y3
      · have := heq e; omega
      · omega, by omega⟩)
  rw [l2]
  congr 1
  unfold closedFormSpans topSpans bottomSpans
  rw [hS]
  rw [drawSpans_append]
  have t1 := rows_as_spans d (List.range' Y1 (S - Y1))
    (fun r => u8 (X1 + Int.tdiv (((r : Int) - Y1) * ((X2 : Int) - X1)) ((Y2 : Int) - Y1)))
    (fun r => u8 (X1 + Int.tdiv (((r : Int) - Y1) * ((X3 : Int) - X1)) ((Y3 : Int) - Y1)))
    (edgeX X1 Y1 X2 Y2) (edgeX X1 Y1 X3 Y3)
    (fun r hr => by
      rw [List.mem_range'_1] at hr
      have hr2 : r ≤ Y2 := by
        by_cases e : Y2 = Y3
        · have := heq e; omega
        · have := hgt e; omega
      have hlt : Y1 < Y2 := by omega
      exact ⟨u8_edgeX X1 Y1 X2 Y2 r hlt hr.1 hr2 (by omega) (by omega),
        u8_edgeX X1 Y1 X3 Y3 r h13 hr.1 (by omega) (by omega) (by omega)⟩)
  rw [t1]
  exact rows_as_spans _ (List.range' S (Y3 - S))
    (fun r => u8 (X2 + Int.tdiv (((r : Int) - Y2) * ((X3 : Int) - X2)) ((Y3 : Int) - Y2)))
    (fun r => u8 (X1 + Int.tdiv (((r : Int) - Y1) * ((X3 : Int) - X1)) ((Y3 : Int) - Y1)))
    (edgeX X2 Y2 X3 Y3) (edgeX X1 Y1 X3 Y3)
    (fun r hr => by
      rw [List.mem_range'_1] at hr
      have hlt : Y2 < Y3 := by
        by_cases e : Y2 = Y3
        · have := heq e; omega
        · omega
      have hr2 : Y2 ≤ r := by
        by_cases e : Y2 = Y3
        · have := heq e; omega
        · have := hgt e; omega
      exact ⟨u8_edgeX X2 Y2 X3 Y3 r hlt hr2 (by omega) (by omega) (by omega),
        u8_edgeX X1 Y1 X3 Y3 r h13 (by omega) (by omega) (by omega) (by omega)⟩)

theorem bitAt_init (w h x y : Nat) : bitAt (init w h) x y = false := by
  have hb : (init w h).buffer = List.replicate (w * h / 8) 0 := by
    simp [init, setFontSize]
  unfold bitAt
  rw [hb, getD_replicate_zero, Nat.zero_testBit]

theorem span_pix (d0 d : SH1106_OLED) (hwf : WF d0) (hw : 1 ≤ d0.width) (hh : 1 ≤ d0.height)
    (hf : Frame d0 d) (s : Nat × Nat × Nat) :
    PixSpec d (drawHLine d s.1 s.2.1 s.2.2) (spanPixel d0.width d0.height s) := by
  have hwd : WF d := WF_of_frame hf hwf
  rw [drawHLine_clamped d hwd (by rw [hf.1]; exact hw) (by rw [hf.2.1]; exact hh), hf.1, hf.2.1]
  exact hline_pix d0 d hwf hf _ _ _ (by omega) (by omega) (by omega)

theorem drawSpans_pix (d0 : SH1106_OLED) (hwf : WF d0) (hw : 1 ≤ d0.width)
    (hh : 1 ≤ d0.height) (spans : List (Nat × Nat × Nat)) (d : SH1106_OLED)
    (hf : Frame d0 d) :
    PixSpec d (drawSpans d spans)
      (fun px py => spans.any (fun s => spanPixel d0.width d0.height s px py)) :=
  foldl_pix_spec (fun d (s : Nat × Nat × Nat) => drawHLine d s.1 s.2.1 s.2.2)
    (fun s => spanPixel d0.width d0.height s) d0 spans
    (fun e s _ he => span_pix d0 e hwf hw hh he s) d hf

/-- C24, at the failing input. On the 128x64 display after `init()`,
`drawTriangleFill(5, 1, 0, 5, 10, 10)` returns (given at least 12 iterations
for each scanline loop) with the vertex pixels `(5, 1)` and `(0, 5)` on but
the lowest vertex `(10, 10)` off: the second loop runs while `y < y3`, so row
10 receives no span and no pixel of it is on. -/
theorem drawTriangleFill_misses_lowest_vertex (fuel : Nat) :
    ∃ e, drawTriangleFill (fuel + 12) (init 128 64) 5 1 0 5 10 10 = Outcome.done e ∧
      bitAt e 5 1 = true ∧ bitAt e 0 5 = true ∧ bitAt e 10 10 = false ∧
      ∀ px, px < 128 → bitAt e px 10 = false := by
  have hs : triSort 5 1 0 5 10 10 = (5, 1, 0, 5, 10, 10) := by decide
  have hrun := drawTriangleFill_sorted_spans (fuel + 12) (init 128 64) 5 1 0 5 10 10
    5 1 0 5 10 10 hs (by decide) (by decide) (by decide) (by decide) (by decide) (by decide)
    (by decide) (by decide) (by omega)
  have hwf : WF (init 128 64) := init_WF 128 64 (by decide) (by decide) (by decide)
  have hpix := (drawSpans_pix (init 128 64) hwf (by decide) (by decide)
    (closedFormSpans 5 1 0 5 10 10) (init 128 64) (frame_refl _)).2
  have hw : (init 128 64).width = 128 := rfl
  have hh : (init 128 64).height = 64 := rfl
  rw [hw, hh] at hpix
  simp only [bitAt_init, Bool.false_or] at hpix
  have hrow : ∀ px, (closedFormSpans 5 1 0 5 10 10).any
      (fun s => spanPixel 128 64 s px 10) = false := by
    intro px
    have hl : closedFormSpans 5 1 0 5 10 10 =
        [(5, 5, 1), (4, 5, 2), (3, 6, 3), (2, 6, 4), (0, 7, 5), (2, 7, 6), (4, 8, 7),
          (6, 8, 8), (8, 9, 9)] := by decide
    rw [hl]
    simp [spanPixel]
  refine ⟨_, hrun, ?_, ?_, ?_, fun px hpx => ?_⟩
  · rw [hpix 5 1 (by decide)]; decide
  · rw [hpix 0 5 (by decide)]; decide
  · rw [hpix 10 10 (by decide)]; exact hrow 10
  · rw [hpix px 10 hpx]; exact hrow px

theorem drawTriangleFill_wide_run (d : SH1106_OLED) :
    drawTriangleFill 5 d 0 0 199 2 0 3 =
      Outcome.done (drawSpans d [(0, 0, 0), (228, 0, 1), (199, 0, 2)]) := by
  have hs : triSort 0 0 199 2 0 3 = (0, 0, 199, 2, 0, 3) := by decide
  unfold drawTriangleFill
  rw [hs]
  have w1 : wrap8 (((199 : Nat) : Int) - ((0 : Nat) : Int)) = -57 := by decide
  have w2 : wrap8 (((0 : Nat) : Int) - ((0 : Nat) : Int)) = 0 := by decide
  have w3 : wrap8 (((0 : Nat) : Int) - ((199 : Nat) : Int)) = 57 := by decide
  have w4 : wrap8 (((2 : Nat) : Int) - ((0 : Nat) : Int)) = 2 := by decide
  have w5 : wrap8 (((3 : Nat) : Int) - ((0 : Nat) : Int)) = 3 := by decide
  have w6 : wrap8 (((3 : Nat) : Int) - ((2 : Nat) : Int)) = 1 := by decide
  have u1 : u8 (((2 : Nat) : Int) - 1) = 1 := by decide
  simp only [w1, w2, w3, w4, w5, w6, u1]
  have e : (-Int.tdiv 57 2 % 256).toNat = 228 := by decide
  simp +decide [triLoop1, triLoop2, drawSpans, u8, e]

/-- C22, where the claim fails. On a 200x64 display after `init()`, for the
in-bounds vertices `(0, 0)`, `(199, 2)`, `(0, 3)` (already in ascending `y`),
`drawTriangleFill` returns with pixel `(150, 1)` on, although row 1 belongs to
the top region and the closed-form edge positions there are
`0 + trunc(1 * 199 / 2) = 99` and `0 + trunc(1 * 0 / 3) = 0`: the span between
them does not reach column 150. The `int8_t xDistance12` holds `199 - 256`. -/
theorem drawTriangleFill_wide_not_closed_form :
    ∃ e, drawTriangleFill 5 (init 200 64) 0 0 199 2 0 3 = Outcome.done e ∧
      bitAt e 150 1 = true ∧
      edgeX 0 0 199 2 1 = 99 ∧ edgeX 0 0 0 3 1 = 0 ∧
      bitAt (drawSpans (init 200 64) (closedFormSpans 0 0 199 2 0 3)) 150 1 = false := by
  have hwf : WF (init 200 64) := init_WF 200 64 (by decide) (by decide) (by decide)
  have hw : (init 200 64).width = 200 := rfl
  have hh : (init 200 64).height = 64 := rfl
  have hpix : ∀ spans : List (Nat × Nat × Nat), bitAt (drawSpans (init 200 64) spans) 150 1 =
      spans.any (fun s => spanPixel 200 64 s 150 1) := by
    intro spans
    have h := (drawSpans_pix (init 200 64) hwf (by decide) (by decide) spans (init 200 64)
      (frame_refl _)).2 150 1 (by decide)
    rw [hw, hh, bitAt_init, Bool.false_or] at h
    exact h
  refine ⟨_, drawTriangleFill_wide_run (init 200 64), ?_, by decide, by decide, ?_⟩
  · rw [hpix]; decide
  · rw [hpix]; decide

theorem triSort_mem (x1 y1 x2 y2 x3 y3 X1 Y1 X2 Y2 X3 Y3 : Nat)
    (hp : List.Perm [(X1, Y1), (X2, Y2), (X3, Y3)] [(x1, y1), (x2, y2), (x3, y3)])
    (P : Nat × Nat → Prop) (h1 : P (x1, y1)) (h2 : P (x2, y2)) (h3 : P (x3, y3)) :
    P (X1, Y1) ∧ P (X2, Y2) ∧ P (X3, Y3) := by
  have hall : ∀ v ∈ [(X1, Y1), (X2, Y2), (X3, Y3)], P v := by
    intro v hv
    have hv2 := hp.mem_iff.mp hv
    simp only [List.mem_cons, List.mem_singleton, List.not_mem_nil, or_false] at hv2
    rcases hv2 with rfl | rfl | rfl
    · exact h1
    · exact h2
    · exact h3
  exact ⟨hall _ (by simp), hall _ (by simp), hall _ (by simp)⟩

/-- C22, amended. On a display of at most 128 columns and 128 rows, for every
triple of in-bounds vertices not all on one row: the three conditional swaps
of `drawTriangleFill` leave a permutation `(X1, Y1), (X2, Y2), (X3, Y3)` of the
input vertices with `Y1 <= Y2 <= Y3` and `Y1 < Y3`; and unless the two topmost
vertices are both on row 0 (`Y2 = 0`), the call returns, once each scanline
loop is allowed `Y3 + 2` iterations, the display obtained by drawing one
`drawHLine` per closed-form span: on row `y` of the top region between
`X1 + trunc((y - Y1)*(X2 - X1)/(Y2 - Y1))` and
`X1 + trunc((y - Y1)*(X3 - X1)/(Y3 - Y1))`, on row `y` of the bottom region
between `X2 + trunc((y - Y2)*(X3 - X2)/(Y3 - Y2))` and
`X1 + trunc((y - Y1)*(X3 - X1)/(Y3 - Y1))`. Every edge position lies between
the columns of the two ends of its edge, so it is a column of the display. -/
theorem drawTriangleFill_closed_form (fuel : Nat) (d : SH1106_OLED) (hw : d.width ≤ 128)
    (hh : d.height ≤ 128) (x1 y1 x2 y2 x3 y3 : Nat)
    (hx1 : x1 < d.width) (hy1 : y1 < d.height) (hx2 : x2 < d.width) (hy2 : y2 < d.height)
    (hx3 : x3 < d.width) (hy3 : y3 < d.height) (hrow : ¬ (y1 = y2 ∧ y2 = y3)) :
    ∃ X1 Y1 X2 Y2 X3 Y3 : Nat, triSort x1 y1 x2 y2 x3 y3 = (X1, Y1, X2, Y2, X3, Y3) ∧
      List.Perm [(X1, Y1), (X2, Y2), (X3, Y3)] [(x1, y1), (x2, y2), (x3, y3)] ∧
      Y1 ≤ Y2 ∧ Y2 ≤ Y3 ∧ Y1 < Y3 ∧
      (0 < Y2 → Y3 + 2 ≤ fuel →
        drawTriangleFill fuel d x1 y1 x2 y2 x3 y3 =
          Outcome.done (drawSpans d (closedFormSpans X1 Y1 X2 Y2 X3 Y3))) ∧
      (∀ xa ya xb yb y : Nat, ya < yb → ya ≤ y → y ≤ yb →
        ((min xa xb : Nat) : Int) ≤ edgeX xa ya xb yb y ∧
          edgeX xa ya xb yb y ≤ ((max xa xb : Nat) : Int)) := by
  obtain ⟨X1, Y1, X2, Y2, X3, Y3, hs, hp, h12, h23⟩ :=
    triSort_sorted x1 y1 x2 y2 x3 y3 (by omega) (by omega) (by omega) (by omega) (by omega)
      (by omega)
  obtain ⟨b1, b2, b3⟩ := triSort_mem x1 y1 x2 y2 x3 y3 X1 Y1 X2 Y2 X3 Y3 hp
    (fun v => v.1 < d.width ∧ v.2 < d.height) ⟨hx1, hy1⟩ ⟨hx2, hy2⟩ ⟨hx3, hy3⟩
  simp only at b1 b2 b3
  have h13 : Y1 < Y3 := by
    rcases Nat.lt_or_ge Y1 Y3 with h | h
    · exact h
    · exfalso
      have hY : Y2 = Y1 ∧ Y3 = Y1 := ⟨by omega, by omega⟩
      obtain ⟨c1, c2, c3⟩ := triSort_mem X1 Y1 X2 Y2 X3 Y3 x1 y1 x2 y2 x3 y3 hp.symm
        (fun v => v.2 = Y1) rfl hY.1 hY.2
      simp only at c1 c2 c3
      exact hrow ⟨by omega, by omega⟩
  refine ⟨X1, Y1, X2, Y2, X3, Y3, hs, hp, h12, h23, h13, fun hY2 hf => ?_,
    fun xa ya xb yb y hab h1 h2 => edgeX_between xa ya xb yb y hab h1 h2⟩
  exact drawTriangleFill_sorted_spans fuel d x1 y1 x2 y2 x3 y3 X1 Y1 X2 Y2 X3 Y3 hs
    (by omega) (by omega) (by omega) (by omega) h12 h23 h13 hY2 hf

theorem drawTriangleFill_closed_form_witness :
    (init 128 64).width ≤ 128 ∧ (init 128 64).height ≤ 128 ∧
      ¬ ((10 : Nat) = 1 ∧ (1 : Nat) = 5) ∧
      drawTriangleFill 12 (init 128 64) 10 10 5 1 0 5 =
        Outcome.done (drawSpans (init 128 64) (closedFormSpans 5 1 0 5 10 10)) := by
  refine ⟨by decide, by decide, by decide, ?_⟩
  obtain ⟨X1, Y1, X2, Y2, X3, Y3, hs, _, _, _, _, hrun, _⟩ :=
    drawTriangleFill_closed_form 12 (init 128 64) (by decide) (by decide) 10 10 5 1 0 5
      (by decide) (by decide) (by decide) (by decide) (by decide) (by decide) (by decide)
  have hc : triSort 10 10 5 1 0 5 = (5, 1, 0, 5, 10, 10) := by decide
  rw [hc] at hs
  simp only [Prod.mk.injEq] at hs
  obtain ⟨rfl, rfl, rfl, rfl, rfl, rfl⟩ := hs
  exact hrun (by decide) (by decide)

/-! ## Bitmap blit: the pixels it can change -/

/-- C25, where the claim fails. On the 128x64 display after `init()`, the
one-column bitmap of height 4 whose only byte is `0xFF`, drawn at `(0, 0)`,
turns on pixel `(0, 4)`, which is off before and lies outside the rows
`0 <= py < 4` of the bitmap: the whole source byte of the partial page is
or-ed into the buffer. -/
theorem drawBitmap_partial_page_outside :
    bitAt (init 128 64) 0 4 = false ∧
      bitAt (drawBitmap (init 128 64) [255] 0 0 1 4) 0 4 = true ∧
      ¬ ((0 : Nat) ≤ 0 ∧ (0 : Nat) < 0 + 1 ∧ (0 : Nat) ≤ 4 ∧ (4 : Nat) < 0 + 4) := by
  have hwf : WF (init 128 64) := init_WF 128 64 (by decide) (by decide) (by decide)
  refine ⟨bitAt_init _ _ _ _, ?_, by decide⟩
  rw [drawBitmap_bitAt (init 128 64) hwf [255] 0 0 1 4 (by decide) (by decide) 0 4 (by decide),
    bitAt_init]
  decide

/-- C25, amended. On a well-formed display, for every bitmap height `h` and
every source content, when the whole pages of the bitmap lie on the display
(`x + w <= width` and `y + 8 * pageCount h <= height`, `pageCount h` being
`ceil(h / 8)`): `drawBitmap` changes no pixel outside the page-rounded
rectangle `x <= px < x + w`, `y <= py < y + 8 * pageCount h`; if moreover the
bits of the source beyond row `h` are zero, it changes no pixel outside
`x <= px < x + w`, `y <= py < y + h`; for a height below 256 that is a multiple
of 8 the two rectangles are the same. A zero-area bitmap (`w * h = 0`) leaves
any display unchanged. -/
theorem drawBitmap_changes_within_pages (d : SH1106_OLED) (hwf : WF d) (bitmap : List Nat)
    (x y w h : Nat) (hx : x + w ≤ d.width) (hy : y + 8 * pageCount h ≤ d.height) :
    (∀ px py, px < d.width → py < d.height →
      ¬ (x ≤ px ∧ px < x + w ∧ y ≤ py ∧ py < y + 8 * pageCount h) →
      bitAt (drawBitmap d bitmap x y w h) px py = bitAt d px py) ∧
    ((∀ i k, i < w → h ≤ k → k < 8 * pageCount h →
        (bitmap.getD (i + (k / 8) * w) 0).testBit (k % 8) = false) →
      ∀ px py, px < d.width → py < d.height →
        ¬ (x ≤ px ∧ px < x + w ∧ y ≤ py ∧ py < y + h) →
        bitAt (drawBitmap d bitmap x y w h) px py = bitAt d px py) ∧
    (h % 8 = 0 → h < 256 → 8 * pageCount h = h) ∧
    (∀ (e : SH1106_OLED) (bm : List Nat) (a b w0 h0 : Nat), w0 * h0 = 0 →
      drawBitmap e bm a b w0 h0 = e) := by
  refine ⟨fun px py hpx _ hout => ?_, fun hpad px py hpx _ hout => ?_, fun h8 h256 => ?_,
    fun e bm a b w0 h0 hz => ?_⟩
  · rw [drawBitmap_bitAt d hwf bitmap x y w h hx hy px py hpx]
    have : decide (x ≤ px ∧ px < x + w ∧ y ≤ py ∧ py < y + 8 * pageCount h) = false :=
      decide_eq_false hout
    rw [this, Bool.false_and, Bool.or_false]
  · rw [drawBitmap_bitAt d hwf bitmap x y w h hx hy px py hpx]
    by_cases hin : x ≤ px ∧ px < x + w ∧ y ≤ py ∧ py < y + 8 * pageCount h
    · have hk : h ≤ py - y := by
        by_contra hlt
        exact hout ⟨hin.1, hin.2.1, hin.2.2.1, by omega⟩
      rw [hpad (px - x) (py - y) (by omega) hk (by omega), Bool.and_false, Bool.or_false]
    · have : decide (x ≤ px ∧ px < x + w ∧ y ≤ py ∧ py < y + 8 * pageCount h) = false :=
        decide_eq_false hin
      rw [this, Bool.false_and, Bool.or_false]
  · unfold pageCount
    have h0 : ¬ h % 8 ≠ 0 := fun hne => hne h8
    rw [if_neg h0]
    omega
  · unfold drawBitmap
    rw [if_pos hz]

theorem drawBitmap_changes_within_pages_witness :
    WF (init 128 64) ∧ 3 + 2 ≤ (init 128 64).width ∧
      5 + 8 * pageCount 12 ≤ (init 128 64).height ∧
      bitAt (drawBitmap (init 128 64) [255, 255, 255, 255] 3 5 2 12) 4 21 =
        bitAt (init 128 64) 4 21 ∧
      drawBitmap (init 128 64) [255] 3 5 0 12 = init 128 64 :=
  ⟨init_WF 128 64 (by decide) (by decide) (by decide), by decide, by decide,
    (drawBitmap_changes_within_pages (init 128 64)
      (init_WF 128 64 (by decide) (by decide) (by decide)) [255, 255, 255, 255] 3 5 2 12
      (by decide) (by decide)).1 4 21 (by decide) (by decide) (by decide),
    (drawBitmap_changes_within_pages (init 128 64)
      (init_WF 128 64 (by decide) (by decide) (by decide)) [255, 255, 255, 255] 3 5 2 12
      (by decide) (by decide)).2.2.2 (init 128 64) [255] 3 5 0 12 (by decide)⟩

end SH1106
